import Mathlib

/-!
# S21Matrix: a verification development

Shallow embedding of the `S21Matrix` class (`s21_matrix_oop.h`,
`s21_matrix_oop.cpp`, `s21_matrix_oop_constructors.cpp`,
`s21_matrix_oop_helpers.cpp`, `s21_matrix_oop_operators.cpp`).

Modelling conventions.

* `double` cells are read in two ways.  In the main embedding they are exact
  rational numbers (`ℚ`): rounding, overflow, infinities and NaN of IEEE 754
  arithmetic are outside it, and a statement proved there is a statement about
  cells read as exact numbers.  The members whose result depends on rounding or
  on NaN (`EqMatrix`, `SumMatrix` and `operator+`, `MulNumber`, `MulMatrix`,
  `Determinant`, `CalcComplements`, `InverseMatrix`) are embedded a second time
  with binary64 cells (`Double`, namespace `Fp`), each arithmetic operation
  rounding once to nearest, ties to even.
* `int` extents and indices are unbounded integers (`Int`); no operation of the
  class brings an extent near the 32-bit range before the store itself would be
  too large to allocate.
* The element store `double** matrix_` is a list of rows, the null pointer being
  the empty list.  A raw access `matrix_[i][j]` outside the store is undefined
  behaviour in C++; the model reads `0` and ignores the write there, and every
  theorem about cells is stated for matrices whose store has the shape announced
  by `rows_` and `cols_`, where no such access occurs.
* A thrown exception is an `Except.error`; the exceptions are told apart by the
  condition that raises them (the message of the `throw`), following the error
  taxonomy of the specification.
* A member function that mutates `*this` returns the new receiver.  An argument
  taken by `const S21Matrix&` is a value: receiver and argument are distinct
  objects.
* Where the identity of objects and the ownership of stores matter (copy, move,
  what an exception leaves behind), the ownership layer is used: objects are
  records with a pointer `matrix_` into a heap of stores, `this == &other`
  compares identities, and a call returns the memory at the point where control
  leaves it together with the exception in flight.  The calls of that layer are
  proved to compute what the member functions on values compute.
-/

namespace S21

/-- Error conditions raised by the class, one per kind of `throw` site. -/
inductive Error where
  /-- Thrown as `std::invalid_argument`: constructor or resize with an extent below 1. -/
  | InvalidDimension
  /-- Thrown as `std::invalid_argument`: extents of the operands do not fit. -/
  | DimensionMismatch
  /-- Thrown as `std::out_of_range`: checked element access outside the extents. -/
  | IndexOutOfRange
  /-- Thrown as `std::invalid_argument`: determinant or complements of a non-square matrix. -/
  | NotSquare
  /-- Thrown as `std::invalid_argument`: inverse of a matrix with determinant below tolerance. -/
  | SingularMatrix
  /-- Model only: the recursion budget of `DeterminantFuel` ran out (never
  returned by `Determinant` on a matrix whose store has the announced shape,
  see `Determinant_eq_det`). -/
  | FuelExhausted
  deriving DecidableEq, Repr

/-- Results of throwing code can be compared. -/
instance instDecidableEqExcept {ε α : Type} [DecidableEq ε] [DecidableEq α] :
    DecidableEq (Except ε α)
  | .ok a, .ok b => if h : a = b then isTrue (by rw [h]) else isFalse (fun h2 => h (by cases h2; rfl))
  | .error a, .error b =>
    if h : a = b then isTrue (by rw [h]) else isFalse (fun h2 => h (by cases h2; rfl))
  | .ok _, .error _ => isFalse (fun h => by cases h)
  | .error _, .ok _ => isFalse (fun h => by cases h)

/-- The class `S21Matrix`: `int rows_, cols_; double** matrix_`. -/
structure S21Matrix where
  rows_ : Int
  cols_ : Int
  matrix_ : List (List ℚ)
  deriving DecidableEq, Repr

/-- Raw read `matrix_[i][j]`. -/
def rawGet (s : List (List ℚ)) (i j : Nat) : ℚ :=
  (s.getD i []).getD j 0

/-- Raw write `matrix_[i][j] = v`. -/
def rawSet (s : List (List ℚ)) (i j : Nat) (v : ℚ) : List (List ℚ) :=
  s.set i ((s.getD i []).set j v)

namespace S21Matrix

/-- Member `AllocateMatrix`: `rows_` rows of `cols_` value-initialised (zero) cells. -/
def AllocateMatrix (rows cols : Int) : List (List ℚ) :=
  List.replicate rows.toNat (List.replicate cols.toNat 0)

/-- Default constructor `S21Matrix::S21Matrix()`. -/
def ctorDefault : S21Matrix :=
  { rows_ := 3, cols_ := 3, matrix_ := AllocateMatrix 3 3 }

/-- Parametrized constructor `S21Matrix::S21Matrix(int rows, int cols)`. -/
def ctor (rows cols : Int) : Except Error S21Matrix :=
  if rows < 1 ∨ cols < 1 then .error .InvalidDimension
  else .ok { rows_ := rows, cols_ := cols, matrix_ := AllocateMatrix rows cols }

/-- Accessor `get_rows()`. -/
def get_rows (m : S21Matrix) : Int := m.rows_

/-- Accessor `get_cols()`. -/
def get_cols (m : S21Matrix) : Int := m.cols_

/-- Checked read `operator()(int row, int col) const`. -/
def opCall (m : S21Matrix) (row col : Int) : Except Error ℚ :=
  if row ≥ m.rows_ ∨ col ≥ m.cols_ ∨ row < 0 ∨ col < 0 then .error .IndexOutOfRange
  else .ok (rawGet m.matrix_ row.toNat col.toNat)

/-- Mutable `operator()(int row, int col)` used as the target of an assignment:
checked write of `v` through the returned reference. -/
def opCallSet (m : S21Matrix) (row col : Int) (v : ℚ) : Except Error S21Matrix :=
  if row ≥ m.rows_ ∨ col ≥ m.cols_ ∨ row < 0 ∨ col < 0 then .error .IndexOutOfRange
  else .ok { m with matrix_ := rawSet m.matrix_ row.toNat col.toNat v }

/-- Body of the two nested loops of `SumMatrix`: `matrix_[i][j] += other.matrix_[i][j]`,
the sum being exact (the loop on binary64 cells is `Fp.S21Matrix.SumMatrix.loop`). -/
def SumMatrix.loop (rows cols : Int) (s o : List (List ℚ)) : List (List ℚ) :=
  (List.range rows.toNat).foldl (fun s i =>
    (List.range cols.toNat).foldl (fun s j =>
      rawSet s i j (rawGet s i j + rawGet o i j)) s) s

/-- Member `void SumMatrix(const S21Matrix& other)`. -/
def SumMatrix (m other : S21Matrix) : Except Error S21Matrix :=
  if m.rows_ ≠ other.rows_ ∨ m.cols_ ≠ other.cols_ then .error .DimensionMismatch
  else .ok { m with matrix_ := SumMatrix.loop m.rows_ m.cols_ m.matrix_ other.matrix_ }

/-- Body of the two nested loops of `SubMatrix`: `matrix_[i][j] -= other.matrix_[i][j]`. -/
def SubMatrix.loop (rows cols : Int) (s o : List (List ℚ)) : List (List ℚ) :=
  (List.range rows.toNat).foldl (fun s i =>
    (List.range cols.toNat).foldl (fun s j =>
      rawSet s i j (rawGet s i j - rawGet o i j)) s) s

/-- Member `void SubMatrix(const S21Matrix& other)`. -/
def SubMatrix (m other : S21Matrix) : Except Error S21Matrix :=
  if m.rows_ ≠ other.rows_ ∨ m.cols_ ≠ other.cols_ then .error .DimensionMismatch
  else .ok { m with matrix_ := SubMatrix.loop m.rows_ m.cols_ m.matrix_ other.matrix_ }

/-- Member `void MulNumber(const double num)`. -/
def MulNumber (m : S21Matrix) (num : ℚ) : S21Matrix :=
  { m with matrix_ :=
      (List.range m.rows_.toNat).foldl (fun s i =>
        (List.range m.cols_.toNat).foldl (fun s j =>
          rawSet s i j (rawGet s i j * num)) s) m.matrix_ }

/-- The triple loop of `MulMatrix`:
`result.matrix_[i][j] += matrix_[i][k] * other.matrix_[k][j]`, product and sum
being exact (the loop on binary64 cells is `Fp.S21Matrix.MulMatrix.loop`). -/
def MulMatrix.loop (rows ocols cols : Int) (a b r : List (List ℚ)) : List (List ℚ) :=
  (List.range rows.toNat).foldl (fun r i =>
    (List.range ocols.toNat).foldl (fun r j =>
      (List.range cols.toNat).foldl (fun r k =>
        rawSet r i j (rawGet r i j + rawGet a i k * rawGet b k j)) r) r) r

/-- Member `void MulMatrix(const S21Matrix& other)`; the final `*this = std::move(result)`
gives the receiver the extents and store of `result`. -/
def MulMatrix (m other : S21Matrix) : Except Error S21Matrix :=
  if m.cols_ ≠ other.rows_ then .error .DimensionMismatch
  else do
    let result ← ctor m.rows_ other.cols_
    pure { result with
      matrix_ := MulMatrix.loop m.rows_ other.cols_ m.cols_ m.matrix_ other.matrix_ result.matrix_ }

end S21Matrix

open S21Matrix

/-- Inner loop of `GetMinor` for one source row `i`: the state is the minor
being filled and the column cursor `c_m`. -/
def GetMinor.inner (m : S21Matrix) (skip_col : Int) (i : Nat) (r_m : Int)
    (minor : S21Matrix) : Except Error (S21Matrix × Int) :=
  (List.range m.get_cols.toNat).foldlM (fun (st : S21Matrix × Int) (j : Nat) =>
    if (j : Int) = skip_col then pure st
    else do
      let v ← m.opCall i j
      let minor ← st.1.opCallSet r_m st.2 v
      pure (minor, st.2 + 1)) (minor, 0)

/-- Outer loop of `GetMinor`: the state is the minor being filled and the row
cursor `r_m`. -/
def GetMinor.outer (m : S21Matrix) (skip_row skip_col : Int)
    (minor : S21Matrix) : Except Error (S21Matrix × Int) :=
  (List.range m.get_rows.toNat).foldlM (fun (st : S21Matrix × Int) (i : Nat) =>
    if (i : Int) = skip_row then pure st
    else do
      let st2 ← GetMinor.inner m skip_col i st.2 st.1
      pure (st2.1, st.2 + 1)) (minor, 0)

/-- Helper `S21Matrix GetMinor(const S21Matrix& m, int skip_row, int skip_col)`. -/
def GetMinor (m : S21Matrix) (skip_row skip_col : Int) : Except Error S21Matrix := do
  let minor ← S21Matrix.ctor (m.get_rows - 1) (m.get_cols - 1)
  let st ← GetMinor.outer m skip_row skip_col minor
  pure st.1

namespace S21Matrix

/-- Member `S21Matrix Transpose() const`. -/
def Transpose (m : S21Matrix) : Except Error S21Matrix := do
  let result ← ctor m.cols_ m.rows_
  (List.range m.rows_.toNat).foldlM (fun (result : S21Matrix) (i : Nat) =>
    (List.range m.cols_.toNat).foldlM (fun (result : S21Matrix) (j : Nat) =>
      result.opCallSet j i (rawGet m.matrix_ i j)) result) result

/-- Member `double Determinant() const`, with an explicit budget for the depth of the
recursion over minors: one unit is spent per call. -/
def DeterminantFuel : Nat → S21Matrix → Except Error ℚ
  | 0, _ => .error .FuelExhausted
  | fuel + 1, m =>
    if m.rows_ ≠ m.cols_ then .error .NotSquare
    else if m.rows_ = 1 then .ok (rawGet m.matrix_ 0 0)
    else if m.rows_ = 2 then
      .ok (rawGet m.matrix_ 0 0 * rawGet m.matrix_ 1 1 - rawGet m.matrix_ 0 1 * rawGet m.matrix_ 1 0)
    else
      (List.range m.cols_.toNat).foldlM (fun (result : ℚ) (i : Nat) => do
        let minor ← GetMinor m 0 i
        let minor_det ← DeterminantFuel fuel minor
        let sign : ℚ := if (i : Int) % 2 = 0 then 1 else -1
        pure (result + sign * rawGet m.matrix_ 0 i * minor_det)) 0

/-- Member `double Determinant() const`.  Each recursive call is on a minor with one
row less, so a budget of `rows_ + 1` calls is never exhausted. -/
def Determinant (m : S21Matrix) : Except Error ℚ :=
  DeterminantFuel (m.rows_.toNat + 1) m

/-- Member `S21Matrix CalcComplements() const`. -/
def CalcComplements (m : S21Matrix) : Except Error S21Matrix :=
  if m.rows_ ≠ m.cols_ then .error .NotSquare
  else do
    let result ← ctor m.rows_ m.cols_
    if m.rows_ = 1 then
      result.opCallSet 0 0 1
    else
      (List.range m.rows_.toNat).foldlM (fun (result : S21Matrix) (i : Nat) =>
        (List.range m.cols_.toNat).foldlM (fun (result : S21Matrix) (j : Nat) => do
          let minor ← GetMinor m i j
          let minor_det ← minor.Determinant
          let sign : ℚ := if ((i : Int) + (j : Int)) % 2 = 0 then 1 else -1
          result.opCallSet i j (sign * minor_det)) result) result

/-- Member `S21Matrix InverseMatrix() const`. -/
def InverseMatrix (m : S21Matrix) : Except Error S21Matrix := do
  let det ← m.Determinant
  if |det| < 1 / 10 ^ 7 then .error .SingularMatrix
  else do
    let complements ← m.CalcComplements
    let adjugate ← complements.Transpose
    pure (adjugate.MulNumber (1 / det))

/-- Member `bool EqMatrix(const S21Matrix& other) const`, cells and the literal
`1e-7` read as exact numbers (the member on binary64 cells is
`Fp.S21Matrix.EqMatrix`). -/
def EqMatrix (m other : S21Matrix) : Bool :=
  if m.rows_ ≠ other.rows_ ∨ m.cols_ ≠ other.cols_ then false
  else
    (List.range m.rows_.toNat).all (fun i =>
      (List.range m.cols_.toNat).all (fun j =>
        !decide (|rawGet m.matrix_ i j - rawGet other.matrix_ i j| > 1 / 10 ^ 7)))

end S21Matrix

/-- Build a matrix from literal rows (test fixture: construct, then assign every cell). -/
def ofRows (rows cols : Int) (cells : List (List ℚ)) : S21Matrix :=
  { rows_ := rows, cols_ := cols, matrix_ := cells }

/-- The store `s` holds exactly `r` rows of exactly `c` cells each. -/
def StoreShape (s : List (List ℚ)) (r c : Nat) : Prop :=
  s.length = r ∧ ∀ row ∈ s, row.length = c

/-- The element store of `m` has the shape announced by its extents
(the moved-from state `rows_ = cols_ = 0` with a null store included). -/
def Shaped (m : S21Matrix) : Prop :=
  0 ≤ m.rows_ ∧ 0 ≤ m.cols_ ∧ StoreShape m.matrix_ m.rows_.toNat m.cols_.toNat

/-- Well-formedness of a live matrix: positive extents and a store of that shape. -/
def WellFormed (m : S21Matrix) : Prop :=
  1 ≤ m.rows_ ∧ 1 ≤ m.cols_ ∧ StoreShape m.matrix_ m.rows_.toNat m.cols_.toNat

/-- The square matrix of order `n` read off a store, as a Mathlib matrix. -/
def toMatrix (s : List (List ℚ)) (n : Nat) : Matrix (Fin n) (Fin n) ℚ :=
  Matrix.of fun i j => rawGet s i j

/-- Row-major progress of a nested loop: the cell `(i2, j2)` has been visited
before the iteration `(i, j)`. -/
def visited (i j i2 j2 : Nat) : Prop := i2 < i ∨ (i2 = i ∧ j2 < j)

instance visited_decidable (i j i2 j2 : Nat) : Decidable (visited i j i2 j2) := by
  unfold visited; infer_instance

/-- A call `a.f(b)` of a mutating member function on two distinct objects: the
state after the call is the receiver as left by `f` together with the argument,
which `f` holds by reference to `const` and has no statement writing to. -/
def callOn (f : S21Matrix → S21Matrix → Except Error S21Matrix) (a b : S21Matrix) :
    Except Error (S21Matrix × S21Matrix) :=
  match f a b with
  | .ok a2 => .ok (a2, b)
  | .error e => .error e

/-- Index in the source of the `i`-th row (or column) kept when index `a` is deleted. -/
def skipIdx (a i : Nat) : Nat := if i < a then i else i + 1

/-- Number of indices below `i` that are kept when index `a` is deleted: the
value of the cursors `r_m`, `c_m` of `GetMinor` before iteration `i`. -/
def keptBelow (a i : Nat) : Nat := if i ≤ a then i else i - 1

/-- A matrix under construction inside a loop: extents `r × c` and a store of that shape. -/
def HasShape (m : S21Matrix) (r c : Nat) : Prop :=
  m.rows_ = (r : Int) ∧ m.cols_ = (c : Int) ∧ StoreShape m.matrix_ r c

/-- The cofactor `(i, j)` of the square matrix of order `k + 1` read off a store:
`(-1)^(i+j)` times the determinant of the submatrix without row `i` and column `j`. -/
def cofactor (s : List (List ℚ)) (k : Nat) (i j : Nat) : ℚ :=
  if h : i < k + 1 ∧ j < k + 1 then
    (-1) ^ (i + j) * Matrix.det ((toMatrix s (k + 1)).submatrix
      (Fin.succAbove ⟨i, h.1⟩) (Fin.succAbove ⟨j, h.2⟩))
  else 0

/-- The `n × n` identity matrix: 1 on the diagonal, 0 elsewhere. -/
def identity (n : Nat) : S21Matrix :=
  { rows_ := n, cols_ := n,
    matrix_ := (List.range n).map fun i => (List.range n).map fun j => if i = j then 1 else 0 }

instance StoreShape_decidable (s : List (List ℚ)) (r c : Nat) : Decidable (StoreShape s r c) := by
  unfold StoreShape; infer_instance

instance Shaped_decidable (m : S21Matrix) : Decidable (Shaped m) := by
  unfold Shaped; infer_instance

instance WellFormed_decidable (m : S21Matrix) : Decidable (WellFormed m) := by
  unfold WellFormed; infer_instance

instance HasShape_decidable (m : S21Matrix) (r c : Nat) : Decidable (HasShape m r c) := by
  unfold HasShape; infer_instance

namespace S21Matrix

/-- Copy constructor `S21Matrix::S21Matrix(const S21Matrix& other)`: the extents
of `other`, a freshly allocated store, then the cell-by-cell copy
`matrix_[i][j] = other.matrix_[i][j]`. -/
def ctorCopy (other : S21Matrix) : S21Matrix :=
  { rows_ := other.rows_, cols_ := other.cols_,
    matrix_ :=
      (List.range other.rows_.toNat).foldl (fun s i =>
        (List.range other.cols_.toNat).foldl (fun s j =>
          rawSet s i j (rawGet other.matrix_ i j)) s) (AllocateMatrix other.rows_ other.cols_) }

/-- Binary `S21Matrix operator+(const S21Matrix& other) const`: a copy of the
receiver, then `SumMatrix` on the copy. -/
def opAdd (m other : S21Matrix) : Except Error S21Matrix :=
  (ctorCopy m).SumMatrix other

/-- Member `void set_rows(int new_rows)`; the final `*this = std::move(new_matrix)`
gives the receiver the extents and store of `new_matrix`. -/
def set_rows (m : S21Matrix) (new_rows : Int) : Except Error S21Matrix :=
  if new_rows < 1 then .error .InvalidDimension
  else if new_rows = m.rows_ then .ok m
  else do
    let new_matrix ← ctor new_rows m.cols_
    let rows_to_copy : Int := min m.rows_ new_rows
    pure ⟨new_matrix.rows_, new_matrix.cols_,
      (List.range rows_to_copy.toNat).foldl (fun s i =>
        (List.range m.cols_.toNat).foldl (fun s j =>
          rawSet s i j (rawGet m.matrix_ i j)) s) new_matrix.matrix_⟩

/-- Member `void set_cols(int new_cols)`; the final `*this = std::move(new_matrix)`
gives the receiver the extents and store of `new_matrix`. -/
def set_cols (m : S21Matrix) (new_cols : Int) : Except Error S21Matrix :=
  if new_cols < 1 then .error .InvalidDimension
  else if new_cols = m.cols_ then .ok m
  else do
    let new_matrix ← ctor m.rows_ new_cols
    let cols_to_copy : Int := min m.cols_ new_cols
    pure ⟨new_matrix.rows_, new_matrix.cols_,
      (List.range m.rows_.toNat).foldl (fun s i =>
        (List.range cols_to_copy.toNat).foldl (fun s j =>
          rawSet s i j (rawGet m.matrix_ i j)) s) new_matrix.matrix_⟩

end S21Matrix

/-- A call `a.f()` of a `const` member function: the state after the call is the
returned value together with the receiver, which a `const` member cannot write. -/
def callConst {α : Type} (f : S21Matrix → Except Error α) (a : S21Matrix) :
    Except Error (α × S21Matrix) :=
  match f a with
  | .ok r => .ok (r, a)
  | .error e => .error e

/-- Mutable `double& operator()(int row, int col)` used for reading: the same
check and the same cell as the read-only form. -/
def S21Matrix.opCallMut (m : S21Matrix) (row col : Int) : Except Error ℚ :=
  if row ≥ m.rows_ ∨ col ≥ m.cols_ ∨ row < 0 ∨ col < 0 then .error .IndexOutOfRange
  else .ok (rawGet m.matrix_ row.toNat col.toNat)

/-! ### Ownership layer

Objects with their identity and the pointer `matrix_` into a heap of element
stores.  This layer is used where it matters which object owns which store:
copy, move, and what an exception leaves behind.  A call that may throw returns
the memory at the point where control leaves it, together with the exception in
flight, if any. -/

/-- An object of the class as it lies in memory: the extents and the pointer
`matrix_`, the address of its element store on the heap (`none` is `nullptr`). -/
structure Obj where
  rows_ : Int
  cols_ : Int
  matrix_ : Option Nat
  deriving DecidableEq, Repr

/-- The heap of element stores by address; the whole two-level array behind one
`double**` is one cell, and `none` marks a store released by `delete[]`. -/
abbrev Heap := List (Option (List (List ℚ)))

/-- Memory: the objects in scope, identified by their position (the address
`this`), and the heap of their stores. -/
structure Mem where
  objs : List Obj
  heap : Heap
  deriving DecidableEq, Repr

/-- The store a pointer designates (empty for `nullptr` and for a released store). -/
def heapStore (h : Heap) (p : Option Nat) : List (List ℚ) :=
  match p with
  | none => []
  | some a => (h.getD a none).getD []

/-- Raw read `p[i][j]` through a pointer. -/
def heapRead (h : Heap) (p : Option Nat) (i j : Nat) : ℚ :=
  rawGet (heapStore h p) i j

/-- Raw write `p[i][j] = v` through a pointer. -/
def heapWrite (h : Heap) (p : Option Nat) (i j : Nat) (v : ℚ) : Heap :=
  match p with
  | none => h
  | some a =>
    match h.getD a none with
    | none => h
    | some s => h.set a (some (rawSet s i j v))

/-- Release of a store: `for (i < rows_) delete[] matrix_[i]; delete[] matrix_;`
(no effect on `nullptr`). -/
def heapDelete (h : Heap) (p : Option Nat) : Heap :=
  match p with
  | none => h
  | some a => h.set a none

/-- The nested loop `dst[i][j] = src[i][j]` for `i < rows`, `j < cols`, as it occurs
in the copy constructor, in copy assignment, in `set_rows` and in `set_cols`. -/
def copyCells (h : Heap) (dst src : Option Nat) (rows cols : Int) : Heap :=
  (List.range rows.toNat).foldl (fun h i =>
    (List.range cols.toNat).foldl (fun h j =>
      heapWrite h dst i j (heapRead h src i j)) h) h

namespace Obj

/-- Member `AllocateMatrix` on the heap: a fresh store of `rows_ × cols_` zero
cells, its address stored in `matrix_`. -/
def AllocateMatrix (h : Heap) (o : Obj) : Heap × Obj :=
  (h ++ [some (S21Matrix.AllocateMatrix o.rows_ o.cols_)], ⟨o.rows_, o.cols_, some h.length⟩)

/-- Parametrized constructor `S21Matrix(int rows, int cols)` of a new object. -/
def ctor (h : Heap) (rows cols : Int) : Except Error (Heap × Obj) :=
  if rows < 1 ∨ cols < 1 then .error .InvalidDimension
  else .ok (AllocateMatrix h ⟨rows, cols, none⟩)

/-- Copy constructor `S21Matrix(const S21Matrix& other)` of a new object. -/
def ctorCopy (h : Heap) (other : Obj) : Heap × Obj :=
  (copyCells (AllocateMatrix h ⟨other.rows_, other.cols_, none⟩).1
      (AllocateMatrix h ⟨other.rows_, other.cols_, none⟩).2.matrix_ other.matrix_
      other.rows_ other.cols_,
    (AllocateMatrix h ⟨other.rows_, other.cols_, none⟩).2)

/-- Move constructor `S21Matrix(S21Matrix&& other)`: the new object takes the
fields of `other`, which is left with `rows_ = cols_ = 0` and `nullptr`.  The
result is the new object and `other` after the call. -/
def ctorMove (other : Obj) : Obj × Obj :=
  (⟨other.rows_, other.cols_, other.matrix_⟩, ⟨0, 0, none⟩)

/-- Destructor `~S21Matrix()`. -/
def dtor (h : Heap) (o : Obj) : Heap :=
  heapDelete h o.matrix_

/-- Body of move assignment `operator=(S21Matrix&& other)` under `this != &other`:
the store of `this` is released, `this` takes the fields of `other`, and `other`
is left with `rows_ = cols_ = 0` and `nullptr`.  The result is the heap, `this`
and `other` after the call. -/
def moveFrom (h : Heap) (this other : Obj) : Heap × Obj × Obj :=
  (heapDelete h this.matrix_, ⟨other.rows_, other.cols_, other.matrix_⟩, ⟨0, 0, none⟩)

end Obj

namespace Mem

/-- The object with identity `id`. -/
def obj (w : Mem) (id : Nat) : Obj :=
  w.objs.getD id ⟨0, 0, none⟩

/-- The matrix value an object stands for: its extents and the store it points to. -/
def view (w : Mem) (id : Nat) : S21Matrix :=
  ⟨(w.obj id).rows_, (w.obj id).cols_, heapStore w.heap (w.obj id).matrix_⟩

/-- Declaration `S21Matrix b(a);`: the new object gets the next identity. -/
def ctorCopy (w : Mem) (other : Nat) : Mem :=
  ⟨w.objs ++ [(Obj.ctorCopy w.heap (w.obj other)).2], (Obj.ctorCopy w.heap (w.obj other)).1⟩

/-- Declaration `S21Matrix b(std::move(a));`: the new object gets the next identity. -/
def ctorMove (w : Mem) (other : Nat) : Mem :=
  ⟨w.objs.set other (Obj.ctorMove (w.obj other)).2 ++ [(Obj.ctorMove (w.obj other)).1], w.heap⟩

/-- Move assignment `S21Matrix& operator=(S21Matrix&& other) noexcept`, with its
test `this != &other` on the identities. -/
def opAssignMove (w : Mem) (this other : Nat) : Mem :=
  if this ≠ other then
    ⟨(w.objs.set this (Obj.moveFrom w.heap (w.obj this) (w.obj other)).2.1).set other
        (Obj.moveFrom w.heap (w.obj this) (w.obj other)).2.2,
      (Obj.moveFrom w.heap (w.obj this) (w.obj other)).1⟩
  else w

/-- Copy assignment `S21Matrix& operator=(const S21Matrix& other)`: the test
`this == &other`, the local `temp(other.rows_, other.cols_)`, the copy loop,
`*this = std::move(temp)` and the destruction of `temp` at the end of the scope. -/
def opAssignCopy (w : Mem) (this other : Nat) : Mem × Option Error :=
  if this = other then (w, none)
  else
    match Obj.ctor w.heap (w.obj other).rows_ (w.obj other).cols_ with
    | .error e => (w, some e)
    | .ok (h1, temp) =>
      let h2 := copyCells h1 temp.matrix_ (w.obj other).matrix_ (w.obj other).rows_
        (w.obj other).cols_
      let mv := Obj.moveFrom h2 (w.obj this) temp
      (⟨w.objs.set this mv.2.1, Obj.dtor mv.1 mv.2.2⟩, none)

/-- Write `m(row, col) = v` through the mutable `operator()`. -/
def opCallSet (w : Mem) (this : Nat) (row col : Int) (v : ℚ) : Mem × Option Error :=
  if row ≥ (w.obj this).rows_ ∨ col ≥ (w.obj this).cols_ ∨ row < 0 ∨ col < 0 then
    (w, some .IndexOutOfRange)
  else (⟨w.objs, heapWrite w.heap (w.obj this).matrix_ row.toNat col.toNat v⟩, none)

/-- Member `void SumMatrix(const S21Matrix& other)` on objects. -/
def SumMatrix (w : Mem) (this other : Nat) : Mem × Option Error :=
  if (w.obj this).rows_ ≠ (w.obj other).rows_ ∨ (w.obj this).cols_ ≠ (w.obj other).cols_ then
    (w, some .DimensionMismatch)
  else
    (⟨w.objs, (List.range (w.obj this).rows_.toNat).foldl (fun h i =>
        (List.range (w.obj this).cols_.toNat).foldl (fun h j =>
          heapWrite h (w.obj this).matrix_ i j
            (heapRead h (w.obj this).matrix_ i j + heapRead h (w.obj other).matrix_ i j)) h)
        w.heap⟩, none)

/-- Member `void SubMatrix(const S21Matrix& other)` on objects. -/
def SubMatrix (w : Mem) (this other : Nat) : Mem × Option Error :=
  if (w.obj this).rows_ ≠ (w.obj other).rows_ ∨ (w.obj this).cols_ ≠ (w.obj other).cols_ then
    (w, some .DimensionMismatch)
  else
    (⟨w.objs, (List.range (w.obj this).rows_.toNat).foldl (fun h i =>
        (List.range (w.obj this).cols_.toNat).foldl (fun h j =>
          heapWrite h (w.obj this).matrix_ i j
            (heapRead h (w.obj this).matrix_ i j - heapRead h (w.obj other).matrix_ i j)) h)
        w.heap⟩, none)

/-- Member `void MulMatrix(const S21Matrix& other)` on objects: the local `result`,
the triple loop, `*this = std::move(result)` and the destruction of `result`. -/
def MulMatrix (w : Mem) (this other : Nat) : Mem × Option Error :=
  if (w.obj this).cols_ ≠ (w.obj other).rows_ then (w, some .DimensionMismatch)
  else
    match Obj.ctor w.heap (w.obj this).rows_ (w.obj other).cols_ with
    | .error e => (w, some e)
    | .ok (h1, result) =>
      let h2 := (List.range (w.obj this).rows_.toNat).foldl (fun h i =>
        (List.range (w.obj other).cols_.toNat).foldl (fun h j =>
          (List.range (w.obj this).cols_.toNat).foldl (fun h k =>
            heapWrite h result.matrix_ i j
              (heapRead h result.matrix_ i j
                + heapRead h (w.obj this).matrix_ i k * heapRead h (w.obj other).matrix_ k j))
            h) h) h1
      let mv := Obj.moveFrom h2 (w.obj this) result
      (⟨w.objs.set this mv.2.1, Obj.dtor mv.1 mv.2.2⟩, none)

/-- Member `void set_rows(int new_rows)` on objects. -/
def set_rows (w : Mem) (this : Nat) (new_rows : Int) : Mem × Option Error :=
  if new_rows < 1 then (w, some .InvalidDimension)
  else if new_rows = (w.obj this).rows_ then (w, none)
  else
    match Obj.ctor w.heap new_rows (w.obj this).cols_ with
    | .error e => (w, some e)
    | .ok (h1, new_matrix) =>
      let h2 := copyCells h1 new_matrix.matrix_ (w.obj this).matrix_
        (min (w.obj this).rows_ new_rows) (w.obj this).cols_
      let mv := Obj.moveFrom h2 (w.obj this) new_matrix
      (⟨w.objs.set this mv.2.1, Obj.dtor mv.1 mv.2.2⟩, none)

/-- Member `void set_cols(int new_cols)` on objects. -/
def set_cols (w : Mem) (this : Nat) (new_cols : Int) : Mem × Option Error :=
  if new_cols < 1 then (w, some .InvalidDimension)
  else if new_cols = (w.obj this).cols_ then (w, none)
  else
    match Obj.ctor w.heap (w.obj this).rows_ new_cols with
    | .error e => (w, some e)
    | .ok (h1, new_matrix) =>
      let h2 := copyCells h1 new_matrix.matrix_ (w.obj this).matrix_
        (w.obj this).rows_ (min (w.obj this).cols_ new_cols)
      let mv := Obj.moveFrom h2 (w.obj this) new_matrix
      (⟨w.objs.set this mv.2.1, Obj.dtor mv.1 mv.2.2⟩, none)

end Mem

/-- The pointer `p` does not point beyond the heap `h`. -/
def PtrOk (h : Heap) (p : Option Nat) : Prop :=
  ∀ a, p = some a → a < h.length

/-- The object `id` of `w` is in scope and owns a store that has not been released. -/
def Mem.Live (w : Mem) (id : Nat) : Prop :=
  id < w.objs.length ∧
    ∃ a s, (w.obj id).matrix_ = some a ∧ a < w.heap.length ∧ w.heap.getD a none = some s

/-- The objects `d` and `a` of `w` do not point to the same store. -/
def Mem.NoShare (w : Mem) (d a : Nat) : Prop :=
  ∀ p, (w.obj d).matrix_ = some p → (w.obj a).matrix_ ≠ some p

namespace S21Matrix

/-- Binary `S21Matrix operator-(const S21Matrix& other) const`: a copy of the
receiver, then `SubMatrix` on the copy. -/
def opSub (m other : S21Matrix) : Except Error S21Matrix :=
  (ctorCopy m).SubMatrix other

/-- Binary `S21Matrix operator*(const S21Matrix& other) const`: a copy of the
receiver, then `MulMatrix` on the copy. -/
def opMul (m other : S21Matrix) : Except Error S21Matrix :=
  (ctorCopy m).MulMatrix other

/-- Binary `S21Matrix operator*(const double num) const`: a copy of the receiver,
then `MulNumber` on the copy. -/
def opMulNumber (m : S21Matrix) (num : ℚ) : S21Matrix :=
  (ctorCopy m).MulNumber num

/-- Comparison `bool operator==(const S21Matrix& other) const`. -/
def opEq (m other : S21Matrix) : Bool :=
  m.EqMatrix other

/-- Compound `S21Matrix& operator+=(const S21Matrix& other)`. -/
def opAddAssign (m other : S21Matrix) : Except Error S21Matrix :=
  m.SumMatrix other

/-- Compound `S21Matrix& operator-=(const S21Matrix& other)`. -/
def opSubAssign (m other : S21Matrix) : Except Error S21Matrix :=
  m.SubMatrix other

/-- Compound `S21Matrix& operator*=(const S21Matrix& other)`. -/
def opMulAssign (m other : S21Matrix) : Except Error S21Matrix :=
  m.MulMatrix other

/-- Compound `S21Matrix& operator*=(const double num)`. -/
def opMulNumberAssign (m : S21Matrix) (num : ℚ) : S21Matrix :=
  m.MulNumber num

end S21Matrix

namespace Mem

/-- Member `void MulNumber(const double num)` on objects. -/
def MulNumber (w : Mem) (this : Nat) (num : ℚ) : Mem :=
  ⟨w.objs, (List.range (w.obj this).rows_.toNat).foldl (fun h i =>
      (List.range (w.obj this).cols_.toNat).foldl (fun h j =>
        heapWrite h (w.obj this).matrix_ i j (heapRead h (w.obj this).matrix_ i j * num)) h)
      w.heap⟩

/-- Member `bool EqMatrix(const S21Matrix& other) const` on objects. -/
def EqMatrix (w : Mem) (this other : Nat) : Bool :=
  if (w.obj this).rows_ ≠ (w.obj other).rows_ ∨ (w.obj this).cols_ ≠ (w.obj other).cols_ then
    false
  else
    (List.range (w.obj this).rows_.toNat).all (fun i =>
      (List.range (w.obj this).cols_.toNat).all (fun j =>
        !decide (|heapRead w.heap (w.obj this).matrix_ i j
          - heapRead w.heap (w.obj other).matrix_ i j| > 1 / 10 ^ 7)))

/-- Stack unwinding past the most recently declared object: its destructor runs
and it leaves the scope. -/
def unwindLast (w : Mem) : Mem :=
  ⟨w.objs.dropLast, Obj.dtor w.heap (w.obj (w.objs.length - 1))⟩

/-- Binary `operator+` on objects: `S21Matrix result(*this);` declares the object
`w.objs.length`, `result.SumMatrix(other);` works on it, and `return result;`
hands that object to the caller.  If `SumMatrix` throws, `result` is destroyed
on the way out. -/
def opAdd (w : Mem) (this other : Nat) : Mem × Option Error :=
  match (w.ctorCopy this).SumMatrix w.objs.length other with
  | (w2, none) => (w2, none)
  | (w2, some e) => (w2.unwindLast, some e)

/-- Binary `operator-` on objects, as `operator+` with `SubMatrix`. -/
def opSub (w : Mem) (this other : Nat) : Mem × Option Error :=
  match (w.ctorCopy this).SubMatrix w.objs.length other with
  | (w2, none) => (w2, none)
  | (w2, some e) => (w2.unwindLast, some e)

/-- Binary `operator*` with a matrix on objects, as `operator+` with `MulMatrix`. -/
def opMul (w : Mem) (this other : Nat) : Mem × Option Error :=
  match (w.ctorCopy this).MulMatrix w.objs.length other with
  | (w2, none) => (w2, none)
  | (w2, some e) => (w2.unwindLast, some e)

/-- Binary `operator*` with a number on objects: the copy `w.objs.length`, then
`MulNumber` on it. -/
def opMulNumber (w : Mem) (this : Nat) (num : ℚ) : Mem :=
  (w.ctorCopy this).MulNumber w.objs.length num

/-- Comparison `operator==` on objects. -/
def opEq (w : Mem) (this other : Nat) : Bool :=
  w.EqMatrix this other

/-- Compound `operator+=` on objects: `SumMatrix(other); return *this;`. -/
def opAddAssign (w : Mem) (this other : Nat) : Mem × Option Error :=
  w.SumMatrix this other

/-- Compound `operator-=` on objects: `SubMatrix(other); return *this;`. -/
def opSubAssign (w : Mem) (this other : Nat) : Mem × Option Error :=
  w.SubMatrix this other

/-- Compound `operator*=` with a matrix on objects: `MulMatrix(other); return *this;`. -/
def opMulAssign (w : Mem) (this other : Nat) : Mem × Option Error :=
  w.MulMatrix this other

/-- Compound `operator*=` with a number on objects: `MulNumber(num); return *this;`. -/
def opMulNumberAssign (w : Mem) (this : Nat) (num : ℚ) : Mem :=
  w.MulNumber this num

end Mem

/-- Every object in scope before a call is, after it, the same record and stands
for the same matrix. -/
def Mem.Preserves (w w2 : Mem) : Prop :=
  ∀ x, x < w.objs.length → PtrOk w.heap (w.obj x).matrix_ →
    w2.obj x = w.obj x ∧ w2.view x = w.view x

/-! ## IEEE 754 binary64 cells

A second embedding of the members whose result depends on how `double`
arithmetic rounds.  Every operation is the correctly rounded one of IEEE 754
(round to nearest, ties to even), each C++ operation rounding once: no fused
multiply-add and no extended intermediate precision. -/

/-- The type `double`: an IEEE 754 binary64 datum.  A finite non-zero number is
held by its exact value; zero and infinity carry their sign; the payload and the
sign of a NaN, which no operation of the class observes, are not kept. -/
inductive Double where
  /-- Not a number. -/
  | nan
  /-- Infinity, negative when `neg` is set. -/
  | inf (neg : Bool)
  /-- Zero, negative when `neg` is set. -/
  | zero (neg : Bool)
  /-- A finite number other than zero, by its exact value. -/
  | fin (q : ℚ)
  deriving DecidableEq, Repr

namespace Double

/-- The power `2 ^ e` for an integer exponent. -/
def pow2 (e : Int) : ℚ :=
  if 0 ≤ e then 2 ^ e.toNat else 1 / 2 ^ (-e).toNat

/-- The position of the leading bit of `n`, found by halving; the first argument
bounds the number of halvings. -/
def log2Fuel : Nat → Nat → Nat
  | 0, _ => 0
  | fuel + 1, n => if 2 ≤ n then log2Fuel fuel (n / 2) + 1 else 0

/-- The position of the leading bit of `n ≥ 1`: the `k` with `2 ^ k ≤ n < 2 ^ (k + 1)`. -/
def log2 (n : Nat) : Nat := log2Fuel n n

/-- The exponent of a positive number: the `e` with `2 ^ e ≤ a < 2 ^ (e + 1)`,
which is the difference of the leading-bit positions of numerator and
denominator or one less. -/
def ilog2 (a : ℚ) : Int :=
  if a < pow2 ((log2 a.num.toNat : Int) - (log2 a.den : Int)) then
    (log2 a.num.toNat : Int) - (log2 a.den : Int) - 1
  else (log2 a.num.toNat : Int) - (log2 a.den : Int)

/-- The integer nearest to a number `m ≥ 0`, the even one of the two when `m` lies
halfway. -/
def roundEven (m : ℚ) : Nat :=
  if 2 * (m.num.toNat % m.den) < m.den then m.num.toNat / m.den
  else if m.den < 2 * (m.num.toNat % m.den) then m.num.toNat / m.den + 1
  else if (m.num.toNat / m.den) % 2 = 0 then m.num.toNat / m.den
  else m.num.toNat / m.den + 1

/-- The spacing of the binary64 numbers around `q ≠ 0`: 53 significant bits for
a normal number (exponent at least `-1022`), the fixed spacing `2 ^ (-1074)`
below. -/
def quantum (q : ℚ) : ℚ :=
  pow2 (max (ilog2 |q|) (-1022) - 52)

/-- The magnitude of the binary64 number nearest to `q ≠ 0` (ties to even); it
may be `0` (underflow) or reach `2 ^ 1024` (overflow). -/
def nearest (q : ℚ) : ℚ :=
  (roundEven (|q| / quantum q) : ℚ) * quantum q

/-- Rounding of an exact result to binary64: round to nearest, ties to even;
an exact zero is `+0`, a result that underflows to zero keeps its sign, and a
result that rounds to `2 ^ 1024` or beyond is the infinity of its sign. -/
def round (q : ℚ) : Double :=
  if q = 0 then .zero false
  else if nearest q = 0 then .zero (decide (q < 0))
  else if pow2 1024 ≤ nearest q then .inf (decide (q < 0))
  else .fin (if q < 0 then -nearest q else nearest q)

/-- A literal of the source, such as `1e-7`, `1.0` or `0.0`: the binary64 number
nearest to its decimal value. -/
def lit (q : ℚ) : Double := round q

/-- The sign bit of a datum that is not a NaN. -/
def isNeg : Double → Bool
  | .nan => false
  | .inf s => s
  | .zero s => s
  | .fin q => decide (q < 0)

/-- The exact value of a finite datum (`0` for a zero of either sign). -/
def val : Double → ℚ
  | .fin q => q
  | _ => 0

/-- Unary minus. -/
def neg : Double → Double
  | .nan => .nan
  | .inf s => .inf (!s)
  | .zero s => .zero (!s)
  | .fin q => .fin (-q)

/-- The function `std::fabs`. -/
def fabs : Double → Double
  | .nan => .nan
  | .inf _ => .inf false
  | .zero _ => .zero false
  | .fin q => .fin |q|

/-- The operation `a + b`. -/
def add : Double → Double → Double
  | .nan, _ => .nan
  | _, .nan => .nan
  | .inf s, .inf t => if s = t then .inf s else .nan
  | .inf s, _ => .inf s
  | _, .inf t => .inf t
  | .zero s, .zero t => .zero (s && t)
  | .zero _, .fin q => .fin q
  | .fin p, .zero _ => .fin p
  | .fin p, .fin q => round (p + q)

/-- The operation `a - b`, which IEEE 754 defines as `a + (-b)`. -/
def sub (a b : Double) : Double := add a (neg b)

/-- The operation `a * b`. -/
def mul : Double → Double → Double
  | .nan, _ => .nan
  | _, .nan => .nan
  | .inf _, .zero _ => .nan
  | .zero _, .inf _ => .nan
  | .inf s, b => .inf (xor s (isNeg b))
  | a, .inf t => .inf (xor (isNeg a) t)
  | .zero s, b => .zero (xor s (isNeg b))
  | a, .zero t => .zero (xor (isNeg a) t)
  | .fin p, .fin q => round (p * q)

/-- The operation `a / b`. -/
def div : Double → Double → Double
  | .nan, _ => .nan
  | _, .nan => .nan
  | .inf _, .inf _ => .nan
  | .zero _, .zero _ => .nan
  | .inf s, b => .inf (xor s (isNeg b))
  | a, .inf t => .zero (xor (isNeg a) t)
  | .zero s, .fin q => .zero (xor s (decide (q < 0)))
  | .fin p, .zero t => .inf (xor (decide (p < 0)) t)
  | .fin p, .fin q => round (p / q)

/-- The comparison `a < b`, false when either side is a NaN. -/
def lt : Double → Double → Bool
  | .nan, _ => false
  | _, .nan => false
  | .inf s, .inf t => s && !t
  | .inf s, _ => s
  | _, .inf t => !t
  | a, b => decide (a.val < b.val)

/-- The comparison `a > b`, false when either side is a NaN. -/
def gt (a b : Double) : Bool := lt b a

/-- The datum is a binary64 number: a finite non-zero value is one that rounding
leaves as it is. -/
def IsBinary64 : Double → Prop
  | .fin q => round q = .fin q
  | _ => True

instance IsBinary64_decidable (d : Double) : Decidable (IsBinary64 d) := by
  cases d <;> unfold IsBinary64 <;> infer_instance

end Double

namespace Fp

/-- The class `S21Matrix` with binary64 cells: `int rows_, cols_; double** matrix_`. -/
structure S21Matrix where
  rows_ : Int
  cols_ : Int
  matrix_ : List (List Double)
  deriving DecidableEq, Repr

/-- Raw read `matrix_[i][j]`. -/
def rawGet (s : List (List Double)) (i j : Nat) : Double :=
  (s.getD i []).getD j (.zero false)

/-- Raw write `matrix_[i][j] = v`. -/
def rawSet (s : List (List Double)) (i j : Nat) (v : Double) : List (List Double) :=
  s.set i ((s.getD i []).set j v)

namespace S21Matrix

/-- Member `AllocateMatrix`: `rows_` rows of `cols_` value-initialised (`+0.0`) cells. -/
def AllocateMatrix (rows cols : Int) : List (List Double) :=
  List.replicate rows.toNat (List.replicate cols.toNat (.zero false))

/-- Parametrized constructor `S21Matrix::S21Matrix(int rows, int cols)`. -/
def ctor (rows cols : Int) : Except Error S21Matrix :=
  if rows < 1 ∨ cols < 1 then .error .InvalidDimension
  else .ok { rows_ := rows, cols_ := cols, matrix_ := AllocateMatrix rows cols }

/-- Accessor `get_rows()`. -/
def get_rows (m : S21Matrix) : Int := m.rows_

/-- Accessor `get_cols()`. -/
def get_cols (m : S21Matrix) : Int := m.cols_

/-- Checked read `operator()(int row, int col) const`. -/
def opCall (m : S21Matrix) (row col : Int) : Except Error Double :=
  if row ≥ m.rows_ ∨ col ≥ m.cols_ ∨ row < 0 ∨ col < 0 then .error .IndexOutOfRange
  else .ok (rawGet m.matrix_ row.toNat col.toNat)

/-- Mutable `operator()(int row, int col)` used as the target of an assignment:
checked write of `v` through the returned reference. -/
def opCallSet (m : S21Matrix) (row col : Int) (v : Double) : Except Error S21Matrix :=
  if row ≥ m.rows_ ∨ col ≥ m.cols_ ∨ row < 0 ∨ col < 0 then .error .IndexOutOfRange
  else .ok { m with matrix_ := rawSet m.matrix_ row.toNat col.toNat v }

/-- Copy constructor `S21Matrix::S21Matrix(const S21Matrix& other)`: the extents
of `other`, a freshly allocated store, then the cell-by-cell copy
`matrix_[i][j] = other.matrix_[i][j]`. -/
def ctorCopy (other : S21Matrix) : S21Matrix :=
  { rows_ := other.rows_, cols_ := other.cols_,
    matrix_ :=
      (List.range other.rows_.toNat).foldl (fun s i =>
        (List.range other.cols_.toNat).foldl (fun s j =>
          rawSet s i j (rawGet other.matrix_ i j)) s) (AllocateMatrix other.rows_ other.cols_) }

/-- Body of the two nested loops of `SumMatrix`: `matrix_[i][j] += other.matrix_[i][j]`. -/
def SumMatrix.loop (rows cols : Int) (s o : List (List Double)) : List (List Double) :=
  (List.range rows.toNat).foldl (fun s i =>
    (List.range cols.toNat).foldl (fun s j =>
      rawSet s i j (Double.add (rawGet s i j) (rawGet o i j))) s) s

/-- Member `void SumMatrix(const S21Matrix& other)`. -/
def SumMatrix (m other : S21Matrix) : Except Error S21Matrix :=
  if m.rows_ ≠ other.rows_ ∨ m.cols_ ≠ other.cols_ then .error .DimensionMismatch
  else .ok { m with matrix_ := SumMatrix.loop m.rows_ m.cols_ m.matrix_ other.matrix_ }

/-- Binary `S21Matrix operator+(const S21Matrix& other) const`: a copy of the
receiver, then `SumMatrix` on the copy. -/
def opAdd (m other : S21Matrix) : Except Error S21Matrix :=
  (ctorCopy m).SumMatrix other

/-- Member `void MulNumber(const double num)`: `matrix_[i][j] *= num`. -/
def MulNumber (m : S21Matrix) (num : Double) : S21Matrix :=
  { m with matrix_ :=
      (List.range m.rows_.toNat).foldl (fun s i =>
        (List.range m.cols_.toNat).foldl (fun s j =>
          rawSet s i j (Double.mul (rawGet s i j) num)) s) m.matrix_ }

/-- The triple loop of `MulMatrix`:
`result.matrix_[i][j] += matrix_[i][k] * other.matrix_[k][j]`, the product rounded
before the sum. -/
def MulMatrix.loop (rows ocols cols : Int) (a b r : List (List Double)) :
    List (List Double) :=
  (List.range rows.toNat).foldl (fun r i =>
    (List.range ocols.toNat).foldl (fun r j =>
      (List.range cols.toNat).foldl (fun r k =>
        rawSet r i j (Double.add (rawGet r i j) (Double.mul (rawGet a i k) (rawGet b k j))))
        r) r) r

/-- Member `void MulMatrix(const S21Matrix& other)`; the final `*this = std::move(result)`
gives the receiver the extents and store of `result`. -/
def MulMatrix (m other : S21Matrix) : Except Error S21Matrix :=
  if m.cols_ ≠ other.rows_ then .error .DimensionMismatch
  else
    match ctor m.rows_ other.cols_ with
    | .error e => .error e
    | .ok result => .ok { result with
        matrix_ :=
          MulMatrix.loop m.rows_ other.cols_ m.cols_ m.matrix_ other.matrix_ result.matrix_ }

end S21Matrix

/-- Inner loop of `GetMinor` for one source row `i`: the state is the minor
being filled and the column cursor `c_m`. -/
def GetMinor.inner (m : S21Matrix) (skip_col : Int) (i : Nat) (r_m : Int)
    (minor : S21Matrix) : Except Error (S21Matrix × Int) :=
  (List.range m.get_cols.toNat).foldlM (fun (st : S21Matrix × Int) (j : Nat) =>
    if (j : Int) = skip_col then pure st
    else do
      let v ← m.opCall i j
      let minor ← st.1.opCallSet r_m st.2 v
      pure (minor, st.2 + 1)) (minor, 0)

/-- Outer loop of `GetMinor`: the state is the minor being filled and the row
cursor `r_m`. -/
def GetMinor.outer (m : S21Matrix) (skip_row skip_col : Int)
    (minor : S21Matrix) : Except Error (S21Matrix × Int) :=
  (List.range m.get_rows.toNat).foldlM (fun (st : S21Matrix × Int) (i : Nat) =>
    if (i : Int) = skip_row then pure st
    else do
      let st2 ← GetMinor.inner m skip_col i st.2 st.1
      pure (st2.1, st.2 + 1)) (minor, 0)

/-- Helper `S21Matrix GetMinor(const S21Matrix& m, int skip_row, int skip_col)`. -/
def GetMinor (m : S21Matrix) (skip_row skip_col : Int) : Except Error S21Matrix := do
  let minor ← Fp.S21Matrix.ctor (m.get_rows - 1) (m.get_cols - 1)
  let st ← GetMinor.outer m skip_row skip_col minor
  pure st.1

namespace S21Matrix

/-- Member `S21Matrix Transpose() const`. -/
def Transpose (m : S21Matrix) : Except Error S21Matrix := do
  let result ← Fp.S21Matrix.ctor m.cols_ m.rows_
  (List.range m.rows_.toNat).foldlM (fun (result : S21Matrix) (i : Nat) =>
    (List.range m.cols_.toNat).foldlM (fun (result : S21Matrix) (j : Nat) =>
      result.opCallSet j i (rawGet m.matrix_ i j)) result) result

/-- Member `double Determinant() const`, with an explicit budget for the depth of the
recursion over minors: one unit is spent per call.  In
`result += sign * matrix_[0][i] * minor_det` each product and the sum round. -/
def DeterminantFuel : Nat → S21Matrix → Except Error Double
  | 0, _ => .error .FuelExhausted
  | fuel + 1, m =>
    if m.rows_ ≠ m.cols_ then .error .NotSquare
    else if m.rows_ = 1 then .ok (rawGet m.matrix_ 0 0)
    else if m.rows_ = 2 then
      .ok (Double.sub (Double.mul (rawGet m.matrix_ 0 0) (rawGet m.matrix_ 1 1))
        (Double.mul (rawGet m.matrix_ 0 1) (rawGet m.matrix_ 1 0)))
    else
      (List.range m.cols_.toNat).foldlM (fun (result : Double) (i : Nat) => do
        let minor ← GetMinor m 0 i
        let minor_det ← DeterminantFuel fuel minor
        let sign : Double := if (i : Int) % 2 = 0 then Double.lit 1 else Double.lit (-1)
        pure (Double.add result
          (Double.mul (Double.mul sign (rawGet m.matrix_ 0 i)) minor_det))) (Double.lit 0)

/-- Member `double Determinant() const`.  Each recursive call is on a minor with one
row less, so a budget of `rows_ + 1` calls is never exhausted. -/
def Determinant (m : S21Matrix) : Except Error Double :=
  DeterminantFuel (m.rows_.toNat + 1) m

/-- Member `S21Matrix CalcComplements() const`. -/
def CalcComplements (m : S21Matrix) : Except Error S21Matrix :=
  if m.rows_ ≠ m.cols_ then .error .NotSquare
  else do
    let result ← Fp.S21Matrix.ctor m.rows_ m.cols_
    if m.rows_ = 1 then
      result.opCallSet 0 0 (Double.lit 1)
    else
      (List.range m.rows_.toNat).foldlM (fun (result : S21Matrix) (i : Nat) =>
        (List.range m.cols_.toNat).foldlM (fun (result : S21Matrix) (j : Nat) => do
          let minor ← GetMinor m i j
          let minor_det ← minor.Determinant
          let sign : Double :=
            if ((i : Int) + (j : Int)) % 2 = 0 then Double.lit 1 else Double.lit (-1)
          result.opCallSet i j (Double.mul sign minor_det)) result) result

/-- Member `S21Matrix InverseMatrix() const`. -/
def InverseMatrix (m : S21Matrix) : Except Error S21Matrix := do
  let det ← m.Determinant
  if Double.lt (Double.fabs det) (Double.lit (1 / 10 ^ 7)) then .error .SingularMatrix
  else do
    let complements ← m.CalcComplements
    let adjugate ← complements.Transpose
    pure (adjugate.MulNumber (Double.div (Double.lit 1) det))

/-- Member `bool EqMatrix(const S21Matrix& other) const`. -/
def EqMatrix (m other : S21Matrix) : Bool :=
  if m.rows_ ≠ other.rows_ ∨ m.cols_ ≠ other.cols_ then false
  else
    (List.range m.rows_.toNat).all (fun i =>
      (List.range m.cols_.toNat).all (fun j =>
        !Double.gt (Double.fabs (Double.sub (rawGet m.matrix_ i j) (rawGet other.matrix_ i j)))
          (Double.lit (1 / 10 ^ 7))))

end S21Matrix

/-- A matrix given by its extents and its rows of cells. -/
def ofRows (rows cols : Int) (cells : List (List Double)) : S21Matrix :=
  { rows_ := rows, cols_ := cols, matrix_ := cells }

/-- The `n × n` identity matrix: `1.0` on the diagonal, `0.0` elsewhere. -/
def identity (n : Nat) : S21Matrix :=
  { rows_ := n, cols_ := n,
    matrix_ := (List.range n).map fun i => (List.range n).map fun j =>
      if i = j then Double.lit 1 else Double.lit 0 }

end Fp

/-! ## The element store -/

theorem rawGet_eq_getElem? (s : List (List ℚ)) (i j : Nat) :
    rawGet s i j = ((s[i]?.getD [])[j]?).getD 0 := by
  simp [rawGet, List.getD_eq_getElem?_getD]

theorem StoreShape.row_length {s : List (List ℚ)} {r c : Nat} (h : StoreShape s r c)
    {i : Nat} (hi : i < r) : (s[i]?.getD []).length = c := by
  obtain ⟨hl, hr⟩ := h
  have hi2 : i < s.length := by omega
  rw [List.getElem?_eq_getElem hi2]
  exact hr _ (List.getElem_mem hi2)

theorem rawSet_shape {s : List (List ℚ)} {r c : Nat} (h : StoreShape s r c)
    (i j : Nat) (v : ℚ) : StoreShape (rawSet s i j v) r c := by
  obtain ⟨hl, hr⟩ := h
  refine ⟨by simp [rawSet, hl], ?_⟩
  intro row hrow
  by_cases hi : i < s.length
  · rcases List.mem_or_eq_of_mem_set hrow with h1 | h1
    · exact hr _ h1
    · subst h1
      rw [List.length_set, List.getD_eq_getElem?_getD, List.getElem?_eq_getElem hi]
      exact hr _ (List.getElem_mem hi)
  · rw [rawSet, List.set_eq_of_length_le (Nat.le_of_not_lt hi)] at hrow
    exact hr _ hrow

theorem rawGet_rawSet {s : List (List ℚ)} {r c : Nat} (h : StoreShape s r c)
    {i j : Nat} (hi : i < r) (hj : j < c) (v : ℚ) (i2 j2 : Nat) :
    rawGet (rawSet s i j v) i2 j2 = if i2 = i ∧ j2 = j then v else rawGet s i2 j2 := by
  have hlen := h.row_length hi
  have hi2 : i < s.length := by rw [h.1]; exact hi
  simp only [rawGet_eq_getElem?, rawSet, List.getElem?_set, List.getD_eq_getElem?_getD]
  by_cases h1 : i = i2
  · subst h1
    simp only [hi2, if_true, Option.getD_some, true_and]
    rw [List.getElem?_set]
    by_cases h2 : j = j2
    · subst h2
      simp [hlen, hj]
    · have h3 : ¬ j2 = j := fun h => h2 h.symm
      simp [h2, h3]
  · have h3 : ¬ i2 = i := fun h => h1 h.symm
    simp [h1, h3]

theorem StoreShape.ext {s t : List (List ℚ)} {r c : Nat} (hs : StoreShape s r c)
    (ht : StoreShape t r c)
    (h : ∀ i j, i < r → j < c → rawGet s i j = rawGet t i j) : s = t := by
  apply List.ext_getElem (by rw [hs.1, ht.1])
  intro i h1 h2
  have hi : i < r := by rw [← hs.1]; exact h1
  have e1 := hs.row_length hi
  have e2 := ht.row_length hi
  rw [List.getElem?_eq_getElem h1] at e1
  rw [List.getElem?_eq_getElem h2] at e2
  simp only [Option.getD_some] at e1 e2
  apply List.ext_getElem (by rw [e1, e2])
  intro j h3 h4
  have hj : j < c := by rw [← e1]; exact h3
  have := h i j hi hj
  simp only [rawGet_eq_getElem?, List.getElem?_eq_getElem h1, List.getElem?_eq_getElem h2,
    Option.getD_some, List.getElem?_eq_getElem h3, List.getElem?_eq_getElem h4] at this
  exact this

theorem AllocateMatrix_shape (rows cols : Int) :
    StoreShape (AllocateMatrix rows cols) rows.toNat cols.toNat := by
  refine ⟨by simp [AllocateMatrix], ?_⟩
  intro row hrow
  rw [AllocateMatrix, List.mem_replicate] at hrow
  rw [hrow.2, List.length_replicate]

theorem rawGet_AllocateMatrix (rows cols : Int) (i j : Nat) :
    rawGet (AllocateMatrix rows cols) i j = 0 := by
  simp only [rawGet_eq_getElem?, AllocateMatrix, List.getElem?_replicate]
  by_cases h1 : i < rows.toNat
  · by_cases h2 : j < cols.toNat
    · simp [h1, h2, List.getElem?_replicate]
    · simp [h1, h2, List.getElem?_replicate]
  · simp [h1]

/-! ## Loops -/

@[simp] theorem ok_bind {ε α β : Type} (a : α) (f : α → Except ε β) :
    ((Except.ok a : Except ε α) >>= f) = f a := rfl

@[simp] theorem error_bind {ε α β : Type} (e : ε) (f : α → Except ε β) :
    ((Except.error e : Except ε α) >>= f) = Except.error e := rfl

@[simp] theorem pure_eq_ok {ε α : Type} (a : α) : (pure a : Except ε α) = Except.ok a := rfl

/-- Invariant rule for a counted `for` loop without exceptions. -/
theorem foldl_range_inv {σ : Type} (f : σ → Nat → σ) (P : Nat → σ → Prop) (n : Nat) (init : σ)
    (h0 : P 0 init) (hstep : ∀ k s, k < n → P k s → P (k + 1) (f s k)) :
    P n ((List.range n).foldl f init) := by
  induction n with
  | zero => simpa using h0
  | succ n ih =>
    rw [List.range_succ, List.foldl_append]
    simp only [List.foldl_cons, List.foldl_nil]
    exact hstep n _ (Nat.lt_succ_self n)
      (ih (fun k s hk hp => hstep k s (Nat.lt_succ_of_lt hk) hp))

/-- Invariant rule for a counted `for` loop whose body may throw: if every
iteration started in the invariant succeeds and re-establishes it, the loop
succeeds. -/
theorem foldlM_range_inv {σ ε : Type} (f : σ → Nat → Except ε σ) (P : Nat → σ → Prop)
    (n : Nat) (init : σ) (h0 : P 0 init)
    (hstep : ∀ k s, k < n → P k s → ∃ s2, f s k = .ok s2 ∧ P (k + 1) s2) :
    ∃ s, (List.range n).foldlM f init = .ok s ∧ P n s := by
  induction n with
  | zero => exact ⟨init, rfl, h0⟩
  | succ n ih =>
    obtain ⟨s, hs, hp⟩ := ih (fun k s hk hp => hstep k s (Nat.lt_succ_of_lt hk) hp)
    obtain ⟨s2, hs2, hp2⟩ := hstep n s (Nat.lt_succ_self n) hp
    refine ⟨s2, ?_, hp2⟩
    rw [List.range_succ, List.foldlM_append, hs]
    simp [hs2]

/-- Invariant rule for two nested counted loops: `P i j` holds before the
iteration `(i, j)`, in row-major order. -/
theorem nested_foldl_inv {σ : Type} (f : σ → Nat → Nat → σ) (P : Nat → Nat → σ → Prop)
    (r c : Nat) (init : σ) (h0 : P 0 0 init)
    (hstep : ∀ i j s, i < r → j < c → P i j s → P i (j + 1) (f s i j))
    (hrow : ∀ i s, i < r → P i c s → P (i + 1) 0 s) :
    P r 0 ((List.range r).foldl (fun s i => (List.range c).foldl (fun s j => f s i j) s) init) :=
  foldl_range_inv _ (fun i s => P i 0 s) r init h0 (fun i s hi hp =>
    hrow i _ hi (foldl_range_inv _ (fun j s => P i j s) c s hp (fun j s hj hp => hstep i j s hi hj hp)))

/-- Invariant rule for two nested counted loops whose body may throw. -/
theorem nested_foldlM_inv {σ ε : Type} (f : σ → Nat → Nat → Except ε σ)
    (P : Nat → Nat → σ → Prop) (r c : Nat) (init : σ) (h0 : P 0 0 init)
    (hstep : ∀ i j s, i < r → j < c → P i j s → ∃ s2, f s i j = .ok s2 ∧ P i (j + 1) s2)
    (hrow : ∀ i s, i < r → P i c s → P (i + 1) 0 s) :
    ∃ s, (List.range r).foldlM (fun s i => (List.range c).foldlM (fun s j => f s i j) s) init
        = .ok s ∧ P r 0 s :=
  foldlM_range_inv _ (fun i s => P i 0 s) r init h0 (fun i s hi hp => by
    obtain ⟨s2, h1, h2⟩ := foldlM_range_inv (fun s j => f s i j) (fun j s => P i j s) c s hp
      (fun j s hj hp => hstep i j s hi hj hp)
    exact ⟨s2, h1, hrow i s2 hi h2⟩)

theorem visited_zero (i2 j2 : Nat) : ¬ visited 0 0 i2 j2 := by
  unfold visited; omega

theorem visited_step (i j i2 j2 : Nat) :
    visited i (j + 1) i2 j2 ↔ (i2 = i ∧ j2 = j) ∨ visited i j i2 j2 := by
  unfold visited; omega

theorem visited_row (i c i2 j2 : Nat) (h : j2 < c) :
    visited (i + 1) 0 i2 j2 ↔ visited i c i2 j2 := by
  unfold visited; omega

theorem visited_end (r i2 j2 : Nat) (h : i2 < r) : visited r 0 i2 j2 := by
  unfold visited; omega

/-- A doubly nested loop whose body rewrites the cell `(i, j)` of an `r × c`
store to `g i j` of its old value, and nothing else, rewrites every cell once
and keeps the shape of the store. -/
theorem cellwise_loop (body : List (List ℚ) → Nat → Nat → List (List ℚ))
    (g : Nat → Nat → ℚ → ℚ) (r c : Nat) (s : List (List ℚ)) (h : StoreShape s r c)
    (hbody : ∀ t i j, StoreShape t r c → i < r → j < c →
      StoreShape (body t i j) r c ∧ ∀ i2 j2, i2 < r → j2 < c →
        rawGet (body t i j) i2 j2
          = if i2 = i ∧ j2 = j then g i j (rawGet t i j) else rawGet t i2 j2) :
    StoreShape ((List.range r).foldl (fun s i =>
        (List.range c).foldl (fun s j => body s i j) s) s) r c ∧
    ∀ i j, i < r → j < c →
      rawGet ((List.range r).foldl (fun s i =>
        (List.range c).foldl (fun s j => body s i j) s) s) i j = g i j (rawGet s i j) := by
  have := nested_foldl_inv body
    (fun i j u => StoreShape u r c ∧ ∀ i2 j2, i2 < r → j2 < c →
      rawGet u i2 j2 = if visited i j i2 j2 then g i2 j2 (rawGet s i2 j2) else rawGet s i2 j2)
    r c s ⟨h, by intro i2 j2 _ _; simp [visited_zero]⟩
    (by
      intro i j u hi hj ⟨hu, hc⟩
      obtain ⟨h1, h2⟩ := hbody u i j hu hi hj
      refine ⟨h1, ?_⟩
      intro i2 j2 hi2 hj2
      rw [h2 i2 j2 hi2 hj2, hc i2 j2 hi2 hj2, hc i j hi hj]
      have hnv : ¬ visited i j i j := by unfold visited; omega
      by_cases e : i2 = i ∧ j2 = j
      · obtain ⟨e1, e2⟩ := e
        subst e1 e2
        simp [visited_step, hnv]
      · simp [visited_step, e])
    (by
      intro i u hi ⟨hu, hc⟩
      refine ⟨hu, ?_⟩
      intro i2 j2 hi2 hj2
      rw [hc i2 j2 hi2 hj2]
      simp [visited_row i c i2 j2 hj2])
  refine ⟨this.1, ?_⟩
  intro i j hi hj
  rw [this.2 i j hi hj]
  simp [visited_end r i j hi]

theorem rawSet_body (g : Nat → Nat → ℚ → ℚ) (r c : Nat) (t : List (List ℚ)) (i j : Nat)
    (ht : StoreShape t r c) (hi : i < r) (hj : j < c) :
    StoreShape (rawSet t i j (g i j (rawGet t i j))) r c ∧ ∀ i2 j2, i2 < r → j2 < c →
      rawGet (rawSet t i j (g i j (rawGet t i j))) i2 j2
        = if i2 = i ∧ j2 = j then g i j (rawGet t i j) else rawGet t i2 j2 :=
  ⟨rawSet_shape ht _ _ _, fun i2 j2 _ _ => rawGet_rawSet ht hi hj _ i2 j2⟩

/-! ## Elementwise arithmetic -/

theorem SumMatrix_ok (A B : S21Matrix) (hA : Shaped A) (hr : A.rows_ = B.rows_)
    (hc : A.cols_ = B.cols_) :
    ∃ A2, A.SumMatrix B = .ok A2 ∧ A2.rows_ = A.rows_ ∧ A2.cols_ = A.cols_ ∧ Shaped A2 ∧
      ∀ i j, i < A.rows_.toNat → j < A.cols_.toNat →
        rawGet A2.matrix_ i j = rawGet A.matrix_ i j + rawGet B.matrix_ i j := by
  obtain ⟨h0, h1, hs⟩ := hA
  have := cellwise_loop (fun s i j => rawSet s i j (rawGet s i j + rawGet B.matrix_ i j))
    (fun i j x => x + rawGet B.matrix_ i j) _ _ A.matrix_ hs
    (fun t i j ht hi hj => rawSet_body (fun i j x => x + rawGet B.matrix_ i j) _ _ t i j ht hi hj)
  refine ⟨{ A with matrix_ := SumMatrix.loop A.rows_ A.cols_ A.matrix_ B.matrix_ },
    by rw [SumMatrix, if_neg (by simp [hr, hc])], rfl, rfl, ⟨h0, h1, ?_⟩, ?_⟩
  · exact this.1
  · exact this.2

theorem SubMatrix_ok (A B : S21Matrix) (hA : Shaped A) (hr : A.rows_ = B.rows_)
    (hc : A.cols_ = B.cols_) :
    ∃ A2, A.SubMatrix B = .ok A2 ∧ A2.rows_ = A.rows_ ∧ A2.cols_ = A.cols_ ∧ Shaped A2 ∧
      ∀ i j, i < A.rows_.toNat → j < A.cols_.toNat →
        rawGet A2.matrix_ i j = rawGet A.matrix_ i j - rawGet B.matrix_ i j := by
  obtain ⟨h0, h1, hs⟩ := hA
  have := cellwise_loop (fun s i j => rawSet s i j (rawGet s i j - rawGet B.matrix_ i j))
    (fun i j x => x - rawGet B.matrix_ i j) _ _ A.matrix_ hs
    (fun t i j ht hi hj => rawSet_body (fun i j x => x - rawGet B.matrix_ i j) _ _ t i j ht hi hj)
  refine ⟨{ A with matrix_ := SubMatrix.loop A.rows_ A.cols_ A.matrix_ B.matrix_ },
    by rw [SubMatrix, if_neg (by simp [hr, hc])], rfl, rfl, ⟨h0, h1, ?_⟩, ?_⟩
  · exact this.1
  · exact this.2

theorem MulNumber_cells (A : S21Matrix) (num : ℚ) (hA : Shaped A) :
    Shaped (A.MulNumber num) ∧
      ∀ i j, i < A.rows_.toNat → j < A.cols_.toNat →
        rawGet (A.MulNumber num).matrix_ i j = rawGet A.matrix_ i j * num := by
  obtain ⟨h0, h1, hs⟩ := hA
  have := cellwise_loop (fun s i j => rawSet s i j (rawGet s i j * num))
    (fun _ _ x => x * num) _ _ A.matrix_ hs
    (fun t i j ht hi hj => rawSet_body (fun _ _ x => x * num) _ _ t i j ht hi hj)
  exact ⟨⟨h0, h1, this.1⟩, this.2⟩

/-! ## Matrix product -/

theorem ctor_ok (rows cols : Int) (hr : 1 ≤ rows) (hc : 1 ≤ cols) :
    ctor rows cols
      = .ok { rows_ := rows, cols_ := cols, matrix_ := AllocateMatrix rows cols } := by
  rw [ctor, if_neg (by omega)]

theorem ctor_wellFormed (rows cols : Int) (hr : 1 ≤ rows) (hc : 1 ≤ cols) :
    WellFormed { rows_ := rows, cols_ := cols, matrix_ := AllocateMatrix rows cols } :=
  ⟨hr, hc, AllocateMatrix_shape rows cols⟩

/-- The innermost loop of `MulMatrix` adds the inner product of row `i` of `a`
and column `j` of `b` to the cell `(i, j)` and leaves the other cells alone. -/
theorem MulMatrix_kloop (a b : List (List ℚ)) (r q n : Nat) (t : List (List ℚ)) (i j : Nat)
    (ht : StoreShape t r q) (hi : i < r) (hj : j < q) :
    StoreShape ((List.range n).foldl
        (fun u k => rawSet u i j (rawGet u i j + rawGet a i k * rawGet b k j)) t) r q ∧
    ∀ i2 j2, i2 < r → j2 < q →
      rawGet ((List.range n).foldl
        (fun u k => rawSet u i j (rawGet u i j + rawGet a i k * rawGet b k j)) t) i2 j2
        = if i2 = i ∧ j2 = j then
            rawGet t i j + ∑ k in Finset.range n, rawGet a i k * rawGet b k j
          else rawGet t i2 j2 :=
  foldl_range_inv (fun u k => rawSet u i j (rawGet u i j + rawGet a i k * rawGet b k j))
    (fun m u => StoreShape u r q ∧ ∀ i2 j2, i2 < r → j2 < q →
      rawGet u i2 j2 = if i2 = i ∧ j2 = j then
          rawGet t i j + ∑ k in Finset.range m, rawGet a i k * rawGet b k j
        else rawGet t i2 j2)
    n t ⟨ht, by intro i2 j2 _ _; split <;> simp_all⟩
    (by
      intro k u _ ⟨hu, hc⟩
      refine ⟨rawSet_shape hu _ _ _, ?_⟩
      intro i2 j2 hi2 hj2
      rw [rawGet_rawSet hu hi hj, hc i j hi hj, hc i2 j2 hi2 hj2]
      by_cases e : i2 = i ∧ j2 = j
      · simp [e, Finset.sum_range_succ, add_assoc]
      · simp [e])

theorem MulMatrix_ok (A B : S21Matrix) (hA : WellFormed A) (hB : WellFormed B)
    (h : A.cols_ = B.rows_) :
    ∃ A2, A.MulMatrix B = .ok A2 ∧ A2.rows_ = A.rows_ ∧ A2.cols_ = B.cols_ ∧ WellFormed A2 ∧
      ∀ i j, i < A.rows_.toNat → j < B.cols_.toNat →
        rawGet A2.matrix_ i j
          = ∑ k in Finset.range A.cols_.toNat, rawGet A.matrix_ i k * rawGet B.matrix_ k j := by
  obtain ⟨a1, _, _⟩ := hA
  obtain ⟨_, b2, _⟩ := hB
  have := cellwise_loop
    (fun u i j => (List.range A.cols_.toNat).foldl
      (fun u k => rawSet u i j (rawGet u i j + rawGet A.matrix_ i k * rawGet B.matrix_ k j)) u)
    (fun i j x => x + ∑ k in Finset.range A.cols_.toNat,
      rawGet A.matrix_ i k * rawGet B.matrix_ k j)
    _ _ (AllocateMatrix A.rows_ B.cols_) (AllocateMatrix_shape _ _)
    (fun t i j ht hi hj => MulMatrix_kloop A.matrix_ B.matrix_ _ _ _ t i j ht hi hj)
  refine ⟨{ rows_ := A.rows_, cols_ := B.cols_,
            matrix_ := MulMatrix.loop A.rows_ B.cols_ A.cols_ A.matrix_ B.matrix_
              (AllocateMatrix A.rows_ B.cols_) }, ?_, rfl, rfl, ⟨a1, b2, this.1⟩, ?_⟩
  · rw [MulMatrix, if_neg (by simp [h]), ctor_ok _ _ a1 b2]
    rfl
  · intro i j hi hj
    have e := this.2 i j hi hj
    rw [rawGet_AllocateMatrix] at e
    simp only [zero_add] at e
    exact e

/-! ## Minors -/

theorem opCall_ok (m : S21Matrix) (R C i j : Nat) (hr : m.rows_ = (R : Int))
    (hc : m.cols_ = (C : Int)) (hi : i < R) (hj : j < C) :
    m.opCall (i : Int) (j : Int) = .ok (rawGet m.matrix_ i j) := by
  rw [opCall, if_neg (by rw [hr, hc]; omega)]
  simp

theorem opCallSet_ok (m : S21Matrix) (R C i j : Nat) (v : ℚ) (hr : m.rows_ = (R : Int))
    (hc : m.cols_ = (C : Int)) (hi : i < R) (hj : j < C) :
    m.opCallSet (i : Int) (j : Int) v = .ok { m with matrix_ := rawSet m.matrix_ i j v } := by
  rw [opCallSet, if_neg (by rw [hr, hc]; omega)]
  simp

theorem GetMinor_inner_ok (m : S21Matrix) (r c b i rm : Nat) (minor : S21Matrix)
    (hm : HasShape m (r + 1) (c + 1)) (hb : b < c + 1) (hi : i < r + 1) (hrm : rm < r)
    (h0 : HasShape minor r c) :
    ∃ st, GetMinor.inner m (b : Int) i (rm : Int) minor = .ok st ∧ HasShape st.1 r c ∧
      ∀ i2 j2, i2 < r → j2 < c →
        rawGet st.1.matrix_ i2 j2
          = if i2 = rm then rawGet m.matrix_ i (skipIdx b j2) else rawGet minor.matrix_ i2 j2 := by
  obtain ⟨hmr, hmc, hms⟩ := hm
  have key := foldlM_range_inv
    (fun (st : S21Matrix × Int) (j : Nat) =>
      if (j : Int) = (b : Int) then (pure st : Except Error (S21Matrix × Int))
      else do
        let v ← m.opCall i j
        let minor ← st.1.opCallSet rm st.2 v
        pure (minor, st.2 + 1))
    (fun j st => st.2 = ((keptBelow b j : Nat) : Int) ∧ HasShape st.1 r c ∧
      ∀ i2 j2, i2 < r → j2 < c →
        rawGet st.1.matrix_ i2 j2
          = if i2 = rm ∧ j2 < keptBelow b j then rawGet m.matrix_ i (skipIdx b j2)
            else rawGet minor.matrix_ i2 j2)
    (c + 1) (minor, 0)
    ⟨by simp [keptBelow], h0, by intro i2 j2 _ _; simp [keptBelow]⟩
    (by
      intro j st hj ⟨h1, h2, h3⟩
      obtain ⟨mn, cm⟩ := st
      simp only [] at h1 h2 h3
      by_cases e : j = b
      · subst e
        refine ⟨(mn, cm), by simp, ?_, h2, ?_⟩
        · rw [h1]; simp [keptBelow]
        · intro i2 j2 hi2 hj2
          rw [h3 i2 j2 hi2 hj2]
          simp [keptBelow]
      · have hne : ¬ ((j : Int) = (b : Int)) := by omega
        have hk : keptBelow b j < c := by unfold keptBelow; split <;> omega
        have hk1 : keptBelow b (j + 1) = keptBelow b j + 1 := by
          unfold keptBelow; split <;> split <;> omega
        have hsk : skipIdx b (keptBelow b j) = j := by
          unfold keptBelow skipIdx; split <;> split <;> omega
        obtain ⟨s1, s2, s3⟩ := h2
        refine ⟨(⟨mn.rows_, mn.cols_, rawSet mn.matrix_ rm (keptBelow b j)
            (rawGet m.matrix_ i j)⟩, cm + 1), ?_, ?_, ⟨s1, s2, rawSet_shape s3 _ _ _⟩, ?_⟩
        · simp only [if_neg hne]
          rw [opCall_ok m _ _ i j hmr hmc hi hj, h1]
          simp only [ok_bind]
          rw [opCallSet_ok mn _ _ rm (keptBelow b j) _ s1 s2 hrm hk]
          rfl
        · simp only [h1, hk1]; push_cast; ring
        · intro i2 j2 hi2 hj2
          simp only []
          rw [rawGet_rawSet s3 hrm hk, h3 i2 j2 hi2 hj2, hk1]
          by_cases e1 : i2 = rm ∧ j2 = keptBelow b j
          · obtain ⟨e2, e3⟩ := e1
            subst e2 e3
            simp [hsk]
          · have : (i2 = rm ∧ j2 < keptBelow b j + 1) ↔ (i2 = rm ∧ j2 < keptBelow b j) := by
              constructor
              · rintro ⟨x, y⟩
                refine ⟨x, ?_⟩
                by_contra hcon
                exact e1 ⟨x, by omega⟩
              · rintro ⟨x, y⟩
                exact ⟨x, by omega⟩
            simp only [if_neg e1]
            by_cases e4 : i2 = rm ∧ j2 < keptBelow b j
            · rw [if_pos (this.2 e4), if_pos e4]
            · rw [if_neg (fun h => e4 (this.1 h)), if_neg e4])
  obtain ⟨st, hst, _, h2, h3⟩ := key
  refine ⟨st, ?_, h2, ?_⟩
  · rw [GetMinor.inner, get_cols, hmc]
    exact hst
  · intro i2 j2 hi2 hj2
    rw [h3 i2 j2 hi2 hj2]
    have : keptBelow b (c + 1) = c := by unfold keptBelow; split <;> omega
    simp [this, hj2]

theorem GetMinor_outer_ok (m : S21Matrix) (r c a b : Nat) (minor : S21Matrix)
    (hm : HasShape m (r + 1) (c + 1)) (ha : a < r + 1) (hb : b < c + 1)
    (h0 : HasShape minor r c) :
    ∃ st, GetMinor.outer m (a : Int) (b : Int) minor = .ok st ∧ HasShape st.1 r c ∧
      ∀ i2 j2, i2 < r → j2 < c →
        rawGet st.1.matrix_ i2 j2 = rawGet m.matrix_ (skipIdx a i2) (skipIdx b j2) := by
  have key := foldlM_range_inv
    (fun (st : S21Matrix × Int) (i : Nat) =>
      if (i : Int) = (a : Int) then (pure st : Except Error (S21Matrix × Int))
      else do
        let st2 ← GetMinor.inner m (b : Int) i st.2 st.1
        pure (st2.1, st.2 + 1))
    (fun i st => st.2 = ((keptBelow a i : Nat) : Int) ∧ HasShape st.1 r c ∧
      ∀ i2 j2, i2 < r → j2 < c →
        rawGet st.1.matrix_ i2 j2
          = if i2 < keptBelow a i then rawGet m.matrix_ (skipIdx a i2) (skipIdx b j2)
            else rawGet minor.matrix_ i2 j2)
    (r + 1) (minor, 0)
    ⟨by simp [keptBelow], h0, by intro i2 j2 _ _; simp [keptBelow]⟩
    (by
      intro i st hi ⟨h1, h2, h3⟩
      obtain ⟨mn, rm⟩ := st
      simp only [] at h1 h2 h3
      by_cases e : i = a
      · subst e
        refine ⟨(mn, rm), by simp, ?_, h2, ?_⟩
        · rw [h1]; simp [keptBelow]
        · intro i2 j2 hi2 hj2
          rw [h3 i2 j2 hi2 hj2]
          simp [keptBelow]
      · have hne : ¬ ((i : Int) = (a : Int)) := by omega
        have hk : keptBelow a i < r := by unfold keptBelow; split <;> omega
        have hk1 : keptBelow a (i + 1) = keptBelow a i + 1 := by
          unfold keptBelow; split <;> split <;> omega
        have hsk : skipIdx a (keptBelow a i) = i := by
          unfold keptBelow skipIdx; split <;> split <;> omega
        subst h1
        obtain ⟨st2, q1, q2, q3⟩ := GetMinor_inner_ok m r c b i (keptBelow a i) mn hm hb hi hk h2
        refine ⟨(st2.1, ((keptBelow a i : Nat) : Int) + 1), ?_, ?_, q2, ?_⟩
        · simp only [if_neg hne]
          rw [q1]
          rfl
        · simp only [hk1]; push_cast; ring
        · intro i2 j2 hi2 hj2
          simp only []
          rw [q3 i2 j2 hi2 hj2, h3 i2 j2 hi2 hj2, hk1]
          by_cases e1 : i2 = keptBelow a i
          · subst e1
            simp [hsk]
          · rw [if_neg e1]
            by_cases e4 : i2 < keptBelow a i
            · rw [if_pos e4, if_pos (by omega)]
            · rw [if_neg e4, if_neg (by omega)])
  obtain ⟨hmr, hmc, hms⟩ := hm
  obtain ⟨st, hst, _, h2, h3⟩ := key
  refine ⟨st, ?_, h2, ?_⟩
  · rw [GetMinor.outer, get_rows, hmr]
    exact hst
  · intro i2 j2 hi2 hj2
    rw [h3 i2 j2 hi2 hj2]
    have : keptBelow a (r + 1) = r := by unfold keptBelow; split <;> omega
    simp [this, hi2]

/-- On an `(r+1) × (c+1)` matrix with `r, c ≥ 1`, `GetMinor` returns the `r × c`
matrix of the cells outside row `a` and column `b`, in their original order. -/
theorem GetMinor_ok (m : S21Matrix) (r c a b : Nat) (hm : HasShape m (r + 1) (c + 1))
    (hr : 1 ≤ r) (hc : 1 ≤ c) (ha : a < r + 1) (hb : b < c + 1) :
    ∃ minor, GetMinor m (a : Int) (b : Int) = .ok minor ∧ HasShape minor r c ∧
      ∀ i j, i < r → j < c →
        rawGet minor.matrix_ i j = rawGet m.matrix_ (skipIdx a i) (skipIdx b j) := by
  have e1 : m.get_rows - 1 = (r : Int) := by rw [get_rows, hm.1]; push_cast; ring
  have e2 : m.get_cols - 1 = (c : Int) := by rw [get_cols, hm.2.1]; push_cast; ring
  have h0 : HasShape ⟨(r : Int), (c : Int), AllocateMatrix r c⟩ r c :=
    ⟨rfl, rfl, by simpa using AllocateMatrix_shape (r : Int) (c : Int)⟩
  obtain ⟨st, q1, q2, q3⟩ := GetMinor_outer_ok m r c a b _ hm ha hb h0
  refine ⟨st.1, ?_, q2, q3⟩
  rw [GetMinor, e1, e2, ctor_ok _ _ (by omega) (by omega)]
  simp only [ok_bind]
  rw [q1]
  rfl

/-! ## Determinant -/

theorem succAbove_val (n : Nat) (p : Fin (n + 1)) (i : Fin n) :
    ((p.succAbove i : Fin (n + 1)) : Nat) = skipIdx p i := by
  unfold skipIdx
  by_cases h : (i : Nat) < p
  · rw [Fin.succAbove_of_castSucc_lt p i (by simpa [Fin.lt_def] using h), if_pos h]
    rfl
  · rw [Fin.succAbove_of_le_castSucc p i (by simpa [Fin.le_def] using Nat.le_of_not_lt h),
      if_neg h]
    rfl

theorem sign_eq_pow (i : Nat) : (if (i : Int) % 2 = 0 then (1 : ℚ) else -1) = (-1) ^ i := by
  rcases Nat.even_or_odd i with h | h
  · have : (i : Int) % 2 = 0 := by obtain ⟨k, hk⟩ := h; omega
    simp [this, h.neg_one_pow]
  · have : ¬ (i : Int) % 2 = 0 := by obtain ⟨k, hk⟩ := h; omega
    simp [this, h.neg_one_pow]

theorem toMatrix_minor (s t : List (List ℚ)) (k : Nat) (a b : Fin (k + 1))
    (h : ∀ i j, i < k → j < k → rawGet t i j = rawGet s (skipIdx a i) (skipIdx b j)) :
    toMatrix t k = (toMatrix s (k + 1)).submatrix a.succAbove b.succAbove := by
  ext i j
  simp [toMatrix, Matrix.submatrix_apply, succAbove_val, h i j i.2 j.2]

/-- With enough budget, the recursion over minors returns the determinant of
the matrix. -/
theorem DeterminantFuel_eq_det : ∀ (fuel n : Nat) (m : S21Matrix), n < fuel → 1 ≤ n →
    HasShape m n n → DeterminantFuel fuel m = .ok (Matrix.det (toMatrix m.matrix_ n)) := by
  intro fuel
  induction fuel with
  | zero => intro n m h; omega
  | succ fuel ih =>
    intro n m hlt hn hm
    obtain ⟨hr, hc, hs⟩ := hm
    rw [DeterminantFuel, if_neg (by rw [hr, hc]; simp)]
    by_cases h1 : n = 1
    · subst h1
      rw [if_pos (by rw [hr]; rfl), Matrix.det_fin_one]
      rfl
    · rw [if_neg (by rw [hr]; omega)]
      by_cases h2 : n = 2
      · subst h2
        rw [if_pos (by rw [hr]; rfl), Matrix.det_fin_two]
        rfl
      · rw [if_neg (by rw [hr]; omega)]
        obtain ⟨k, rfl⟩ : ∃ k, n = k + 1 := ⟨n - 1, by omega⟩
        have hk : 1 ≤ k := by omega
        have key := foldlM_range_inv
          (fun (result : ℚ) (i : Nat) => do
            let minor ← GetMinor m 0 i
            let minor_det ← DeterminantFuel fuel minor
            let sign : ℚ := if (i : Int) % 2 = 0 then 1 else -1
            (pure (result + sign * rawGet m.matrix_ 0 i * minor_det) : Except Error ℚ))
          (fun j res => res = ∑ i in Finset.range j,
            if h : i < k + 1 then
              (-1 : ℚ) ^ i * rawGet m.matrix_ 0 i *
                Matrix.det ((toMatrix m.matrix_ (k + 1)).submatrix Fin.succ
                  (Fin.succAbove ⟨i, h⟩))
            else 0)
          (k + 1) 0 (by simp)
          (by
            intro i res hi hres
            obtain ⟨minor, g1, g2, g3⟩ := GetMinor_ok m k k 0 i ⟨hr, hc, hs⟩ hk hk
              (by omega) hi
            simp only [Nat.cast_zero] at g1
            have hdet := ih k minor (by omega) hk g2
            have hmat := toMatrix_minor m.matrix_ minor.matrix_ k 0 ⟨i, hi⟩ g3
            rw [Fin.succAbove_zero] at hmat
            refine ⟨res + (-1 : ℚ) ^ i * rawGet m.matrix_ 0 i *
              Matrix.det (toMatrix minor.matrix_ k), ?_, ?_⟩
            · simp only []
              rw [g1]
              simp only [ok_bind]
              rw [hdet]
              simp only [ok_bind, sign_eq_pow, pure_eq_ok]
            · simp only []
              rw [Finset.sum_range_succ, ← hres, dif_pos hi, hmat])
        obtain ⟨res, e1, e2⟩ := key
        have hcols : m.cols_.toNat = k + 1 := by rw [hc]; simp
        rw [hcols, e1, e2, Matrix.det_succ_row_zero,
          ← Fin.sum_univ_eq_sum_range (fun i => if h : i < k + 1 then
              (-1 : ℚ) ^ i * rawGet m.matrix_ 0 i *
                Matrix.det ((toMatrix m.matrix_ (k + 1)).submatrix Fin.succ
                  (Fin.succAbove ⟨i, h⟩))
            else 0) (k + 1)]
        congr 1
        apply Finset.sum_congr rfl
        intro i _
        rw [dif_pos i.2]
        rfl

theorem Determinant_eq_det (n : Nat) (m : S21Matrix) (hn : 1 ≤ n) (hm : HasShape m n n) :
    m.Determinant = .ok (Matrix.det (toMatrix m.matrix_ n)) := by
  rw [Determinant]
  exact DeterminantFuel_eq_det _ n m (by rw [hm.1]; simp) hn hm

/-! ## Loops that fill a result matrix through the checked accessor -/

/-- A doubly nested loop whose body stores `v i j` at the position `pos i j`
of an `R × C` matrix fills every visited position and cannot throw. -/
theorem cellwise_loopM (body : S21Matrix → Nat → Nat → Except Error S21Matrix)
    (v : Nat → Nat → ℚ) (pos : Nat → Nat → Nat × Nat) (r c R C : Nat) (init : S21Matrix)
    (h0 : HasShape init R C)
    (hpos : ∀ i j, i < r → j < c → (pos i j).1 < R ∧ (pos i j).2 < C)
    (hinj : ∀ i j i2 j2, i < r → j < c → i2 < r → j2 < c → pos i j = pos i2 j2 →
      i = i2 ∧ j = j2)
    (hbody : ∀ t i j, HasShape t R C → i < r → j < c →
      body t i j = .ok ⟨t.rows_, t.cols_, rawSet t.matrix_ (pos i j).1 (pos i j).2 (v i j)⟩) :
    ∃ res, (List.range r).foldlM (fun s i =>
        (List.range c).foldlM (fun s j => body s i j) s) init = .ok res ∧
      HasShape res R C ∧
      ∀ i j, i < r → j < c → rawGet res.matrix_ (pos i j).1 (pos i j).2 = v i j := by
  have key := nested_foldlM_inv body
    (fun i j u => HasShape u R C ∧ ∀ i2 j2, i2 < r → j2 < c → visited i j i2 j2 →
      rawGet u.matrix_ (pos i2 j2).1 (pos i2 j2).2 = v i2 j2)
    r c init ⟨h0, fun i2 j2 _ _ hv => absurd hv (visited_zero i2 j2)⟩
    (by
      intro i j u hi hj ⟨hu, hc⟩
      refine ⟨_, hbody u i j hu hi hj, ⟨hu.1, hu.2.1, rawSet_shape hu.2.2 _ _ _⟩, ?_⟩
      intro i2 j2 hi2 hj2 hv
      obtain ⟨p1, p2⟩ := hpos i j hi hj
      simp only []
      rw [rawGet_rawSet hu.2.2 p1 p2]
      by_cases e : (pos i2 j2).1 = (pos i j).1 ∧ (pos i2 j2).2 = (pos i j).2
      · rw [if_pos e]
        have : pos i j = pos i2 j2 := Prod.ext e.1.symm e.2.symm
        obtain ⟨e1, e2⟩ := hinj i j i2 j2 hi hj hi2 hj2 this
        rw [e1, e2]
      · rw [if_neg e]
        rcases (visited_step i j i2 j2).1 hv with ⟨e1, e2⟩ | hv2
        · exact absurd ⟨by rw [e1, e2], by rw [e1, e2]⟩ e
        · exact hc i2 j2 hi2 hj2 hv2)
    (by
      intro i u _ ⟨hu, hc⟩
      exact ⟨hu, fun i2 j2 hi2 hj2 hv =>
        hc i2 j2 hi2 hj2 ((visited_row i c i2 j2 hj2).1 hv)⟩)
  obtain ⟨res, e1, e2, e3⟩ := key
  exact ⟨res, e1, e2, fun i j hi hj => e3 i j hi hj (visited_end r i j hi)⟩

theorem Transpose_ok (m : S21Matrix) (r c : Nat) (hr : 1 ≤ r) (hc : 1 ≤ c)
    (hm : HasShape m r c) :
    ∃ res, m.Transpose = .ok res ∧ HasShape res c r ∧
      ∀ i j, i < r → j < c → rawGet res.matrix_ j i = rawGet m.matrix_ i j := by
  obtain ⟨h1, h2, _⟩ := hm
  have h0 : HasShape ⟨(c : Int), (r : Int), AllocateMatrix c r⟩ c r :=
    ⟨rfl, rfl, by simpa using AllocateMatrix_shape (c : Int) (r : Int)⟩
  obtain ⟨res, e1, e2, e3⟩ := cellwise_loopM
    (fun (result : S21Matrix) (i j : Nat) => result.opCallSet j i (rawGet m.matrix_ i j))
    (fun i j => rawGet m.matrix_ i j) (fun i j => (j, i)) r c c r _ h0
    (fun i j hi hj => ⟨hj, hi⟩)
    (fun i j i2 j2 _ _ _ _ h => by
      simp only [Prod.mk.injEq] at h
      exact ⟨h.2, h.1⟩)
    (fun t i j ht hi hj => opCallSet_ok t c r j i _ ht.1 ht.2.1 hj hi)
  refine ⟨res, ?_, e2, e3⟩
  rw [Transpose, h1, h2, ctor_ok _ _ (by omega) (by omega)]
  simp only [ok_bind, Int.toNat_ofNat]
  exact e1

/-! ## Complements -/

theorem sign2_eq_pow (i j : Nat) :
    (if ((i : Int) + (j : Int)) % 2 = 0 then (1 : ℚ) else -1) = (-1) ^ (i + j) := by
  have := sign_eq_pow (i + j)
  push_cast at this
  exact this

/-- One cell of the complement matrix: the minor is extracted without error and
its signed determinant is the cofactor. -/
theorem complement_cell (m : S21Matrix) (k i j : Nat) (hk : 1 ≤ k)
    (hm : HasShape m (k + 1) (k + 1)) (hi : i < k + 1) (hj : j < k + 1) :
    ∃ minor d, GetMinor m (i : Int) (j : Int) = .ok minor ∧ minor.Determinant = .ok d ∧
      HasShape minor k k ∧
      (∀ a b, a < k → b < k →
        rawGet minor.matrix_ a b = rawGet m.matrix_ (skipIdx i a) (skipIdx j b)) ∧
      (if ((i : Int) + (j : Int)) % 2 = 0 then (1 : ℚ) else -1) * d = cofactor m.matrix_ k i j := by
  obtain ⟨minor, g1, g2, g3⟩ := GetMinor_ok m k k i j hm hk hk hi hj
  have hdet := Determinant_eq_det k minor hk g2
  have hmat := toMatrix_minor m.matrix_ minor.matrix_ k ⟨i, hi⟩ ⟨j, hj⟩ g3
  refine ⟨minor, _, g1, hdet, g2, g3, ?_⟩
  rw [sign2_eq_pow, cofactor, dif_pos ⟨hi, hj⟩, hmat]

theorem CalcComplements_ok (m : S21Matrix) (k : Nat) (hk : 1 ≤ k)
    (hm : HasShape m (k + 1) (k + 1)) :
    ∃ res, m.CalcComplements = .ok res ∧ HasShape res (k + 1) (k + 1) ∧
      ∀ i j, i < k + 1 → j < k + 1 → rawGet res.matrix_ i j = cofactor m.matrix_ k i j := by
  have h0 : HasShape ⟨((k + 1 : Nat) : Int), ((k + 1 : Nat) : Int),
      AllocateMatrix ((k + 1 : Nat) : Int) ((k + 1 : Nat) : Int)⟩ (k + 1) (k + 1) :=
    ⟨rfl, rfl, by simpa using AllocateMatrix_shape ((k + 1 : Nat) : Int) ((k + 1 : Nat) : Int)⟩
  obtain ⟨res, e1, e2, e3⟩ := cellwise_loopM
    (fun (result : S21Matrix) (i j : Nat) => do
      let minor ← GetMinor m i j
      let minor_det ← minor.Determinant
      let sign : ℚ := if ((i : Int) + (j : Int)) % 2 = 0 then 1 else -1
      result.opCallSet i j (sign * minor_det))
    (fun i j => cofactor m.matrix_ k i j) (fun i j => (i, j)) (k + 1) (k + 1) (k + 1) (k + 1)
    _ h0
    (fun i j hi hj => ⟨hi, hj⟩)
    (fun i j i2 j2 _ _ _ _ h => by
      simp only [Prod.mk.injEq] at h
      exact h)
    (fun t i j ht hi hj => by
      obtain ⟨minor, d, g1, g2, _, _, g3⟩ := complement_cell m k i j hk hm hi hj
      simp only []
      rw [g1]
      simp only [ok_bind]
      rw [g2]
      simp only [ok_bind]
      rw [g3]
      exact opCallSet_ok t (k + 1) (k + 1) i j _ ht.1 ht.2.1 hi hj)
  obtain ⟨h1, h2, _⟩ := hm
  refine ⟨res, ?_, e2, e3⟩
  rw [CalcComplements, if_neg (by rw [h1, h2]; simp), h1, h2,
    ctor_ok _ _ (by omega) (by omega)]
  simp only [ok_bind]
  rw [if_neg (by omega)]
  simp only [Int.toNat_ofNat]
  exact e1

theorem CalcComplements_one (m : S21Matrix) (hm : HasShape m 1 1) :
    m.CalcComplements = .ok ⟨1, 1, [[1]]⟩ := by
  obtain ⟨h1, h2, _⟩ := hm
  rw [CalcComplements, if_neg (by rw [h1, h2]; simp), h1, h2]
  rfl

/-! ## Inverse -/

theorem HasShape.shaped {m : S21Matrix} {r c : Nat} (h : HasShape m r c) : Shaped m := by
  obtain ⟨h1, h2, h3⟩ := h
  refine ⟨by rw [h1]; omega, by rw [h2]; omega, ?_⟩
  rw [h1, h2]
  simpa using h3

theorem HasShape.wellFormed {m : S21Matrix} {r c : Nat} (h : HasShape m r c) (hr : 1 ≤ r)
    (hc : 1 ≤ c) : WellFormed m := by
  obtain ⟨h1, h2, h3⟩ := h
  refine ⟨by rw [h1]; omega, by rw [h2]; omega, ?_⟩
  rw [h1, h2]
  simpa using h3

theorem WellFormed.hasShape {m : S21Matrix} (h : WellFormed m) :
    HasShape m m.rows_.toNat m.cols_.toNat ∧ 1 ≤ m.rows_.toNat ∧ 1 ≤ m.cols_.toNat := by
  obtain ⟨h1, h2, h3⟩ := h
  exact ⟨⟨by omega, by omega, h3⟩, by omega, by omega⟩

/-- The complement matrix is the transpose of Mathlib's adjugate. -/
theorem CalcComplements_adjugate (m : S21Matrix) (n : Nat) (hn : 1 ≤ n) (hm : HasShape m n n) :
    ∃ compl, m.CalcComplements = .ok compl ∧ HasShape compl n n ∧
      ∀ i j : Fin n, rawGet compl.matrix_ j i = Matrix.adjugate (toMatrix m.matrix_ n) i j := by
  by_cases h1 : n = 1
  · subst h1
    refine ⟨⟨1, 1, [[1]]⟩, CalcComplements_one m hm, ⟨rfl, rfl, by simp [StoreShape]⟩, ?_⟩
    intro i j
    rw [Matrix.adjugate_fin_one]
    have hi : i = 0 := Subsingleton.elim _ _
    have hj : j = 0 := Subsingleton.elim _ _
    subst hi hj
    simp [rawGet]
  · obtain ⟨k, rfl⟩ : ∃ k, n = k + 1 := ⟨n - 1, by omega⟩
    obtain ⟨res, e1, e2, e3⟩ := CalcComplements_ok m k (by omega) hm
    refine ⟨res, e1, e2, ?_⟩
    intro i j
    rw [e3 j i j.2 i.2, Matrix.adjugate_fin_succ_eq_det_submatrix, cofactor, dif_pos ⟨j.2, i.2⟩]

/-- What `InverseMatrix` computes on a square matrix whose determinant is not
below the tolerance. -/
theorem InverseMatrix_ok (m : S21Matrix) (n : Nat) (hn : 1 ≤ n) (hm : HasShape m n n)
    (hd : ¬ |Matrix.det (toMatrix m.matrix_ n)| < 1 / 10 ^ 7) :
    ∃ compl res, m.CalcComplements = .ok compl ∧ m.InverseMatrix = .ok res ∧
      HasShape compl n n ∧ HasShape res n n ∧
      (∀ i j, i < n → j < n → rawGet res.matrix_ i j
        = rawGet compl.matrix_ j i * (1 / Matrix.det (toMatrix m.matrix_ n))) ∧
      (∀ i j : Fin n, rawGet compl.matrix_ j i = Matrix.adjugate (toMatrix m.matrix_ n) i j) := by
  obtain ⟨compl, c1, c2, c3⟩ := CalcComplements_adjugate m n hn hm
  obtain ⟨adj, t1, t2, t3⟩ := Transpose_ok compl n n hn hn c2
  have hmul := MulNumber_cells adj (1 / Matrix.det (toMatrix m.matrix_ n)) t2.shaped
  have hrows : adj.rows_.toNat = n := by rw [t2.1]; simp
  have hcols : adj.cols_.toNat = n := by rw [t2.2.1]; simp
  refine ⟨compl, adj.MulNumber (1 / Matrix.det (toMatrix m.matrix_ n)), c1, ?_, c2,
    ⟨t2.1, t2.2.1, ?_⟩, ?_, c3⟩
  · rw [InverseMatrix, Determinant_eq_det n m hn hm]
    simp only [ok_bind]
    rw [if_neg hd, c1]
    simp only [ok_bind]
    rw [t1]
    rfl
  · have := hmul.1.2.2
    rw [show (adj.MulNumber (1 / Matrix.det (toMatrix m.matrix_ n))).rows_ = adj.rows_ from rfl,
      show (adj.MulNumber (1 / Matrix.det (toMatrix m.matrix_ n))).cols_ = adj.cols_ from rfl,
      hrows, hcols] at this
    exact this
  · intro i j hi hj
    rw [hmul.2 i j (by omega) (by omega), t3 j i hj hi]

theorem InverseMatrix_singular (m : S21Matrix) (n : Nat) (hn : 1 ≤ n) (hm : HasShape m n n)
    (hd : |Matrix.det (toMatrix m.matrix_ n)| < 1 / 10 ^ 7) :
    m.InverseMatrix = .error .SingularMatrix := by
  rw [InverseMatrix, Determinant_eq_det n m hn hm]
  simp only [ok_bind]
  rw [if_pos hd]

theorem Determinant_notSquare (m : S21Matrix) (h : m.rows_ ≠ m.cols_) :
    m.Determinant = .error .NotSquare := by
  rw [Determinant, DeterminantFuel, if_pos h]

theorem CalcComplements_notSquare (m : S21Matrix) (h : m.rows_ ≠ m.cols_) :
    m.CalcComplements = .error .NotSquare := by
  rw [CalcComplements, if_pos h]

theorem InverseMatrix_notSquare (m : S21Matrix) (h : m.rows_ ≠ m.cols_) :
    m.InverseMatrix = .error .NotSquare := by
  rw [InverseMatrix, Determinant_notSquare m h]
  rfl

/-! ## Identity, comparison, right inverse -/

theorem identity_hasShape (n : Nat) : HasShape (identity n) n n := by
  refine ⟨rfl, rfl, by simp [identity], ?_⟩
  intro row hrow
  simp only [identity, List.mem_map] at hrow
  obtain ⟨i, _, rfl⟩ := hrow
  simp

theorem rawGet_identity (n i j : Nat) (hi : i < n) (hj : j < n) :
    rawGet (identity n).matrix_ i j = if i = j then 1 else 0 := by
  simp [rawGet_eq_getElem?, identity, List.getElem?_map, List.getElem?_range, hi, hj]

theorem EqMatrix_iff (m o : S21Matrix) :
    m.EqMatrix o = true ↔ m.rows_ = o.rows_ ∧ m.cols_ = o.cols_ ∧
      ∀ i j, i < m.rows_.toNat → j < m.cols_.toNat →
        |rawGet m.matrix_ i j - rawGet o.matrix_ i j| ≤ 1 / 10 ^ 7 := by
  unfold EqMatrix
  by_cases h : m.rows_ ≠ o.rows_ ∨ m.cols_ ≠ o.cols_
  · rw [if_pos h]
    constructor
    · intro h2; cases h2
    · rintro ⟨h1, h2, _⟩
      rcases h with h | h
      · exact absurd h1 h
      · exact absurd h2 h
  · rw [if_neg h]
    have h1 : m.rows_ = o.rows_ := by
      by_contra hc; exact h (Or.inl hc)
    have h2 : m.cols_ = o.cols_ := by
      by_contra hc; exact h (Or.inr hc)
    simp only [List.all_eq_true, List.mem_range, Bool.not_eq_true', decide_eq_false_iff_not,
      not_lt, gt_iff_lt]
    exact ⟨fun hh => ⟨h1, h2, fun i j hi hj => hh i hi j hj⟩,
      fun hh i hi j hj => hh.2.2 i j hi hj⟩

/-- Cells of `A * A.InverseMatrix()`: exactly those of the identity. -/
theorem MulMatrix_InverseMatrix (A : S21Matrix) (n : Nat) (hn : 1 ≤ n) (hA : HasShape A n n)
    (Ainv : S21Matrix) (h : A.InverseMatrix = .ok Ainv) :
    ∃ P, A.MulMatrix Ainv = .ok P ∧ HasShape P n n ∧
      ∀ i j, i < n → j < n → rawGet P.matrix_ i j = if i = j then 1 else 0 := by
  have hd : ¬ |Matrix.det (toMatrix A.matrix_ n)| < 1 / 10 ^ 7 := by
    intro hd
    rw [InverseMatrix_singular A n hn hA hd] at h
    cases h
  have hd0 : Matrix.det (toMatrix A.matrix_ n) ≠ 0 := by
    intro h0
    apply hd
    rw [h0]
    norm_num
  obtain ⟨compl, res, _, r1, _, r2, r3, r4⟩ := InverseMatrix_ok A n hn hA hd
  rw [r1] at h
  cases h
  have hAn : A.rows_.toNat = n := by rw [hA.1]; simp
  have hAc : A.cols_.toNat = n := by rw [hA.2.1]; simp
  have hBc : Ainv.cols_.toNat = n := by rw [r2.2.1]; simp
  obtain ⟨P, p1, p2, p3, p4, p5⟩ := MulMatrix_ok A Ainv (hA.wellFormed hn hn)
    (r2.wellFormed hn hn) (by rw [hA.2.1, r2.1])
  refine ⟨P, p1, ⟨by rw [p2, hA.1], by rw [p3, r2.2.1], ?_⟩, ?_⟩
  · have := p4.2.2
    rw [p2, p3, hAn, hBc] at this
    exact this
  · intro i j hi hj
    rw [p5 i j (by omega) (by omega), hAc, Finset.sum_range]
    have step : ∀ k : Fin n, rawGet A.matrix_ i k * rawGet Ainv.matrix_ k j
        = (toMatrix A.matrix_ n) ⟨i, hi⟩ k * Matrix.adjugate (toMatrix A.matrix_ n) k ⟨j, hj⟩
          * (1 / Matrix.det (toMatrix A.matrix_ n)) := by
      intro k
      rw [r3 k j k.2 hj, r4 k ⟨j, hj⟩]
      simp only [toMatrix, Matrix.of_apply]
      ring
    rw [Finset.sum_congr rfl (fun k _ => step k), ← Finset.sum_mul, ← Matrix.mul_apply,
      Matrix.mul_adjugate, Matrix.smul_apply, Matrix.one_apply]
    by_cases e : i = j
    · subst e
      simp [hd0]
    · have : ¬ ((⟨i, hi⟩ : Fin n) = ⟨j, hj⟩) := by
        intro hh
        exact e (Fin.mk.inj_iff.1 hh)
      simp [e, this]

/-! ## Specification properties -/

/-- C1: for every `n ≥ 1` and every `n × n` matrix `A`, `Determinant` returns the
mathematical determinant of `A`, the Leibniz sum over permutations; it is `-2`
for `[[1,2],[3,4]]` and `-1` for `[[2,5,7],[6,3,4],[5,-2,-3]]`. -/
theorem C1_Determinant_leibniz :
    (∀ (n : Nat) (A : S21Matrix), 1 ≤ n → HasShape A n n →
      A.Determinant = .ok (∑ σ : Equiv.Perm (Fin n),
        Equiv.Perm.sign σ • ∏ i : Fin n, rawGet A.matrix_ (σ i) i)) ∧
    (ofRows 2 2 [[1, 2], [3, 4]]).Determinant = .ok (-2) ∧
    (ofRows 3 3 [[2, 5, 7], [6, 3, 4], [5, -2, -3]]).Determinant = .ok (-1) := by
  refine ⟨?_, by decide!, by decide!⟩
  intro n A hn hA
  rw [Determinant_eq_det n A hn hA, Matrix.det_apply]
  rfl

theorem C1_Determinant_leibniz_witness :
    HasShape (ofRows 2 2 [[1, 2], [3, 4]]) 2 2 ∧
    (ofRows 2 2 [[1, 2], [3, 4]]).Determinant = .ok (∑ σ : Equiv.Perm (Fin 2),
      Equiv.Perm.sign σ • ∏ i : Fin 2, rawGet (ofRows 2 2 [[1, 2], [3, 4]]).matrix_ (σ i) i) :=
  ⟨by decide, C1_Determinant_leibniz.1 2 (ofRows 2 2 [[1, 2], [3, 4]]) (by decide) (by decide)⟩

/-- C3 (amended): with cells read as exact numbers, for every square matrix `A`
on which `InverseMatrix` succeeds, the product `A * A.InverseMatrix()` computed by
`MulMatrix` is `EqMatrix`-equal to the `n × n` identity matrix.  (With binary64
cells the product can differ from the identity by more than `1e-7`.) -/
theorem C3_right_inverse (n : Nat) (A Ainv : S21Matrix) (hn : 1 ≤ n) (hA : HasShape A n n)
    (h : A.InverseMatrix = .ok Ainv) :
    ∃ P, A.MulMatrix Ainv = .ok P ∧ P.EqMatrix (identity n) = true := by
  obtain ⟨P, p1, p2, p3⟩ := MulMatrix_InverseMatrix A n hn hA Ainv h
  refine ⟨P, p1, ?_⟩
  rw [EqMatrix_iff]
  refine ⟨by rw [p2.1]; rfl, by rw [p2.2.1]; rfl, ?_⟩
  intro i j hi hj
  have hi2 : i < n := by rw [p2.1] at hi; simpa using hi
  have hj2 : j < n := by rw [p2.2.1] at hj; simpa using hj
  rw [p3 i j hi2 hj2, rawGet_identity n i j hi2 hj2, sub_self, abs_zero]
  norm_num

theorem C3_right_inverse_witness :
    ∃ P, (ofRows 3 3 [[2, 5, 7], [6, 3, 4], [5, -2, -3]]).MulMatrix
        (ofRows 3 3 [[1, -1, 1], [-38, 41, -34], [27, -29, 24]]) = .ok P ∧
      P.EqMatrix (identity 3) = true :=
  C3_right_inverse 3 (ofRows 3 3 [[2, 5, 7], [6, 3, 4], [5, -2, -3]])
    (ofRows 3 3 [[1, -1, 1], [-38, 41, -34], [27, -29, 24]]) (by decide) (by decide)
    (by decide!)

/-- C5: for every `n ≥ 2` and every `n × n` matrix `A`, `CalcComplements` returns an
`n × n` matrix whose cell `(i, j)` is `sign(i, j)` times the `Determinant` of the
minor of `A` without row `i` and column `j` (as extracted by `GetMinor`), the sign
being `+1` when `i + j` is even and `-1` otherwise; for
`[[1,2,3],[0,4,5],[1,0,6]]` the result is `[[24,5,-4],[-12,3,2],[-2,-5,4]]`. -/
theorem C5_CalcComplements_cells :
    (∀ (n : Nat) (A : S21Matrix), 2 ≤ n → HasShape A n n →
      ∃ C, A.CalcComplements = .ok C ∧ HasShape C n n ∧
        ∀ i j : Nat, i < n → j < n →
          ∃ minor d, GetMinor A (i : Int) (j : Int) = .ok minor ∧
            HasShape minor (n - 1) (n - 1) ∧
            (∀ a b, a < n - 1 → b < n - 1 →
              rawGet minor.matrix_ a b
                = rawGet A.matrix_ (if a < i then a else a + 1) (if b < j then b else b + 1)) ∧
            minor.Determinant = .ok d ∧
            rawGet C.matrix_ i j = (if (i + j) % 2 = 0 then 1 else -1) * d) ∧
    (ofRows 3 3 [[1, 2, 3], [0, 4, 5], [1, 0, 6]]).CalcComplements
      = .ok (ofRows 3 3 [[24, 5, -4], [-12, 3, 2], [-2, -5, 4]]) := by
  refine ⟨?_, by decide!⟩
  intro n A hn hA
  obtain ⟨k, rfl⟩ : ∃ k, n = k + 1 := ⟨n - 1, by omega⟩
  have hk : 1 ≤ k := by omega
  obtain ⟨C, c1, c2, c3⟩ := CalcComplements_ok A k hk hA
  refine ⟨C, c1, c2, ?_⟩
  intro i j hi hj
  obtain ⟨minor, d, g1, g2, g3, g4, g5⟩ := complement_cell A k i j hk hA hi hj
  refine ⟨minor, d, g1, g3, g4, g2, ?_⟩
  rw [c3 i j hi hj, ← g5]
  congr 1
  have e : ((i : Int) + (j : Int)) % 2 = 0 ↔ (i + j) % 2 = 0 := by omega
  by_cases h : (i + j) % 2 = 0
  · rw [if_pos h, if_pos (e.2 h)]
  · rw [if_neg h, if_neg (fun h2 => h (e.1 h2))]

theorem C5_CalcComplements_cells_witness :
    ∃ C, (ofRows 2 2 [[1, 2], [3, 4]]).CalcComplements = .ok C ∧ HasShape C 2 2 ∧
      ∀ i j : Nat, i < 2 → j < 2 →
        ∃ minor d, GetMinor (ofRows 2 2 [[1, 2], [3, 4]]) (i : Int) (j : Int) = .ok minor ∧
          HasShape minor (2 - 1) (2 - 1) ∧
          (∀ a b, a < 2 - 1 → b < 2 - 1 →
            rawGet minor.matrix_ a b
              = rawGet (ofRows 2 2 [[1, 2], [3, 4]]).matrix_
                  (if a < i then a else a + 1) (if b < j then b else b + 1)) ∧
          minor.Determinant = .ok d ∧
          rawGet C.matrix_ i j = (if (i + j) % 2 = 0 then 1 else -1) * d :=
  C5_CalcComplements_cells.1 2 (ofRows 2 2 [[1, 2], [3, 4]]) (by decide) (by decide)

/-- C6: for every `1 × 1` matrix with element `x`, `Determinant` returns `x` and
`CalcComplements` returns the `1 × 1` matrix `[1]`, whatever `x` is. -/
theorem C6_one_by_one (A : S21Matrix) (hA : HasShape A 1 1) :
    A.Determinant = .ok (rawGet A.matrix_ 0 0) ∧
    A.CalcComplements = .ok (ofRows 1 1 [[1]]) := by
  refine ⟨?_, CalcComplements_one A hA⟩
  rw [Determinant, DeterminantFuel, if_neg (by rw [hA.1, hA.2.1]; simp),
    if_pos (by rw [hA.1]; rfl)]

theorem C6_one_by_one_witness :
    (ofRows 1 1 [[31 / 2]]).Determinant = .ok (rawGet (ofRows 1 1 [[31 / 2]]).matrix_ 0 0) ∧
    (ofRows 1 1 [[31 / 2]]).CalcComplements = .ok (ofRows 1 1 [[1]]) :=
  C6_one_by_one (ofRows 1 1 [[31 / 2]]) (by decide)

/-- C7: on a matrix with `rows ≥ 1` and `cols ≥ 1`, `Determinant` fails exactly when
`rows ≠ cols`, and so does `CalcComplements`, the failure being `NotSquare`; on
every square matrix both return a value, so the recursion over minors ends
without any construction or index error from `GetMinor`. -/
theorem C7_square_precondition (A : S21Matrix) (hA : WellFormed A) :
    (A.rows_ ≠ A.cols_ →
      A.Determinant = .error .NotSquare ∧ A.CalcComplements = .error .NotSquare) ∧
    (A.rows_ = A.cols_ → (∃ d, A.Determinant = .ok d) ∧ ∃ C, A.CalcComplements = .ok C) ∧
    ((∃ e, A.Determinant = .error e) ↔ A.rows_ ≠ A.cols_) ∧
    ((∃ e, A.CalcComplements = .error e) ↔ A.rows_ ≠ A.cols_) := by
  obtain ⟨hs, h1, _⟩ := hA.hasShape
  have sq : A.rows_ = A.cols_ →
      (∃ d, A.Determinant = .ok d) ∧ ∃ C, A.CalcComplements = .ok C := by
    intro h
    rw [← h] at hs
    obtain ⟨C, c1, _⟩ := CalcComplements_adjugate A _ h1 hs
    exact ⟨⟨_, Determinant_eq_det _ A h1 hs⟩, C, c1⟩
  refine ⟨fun h => ⟨Determinant_notSquare A h, CalcComplements_notSquare A h⟩, sq, ?_, ?_⟩
  · constructor
    · rintro ⟨e, he⟩ h
      obtain ⟨⟨d, hd⟩, _⟩ := sq h
      rw [hd] at he
      cases he
    · exact fun h => ⟨_, Determinant_notSquare A h⟩
  · constructor
    · rintro ⟨e, he⟩ h
      obtain ⟨_, C, hC⟩ := sq h
      rw [hC] at he
      cases he
    · exact fun h => ⟨_, CalcComplements_notSquare A h⟩

theorem C7_square_precondition_witness :
    ((ofRows 3 3 [[1, 2, 3], [0, 4, 5], [1, 0, 6]]).rows_ ≠ (ofRows 3 3 [[1, 2, 3], [0, 4, 5], [1, 0, 6]]).cols_ →
      (ofRows 3 3 [[1, 2, 3], [0, 4, 5], [1, 0, 6]]).Determinant = .error .NotSquare ∧
      (ofRows 3 3 [[1, 2, 3], [0, 4, 5], [1, 0, 6]]).CalcComplements = .error .NotSquare) ∧
    ((ofRows 3 3 [[1, 2, 3], [0, 4, 5], [1, 0, 6]]).rows_ = (ofRows 3 3 [[1, 2, 3], [0, 4, 5], [1, 0, 6]]).cols_ →
      (∃ d, (ofRows 3 3 [[1, 2, 3], [0, 4, 5], [1, 0, 6]]).Determinant = .ok d) ∧
      ∃ C, (ofRows 3 3 [[1, 2, 3], [0, 4, 5], [1, 0, 6]]).CalcComplements = .ok C) ∧
    ((∃ e, (ofRows 3 3 [[1, 2, 3], [0, 4, 5], [1, 0, 6]]).Determinant = .error e) ↔
      (ofRows 3 3 [[1, 2, 3], [0, 4, 5], [1, 0, 6]]).rows_ ≠ (ofRows 3 3 [[1, 2, 3], [0, 4, 5], [1, 0, 6]]).cols_) ∧
    ((∃ e, (ofRows 3 3 [[1, 2, 3], [0, 4, 5], [1, 0, 6]]).CalcComplements = .error e) ↔
      (ofRows 3 3 [[1, 2, 3], [0, 4, 5], [1, 0, 6]]).rows_ ≠ (ofRows 3 3 [[1, 2, 3], [0, 4, 5], [1, 0, 6]]).cols_) :=
  C7_square_precondition (ofRows 3 3 [[1, 2, 3], [0, 4, 5], [1, 0, 6]]) (by decide)

theorem callOn_ok (f : S21Matrix → S21Matrix → Except Error S21Matrix) (a b a2 : S21Matrix)
    (h : f a b = .ok a2) : callOn f a b = .ok (a2, b) := by
  rw [callOn, h]

theorem callOn_error (f : S21Matrix → S21Matrix → Except Error S21Matrix) (a b : S21Matrix)
    (e : Error) (h : f a b = .error e) : callOn f a b = .error e := by
  rw [callOn, h]

/-- C9: for matrices `A` and `B`, the call `A.SumMatrix(B)` (resp. `A.SubMatrix(B)`)
fails, with `DimensionMismatch`, exactly when the row counts or the column counts
differ; otherwise every cell `(i, j)` of `A` becomes `A(i,j) + B(i,j)` (resp.
`A(i,j) - B(i,j)`), the extents of `A` are as before and `B` is as before. -/
theorem C9_SumMatrix_SubMatrix (A B : S21Matrix) (hA : Shaped A) (hB : Shaped B) :
    (callOn SumMatrix A B = .error .DimensionMismatch ↔
      (A.rows_ ≠ B.rows_ ∨ A.cols_ ≠ B.cols_)) ∧
    (callOn SubMatrix A B = .error .DimensionMismatch ↔
      (A.rows_ ≠ B.rows_ ∨ A.cols_ ≠ B.cols_)) ∧
    ((∃ e, callOn SumMatrix A B = .error e) ↔ (A.rows_ ≠ B.rows_ ∨ A.cols_ ≠ B.cols_)) ∧
    ((∃ e, callOn SubMatrix A B = .error e) ↔ (A.rows_ ≠ B.rows_ ∨ A.cols_ ≠ B.cols_)) ∧
    (¬ (A.rows_ ≠ B.rows_ ∨ A.cols_ ≠ B.cols_) →
      ∃ A1 A2, callOn SumMatrix A B = .ok (A1, B) ∧ callOn SubMatrix A B = .ok (A2, B) ∧
        A1.rows_ = A.rows_ ∧ A1.cols_ = A.cols_ ∧ Shaped A1 ∧
        A2.rows_ = A.rows_ ∧ A2.cols_ = A.cols_ ∧ Shaped A2 ∧
        ∀ i j, i < A.rows_.toNat → j < A.cols_.toNat →
          rawGet A1.matrix_ i j = rawGet A.matrix_ i j + rawGet B.matrix_ i j ∧
          rawGet A2.matrix_ i j = rawGet A.matrix_ i j - rawGet B.matrix_ i j) := by
  have _ := hB
  have bad1 : (A.rows_ ≠ B.rows_ ∨ A.cols_ ≠ B.cols_) →
      callOn SumMatrix A B = .error .DimensionMismatch := by
    intro h
    apply callOn_error
    rw [SumMatrix, if_pos h]
  have bad2 : (A.rows_ ≠ B.rows_ ∨ A.cols_ ≠ B.cols_) →
      callOn SubMatrix A B = .error .DimensionMismatch := by
    intro h
    apply callOn_error
    rw [SubMatrix, if_pos h]
  have good : ¬ (A.rows_ ≠ B.rows_ ∨ A.cols_ ≠ B.cols_) →
      ∃ A1 A2, callOn SumMatrix A B = .ok (A1, B) ∧ callOn SubMatrix A B = .ok (A2, B) ∧
        A1.rows_ = A.rows_ ∧ A1.cols_ = A.cols_ ∧ Shaped A1 ∧
        A2.rows_ = A.rows_ ∧ A2.cols_ = A.cols_ ∧ Shaped A2 ∧
        ∀ i j, i < A.rows_.toNat → j < A.cols_.toNat →
          rawGet A1.matrix_ i j = rawGet A.matrix_ i j + rawGet B.matrix_ i j ∧
          rawGet A2.matrix_ i j = rawGet A.matrix_ i j - rawGet B.matrix_ i j := by
    intro h
    have hr : A.rows_ = B.rows_ := by
      by_contra hc; exact h (Or.inl hc)
    have hc : A.cols_ = B.cols_ := by
      by_contra hc; exact h (Or.inr hc)
    obtain ⟨A1, a1, a2, a3, a4, a5⟩ := SumMatrix_ok A B hA hr hc
    obtain ⟨A2, b1, b2, b3, b4, b5⟩ := SubMatrix_ok A B hA hr hc
    exact ⟨A1, A2, callOn_ok _ _ _ _ a1, callOn_ok _ _ _ _ b1, a2, a3, a4, b2, b3, b4,
      fun i j hi hj => ⟨a5 i j hi hj, b5 i j hi hj⟩⟩
  refine ⟨⟨?_, bad1⟩, ⟨?_, bad2⟩, ⟨?_, fun h => ⟨_, bad1 h⟩⟩, ⟨?_, fun h => ⟨_, bad2 h⟩⟩, good⟩
  · intro he
    by_contra h
    obtain ⟨A1, A2, p1, _⟩ := good h
    rw [p1] at he
    cases he
  · intro he
    by_contra h
    obtain ⟨A1, A2, _, p2, _⟩ := good h
    rw [p2] at he
    cases he
  · rintro ⟨e, he⟩
    by_contra h
    obtain ⟨A1, A2, p1, _⟩ := good h
    rw [p1] at he
    cases he
  · rintro ⟨e, he⟩
    by_contra h
    obtain ⟨A1, A2, _, p2, _⟩ := good h
    rw [p2] at he
    cases he

theorem C9_SumMatrix_SubMatrix_witness :
    (callOn SumMatrix (ofRows 2 2 [[1, 2], [3, 4]]) (ofRows 2 2 [[5, 6], [7, 8]])
        = .error .DimensionMismatch ↔
      ((ofRows 2 2 [[1, 2], [3, 4]]).rows_ ≠ (ofRows 2 2 [[5, 6], [7, 8]]).rows_ ∨
        (ofRows 2 2 [[1, 2], [3, 4]]).cols_ ≠ (ofRows 2 2 [[5, 6], [7, 8]]).cols_)) ∧
    (callOn SubMatrix (ofRows 2 2 [[1, 2], [3, 4]]) (ofRows 2 2 [[5, 6], [7, 8]])
        = .error .DimensionMismatch ↔
      ((ofRows 2 2 [[1, 2], [3, 4]]).rows_ ≠ (ofRows 2 2 [[5, 6], [7, 8]]).rows_ ∨
        (ofRows 2 2 [[1, 2], [3, 4]]).cols_ ≠ (ofRows 2 2 [[5, 6], [7, 8]]).cols_)) ∧
    ((∃ e, callOn SumMatrix (ofRows 2 2 [[1, 2], [3, 4]]) (ofRows 2 2 [[5, 6], [7, 8]])
        = .error e) ↔
      ((ofRows 2 2 [[1, 2], [3, 4]]).rows_ ≠ (ofRows 2 2 [[5, 6], [7, 8]]).rows_ ∨
        (ofRows 2 2 [[1, 2], [3, 4]]).cols_ ≠ (ofRows 2 2 [[5, 6], [7, 8]]).cols_)) ∧
    ((∃ e, callOn SubMatrix (ofRows 2 2 [[1, 2], [3, 4]]) (ofRows 2 2 [[5, 6], [7, 8]])
        = .error e) ↔
      ((ofRows 2 2 [[1, 2], [3, 4]]).rows_ ≠ (ofRows 2 2 [[5, 6], [7, 8]]).rows_ ∨
        (ofRows 2 2 [[1, 2], [3, 4]]).cols_ ≠ (ofRows 2 2 [[5, 6], [7, 8]]).cols_)) ∧
    (¬ ((ofRows 2 2 [[1, 2], [3, 4]]).rows_ ≠ (ofRows 2 2 [[5, 6], [7, 8]]).rows_ ∨
        (ofRows 2 2 [[1, 2], [3, 4]]).cols_ ≠ (ofRows 2 2 [[5, 6], [7, 8]]).cols_) →
      ∃ A1 A2,
        callOn SumMatrix (ofRows 2 2 [[1, 2], [3, 4]]) (ofRows 2 2 [[5, 6], [7, 8]])
          = .ok (A1, ofRows 2 2 [[5, 6], [7, 8]]) ∧
        callOn SubMatrix (ofRows 2 2 [[1, 2], [3, 4]]) (ofRows 2 2 [[5, 6], [7, 8]])
          = .ok (A2, ofRows 2 2 [[5, 6], [7, 8]]) ∧
        A1.rows_ = (ofRows 2 2 [[1, 2], [3, 4]]).rows_ ∧
        A1.cols_ = (ofRows 2 2 [[1, 2], [3, 4]]).cols_ ∧ Shaped A1 ∧
        A2.rows_ = (ofRows 2 2 [[1, 2], [3, 4]]).rows_ ∧
        A2.cols_ = (ofRows 2 2 [[1, 2], [3, 4]]).cols_ ∧ Shaped A2 ∧
        ∀ i j, i < (ofRows 2 2 [[1, 2], [3, 4]]).rows_.toNat →
          j < (ofRows 2 2 [[1, 2], [3, 4]]).cols_.toNat →
          rawGet A1.matrix_ i j
            = rawGet (ofRows 2 2 [[1, 2], [3, 4]]).matrix_ i j
              + rawGet (ofRows 2 2 [[5, 6], [7, 8]]).matrix_ i j ∧
          rawGet A2.matrix_ i j
            = rawGet (ofRows 2 2 [[1, 2], [3, 4]]).matrix_ i j
              - rawGet (ofRows 2 2 [[5, 6], [7, 8]]).matrix_ i j) :=
  C9_SumMatrix_SubMatrix (ofRows 2 2 [[1, 2], [3, 4]]) (ofRows 2 2 [[5, 6], [7, 8]])
    (by decide) (by decide)

/-- C10: for every matrix `A` and every scalar `k`, `MulNumber` (which has no
failure path) leaves the extents of `A` as they are and makes every cell `(i, j)`
equal to the old `A(i,j)` multiplied by `k`. -/
theorem C10_MulNumber (A : S21Matrix) (k : ℚ) (hA : Shaped A) :
    (A.MulNumber k).rows_ = A.rows_ ∧ (A.MulNumber k).cols_ = A.cols_ ∧
    Shaped (A.MulNumber k) ∧
    ∀ i j, i < A.rows_.toNat → j < A.cols_.toNat →
      rawGet (A.MulNumber k).matrix_ i j = rawGet A.matrix_ i j * k :=
  ⟨rfl, rfl, (MulNumber_cells A k hA).1, (MulNumber_cells A k hA).2⟩

theorem C10_MulNumber_witness :
    ((ofRows 2 2 [[1, 2], [3, 4]]).MulNumber 2).rows_ = (ofRows 2 2 [[1, 2], [3, 4]]).rows_ ∧
    ((ofRows 2 2 [[1, 2], [3, 4]]).MulNumber 2).cols_ = (ofRows 2 2 [[1, 2], [3, 4]]).cols_ ∧
    Shaped ((ofRows 2 2 [[1, 2], [3, 4]]).MulNumber 2) ∧
    ∀ i j, i < (ofRows 2 2 [[1, 2], [3, 4]]).rows_.toNat →
      j < (ofRows 2 2 [[1, 2], [3, 4]]).cols_.toNat →
      rawGet ((ofRows 2 2 [[1, 2], [3, 4]]).MulNumber 2).matrix_ i j
        = rawGet (ofRows 2 2 [[1, 2], [3, 4]]).matrix_ i j * 2 :=
  C10_MulNumber (ofRows 2 2 [[1, 2], [3, 4]]) 2 (by decide)

theorem rawGet_ctorDefault (i j : Nat) : rawGet ctorDefault.matrix_ i j = 0 :=
  rawGet_AllocateMatrix 3 3 i j

/-- C16: the parametrized constructor fails, with `InvalidDimension`, exactly when
`rows < 1` or `cols < 1` (as for `(0,5)`, `(5,0)`, `(-1,5)`); otherwise it yields a
matrix with exactly those extents whose every cell is 0.  Default construction
yields the `3 × 3` matrix whose every cell is 0. -/
theorem C16_constructors :
    (∀ rows cols : Int,
      (ctor rows cols = .error .InvalidDimension ↔ (rows < 1 ∨ cols < 1)) ∧
      ((∃ e, ctor rows cols = .error e) ↔ (rows < 1 ∨ cols < 1)) ∧
      (¬ (rows < 1 ∨ cols < 1) →
        ∃ m, ctor rows cols = .ok m ∧ m.rows_ = rows ∧ m.cols_ = cols ∧ WellFormed m ∧
          ∀ i j, rawGet m.matrix_ i j = 0)) ∧
    ctor 0 5 = .error .InvalidDimension ∧
    ctor 5 0 = .error .InvalidDimension ∧
    ctor (-1) 5 = .error .InvalidDimension ∧
    ctorDefault.rows_ = 3 ∧ ctorDefault.cols_ = 3 ∧ WellFormed ctorDefault ∧
    (∀ i j, rawGet ctorDefault.matrix_ i j = 0) := by
  refine ⟨?_, by decide, by decide, by decide, rfl, rfl, by decide, rawGet_ctorDefault⟩
  intro rows cols
  by_cases h : rows < 1 ∨ cols < 1
  · have e : ctor rows cols = .error .InvalidDimension := by rw [ctor, if_pos h]
    exact ⟨⟨fun _ => h, fun _ => e⟩, ⟨fun _ => h, fun _ => ⟨_, e⟩⟩, fun h2 => absurd h h2⟩
  · have hr : 1 ≤ rows := by omega
    have hc : 1 ≤ cols := by omega
    have e := ctor_ok rows cols hr hc
    refine ⟨⟨fun h2 => ?_, fun h2 => absurd h2 h⟩, ⟨fun h2 => ?_, fun h2 => absurd h2 h⟩,
      fun _ => ⟨_, e, rfl, rfl, ctor_wellFormed rows cols hr hc, rawGet_AllocateMatrix rows cols⟩⟩
    · rw [e] at h2; cases h2
    · obtain ⟨x, hx⟩ := h2
      rw [e] at hx; cases hx

theorem C16_constructors_witness :
    ∃ m, ctor 5 10 = .ok m ∧ m.rows_ = 5 ∧ m.cols_ = 10 ∧ WellFormed m ∧
      ∀ i j, rawGet m.matrix_ i j = 0 :=
  (C16_constructors.1 5 10).2.2 (by decide)

/-- C17: element access `operator()(row, col)`, in the mutable and in the read-only
form, fails, with `IndexOutOfRange`, exactly when `row < 0` or `col < 0` or
`row >= rows` or `col >= cols`; otherwise it yields the cell `(row, col)`, and
after writing `v` through the mutable form a read at `(row, col)` returns `v`
while the extents and every other cell are as before. -/
theorem C17_element_access (A : S21Matrix) (row col : Int) (v : ℚ) (hA : Shaped A) :
    (A.opCall row col = .error .IndexOutOfRange ↔
      (row < 0 ∨ col < 0 ∨ row ≥ A.rows_ ∨ col ≥ A.cols_)) ∧
    (A.opCallMut row col = .error .IndexOutOfRange ↔
      (row < 0 ∨ col < 0 ∨ row ≥ A.rows_ ∨ col ≥ A.cols_)) ∧
    (A.opCallSet row col v = .error .IndexOutOfRange ↔
      (row < 0 ∨ col < 0 ∨ row ≥ A.rows_ ∨ col ≥ A.cols_)) ∧
    ((∃ e, A.opCall row col = .error e) ↔
      (row < 0 ∨ col < 0 ∨ row ≥ A.rows_ ∨ col ≥ A.cols_)) ∧
    ((∃ e, A.opCallMut row col = .error e) ↔
      (row < 0 ∨ col < 0 ∨ row ≥ A.rows_ ∨ col ≥ A.cols_)) ∧
    ((∃ e, A.opCallSet row col v = .error e) ↔
      (row < 0 ∨ col < 0 ∨ row ≥ A.rows_ ∨ col ≥ A.cols_)) ∧
    (¬ (row < 0 ∨ col < 0 ∨ row ≥ A.rows_ ∨ col ≥ A.cols_) →
      A.opCall row col = .ok (rawGet A.matrix_ row.toNat col.toNat) ∧
      A.opCallMut row col = .ok (rawGet A.matrix_ row.toNat col.toNat) ∧
      ∃ A2, A.opCallSet row col v = .ok A2 ∧
        A2.opCall row col = .ok v ∧ A2.opCallMut row col = .ok v ∧
        A2.rows_ = A.rows_ ∧ A2.cols_ = A.cols_ ∧ Shaped A2 ∧
        ∀ i j, i < A.rows_.toNat → j < A.cols_.toNat →
          ¬ (i = row.toNat ∧ j = col.toNat) →
          rawGet A2.matrix_ i j = rawGet A.matrix_ i j) := by
  have emut : A.opCallMut row col = A.opCall row col := rfl
  by_cases h : row < 0 ∨ col < 0 ∨ row ≥ A.rows_ ∨ col ≥ A.cols_
  · have hc : row ≥ A.rows_ ∨ col ≥ A.cols_ ∨ row < 0 ∨ col < 0 := by omega
    have e1 : A.opCall row col = .error .IndexOutOfRange := by rw [opCall, if_pos hc]
    have e2 : A.opCallSet row col v = .error .IndexOutOfRange := by rw [opCallSet, if_pos hc]
    rw [emut]
    exact ⟨⟨fun _ => h, fun _ => e1⟩, ⟨fun _ => h, fun _ => e1⟩, ⟨fun _ => h, fun _ => e2⟩,
      ⟨fun _ => h, fun _ => ⟨_, e1⟩⟩, ⟨fun _ => h, fun _ => ⟨_, e1⟩⟩,
      ⟨fun _ => h, fun _ => ⟨_, e2⟩⟩, fun h2 => absurd h h2⟩
  · have hc : ¬ (row ≥ A.rows_ ∨ col ≥ A.cols_ ∨ row < 0 ∨ col < 0) := by omega
    have e1 : A.opCall row col = .ok (rawGet A.matrix_ row.toNat col.toNat) := by
      rw [opCall, if_neg hc]
    have e2 : A.opCallSet row col v
        = .ok ⟨A.rows_, A.cols_, rawSet A.matrix_ row.toNat col.toNat v⟩ := by
      rw [opCallSet, if_neg hc]
    obtain ⟨h0, h1, hs⟩ := hA
    have hi : row.toNat < A.rows_.toNat := by omega
    have hj : col.toNat < A.cols_.toNat := by omega
    have e3 : (⟨A.rows_, A.cols_, rawSet A.matrix_ row.toNat col.toNat v⟩ : S21Matrix).opCall
        row col = .ok v := by
      rw [opCall, if_neg hc]
      simp only []
      rw [rawGet_rawSet hs hi hj]
      simp
    rw [emut]
    refine ⟨⟨fun h2 => ?_, fun h2 => absurd h2 h⟩, ⟨fun h2 => ?_, fun h2 => absurd h2 h⟩,
      ⟨fun h2 => ?_, fun h2 => absurd h2 h⟩, ⟨fun h2 => ?_, fun h2 => absurd h2 h⟩,
      ⟨fun h2 => ?_, fun h2 => absurd h2 h⟩, ⟨fun h2 => ?_, fun h2 => absurd h2 h⟩,
      fun _ => ⟨e1, e1, _, e2, e3, e3, rfl, rfl, ⟨h0, h1, rawSet_shape hs _ _ _⟩, ?_⟩⟩
    · rw [e1] at h2; cases h2
    · rw [e1] at h2; cases h2
    · rw [e2] at h2; cases h2
    · obtain ⟨x, hx⟩ := h2
      rw [e1] at hx; cases hx
    · obtain ⟨x, hx⟩ := h2
      rw [e1] at hx; cases hx
    · obtain ⟨x, hx⟩ := h2
      rw [e2] at hx; cases hx
    · intro i j _ _ hne
      simp only []
      rw [rawGet_rawSet hs hi hj, if_neg hne]

theorem C17_element_access_witness :
    Shaped (ofRows 2 2 [[1, 2], [3, 4]]) ∧
    (ofRows 2 2 [[1, 2], [3, 4]]).opCall 1 1 = .ok 4 ∧
    ((ofRows 2 2 [[1, 2], [3, 4]]).opCall 2 0 = .error .IndexOutOfRange ↔
      ((2 : Int) < 0 ∨ (0 : Int) < 0 ∨ (2 : Int) ≥ (ofRows 2 2 [[1, 2], [3, 4]]).rows_ ∨
        (0 : Int) ≥ (ofRows 2 2 [[1, 2], [3, 4]]).cols_)) :=
  ⟨by decide,
    ((C17_element_access (ofRows 2 2 [[1, 2], [3, 4]]) 1 1 99 (by decide)).2.2.2.2.2.2
      (by decide)).1,
    (C17_element_access (ofRows 2 2 [[1, 2], [3, 4]]) 2 0 99 (by decide)).1⟩

/-- Two matrices with the same extents, stores of that shape and equal cells are
the same value. -/
theorem HasShape.eq_of_cells {a b : S21Matrix} {r c : Nat} (ha : HasShape a r c) (hb : HasShape b r c)
    (h : ∀ i j, i < r → j < c → rawGet a.matrix_ i j = rawGet b.matrix_ i j) : a = b := by
  obtain ⟨a1, a2, a3⟩ := ha
  obtain ⟨b1, b2, b3⟩ := hb
  cases a
  cases b
  simp only [] at a1 a2 a3 b1 b2 b3 h
  subst a1 a2 b1 b2
  rw [StoreShape.ext a3 b3 h]

theorem callConst_ok {α : Type} (f : S21Matrix → Except Error α) (a : S21Matrix) (r : α)
    (h : f a = .ok r) : callConst f a = .ok (r, a) := by
  rw [callConst, h]

/-- C12, the claim as stated fails: on the empty matrix that a move leaves behind
(`rows_ = cols_ = 0`, null store; here the source of a move construction from a
`2 × 2` matrix) `Transpose` does not succeed, the construction of its `0 × 0`
result throws `InvalidDimension`. -/
theorem C12_Transpose_empty_fails :
    (Mem.ctorMove (Mem.mk [⟨2, 2, some 0⟩] [some [[1, 2], [3, 4]]]) 0).view 0 = ofRows 0 0 [] ∧
    Shaped (ofRows 0 0 []) ∧ (ofRows 0 0 []).Transpose = .error .InvalidDimension := by
  decide

/-- C12, amended: for every matrix `A` with `rows ≥ 1` and `cols ≥ 1`, `Transpose`
succeeds and returns a new matrix with `rows = A.cols` and `cols = A.rows` whose
cell `(j, i)` equals `A(i, j)` for every `i < rows` and `j < cols`, `A` being as
before. -/
theorem C12_Transpose (A : S21Matrix) (hA : WellFormed A) :
    ∃ T, callConst Transpose A = .ok (T, A) ∧
      T.rows_ = A.cols_ ∧ T.cols_ = A.rows_ ∧ WellFormed T ∧
      ∀ i j, i < A.rows_.toNat → j < A.cols_.toNat →
        rawGet T.matrix_ j i = rawGet A.matrix_ i j := by
  obtain ⟨hs, h1, h2⟩ := hA.hasShape
  obtain ⟨T, t1, t2, t3⟩ := Transpose_ok A _ _ h1 h2 hs
  refine ⟨T, callConst_ok _ _ _ t1, ?_, ?_, t2.wellFormed h2 h1, t3⟩
  · rw [t2.1]; exact hs.2.1.symm
  · rw [t2.2.1]; exact hs.1.symm

theorem C12_Transpose_witness :
    ∃ T, callConst Transpose (ofRows 2 3 [[0, 0, 0], [0, 0, 11 / 2]])
        = .ok (T, ofRows 2 3 [[0, 0, 0], [0, 0, 11 / 2]]) ∧
      T.rows_ = 3 ∧ T.cols_ = 2 ∧ WellFormed T ∧
      ∀ i j, i < 2 → j < 3 →
        rawGet T.matrix_ j i = rawGet (ofRows 2 3 [[0, 0, 0], [0, 0, 11 / 2]]).matrix_ i j :=
  C12_Transpose (ofRows 2 3 [[0, 0, 0], [0, 0, 11 / 2]]) (by decide)

/-- C13: for every `r × c` matrix `A` with `r, c ≥ 1` (square ones included),
`Transpose(Transpose(A))` succeeds, has the extents of `A`, is `EqMatrix`-equal
to `A` and is cell-for-cell identical to it. -/
theorem C13_Transpose_involution (A : S21Matrix) (hA : WellFormed A) :
    ∃ T TT, A.Transpose = .ok T ∧ T.Transpose = .ok TT ∧
      TT.rows_ = A.rows_ ∧ TT.cols_ = A.cols_ ∧ TT.EqMatrix A = true ∧
      (∀ i j, i < A.rows_.toNat → j < A.cols_.toNat →
        rawGet TT.matrix_ i j = rawGet A.matrix_ i j) ∧
      TT = A := by
  obtain ⟨hs, h1, h2⟩ := hA.hasShape
  obtain ⟨T, t1, t2, t3⟩ := Transpose_ok A _ _ h1 h2 hs
  obtain ⟨TT, u1, u2, u3⟩ := Transpose_ok T _ _ h2 h1 t2
  have cells : ∀ i j, i < A.rows_.toNat → j < A.cols_.toNat →
      rawGet TT.matrix_ i j = rawGet A.matrix_ i j := by
    intro i j hi hj
    rw [u3 j i hj hi, t3 i j hi hj]
  have e : TT = A := HasShape.eq_of_cells u2 hs cells
  refine ⟨T, TT, t1, u1, by rw [e], by rw [e], ?_, cells, e⟩
  rw [EqMatrix_iff]
  refine ⟨by rw [e], by rw [e], ?_⟩
  intro i j _ _
  rw [e, sub_self, abs_zero]
  norm_num

theorem C13_Transpose_involution_witness :
    ∃ T TT, (ofRows 2 3 [[1, 2, 3], [4, 5, 6]]).Transpose = .ok T ∧ T.Transpose = .ok TT ∧
      TT = ofRows 2 3 [[1, 2, 3], [4, 5, 6]] := by
  obtain ⟨T, TT, h1, h2, _, _, _, _, h3⟩ :=
    C13_Transpose_involution (ofRows 2 3 [[1, 2, 3], [4, 5, 6]]) (by decide)
  exact ⟨T, TT, h1, h2, h3⟩

/-- The copy constructor yields a matrix equal, as a value, to its argument. -/
theorem ctorCopy_eq (m : S21Matrix) (hm : Shaped m) : ctorCopy m = m := by
  obtain ⟨_, _, hs⟩ := hm
  have := cellwise_loop (fun s i j => rawSet s i j (rawGet m.matrix_ i j))
    (fun i j _ => rawGet m.matrix_ i j) _ _ (AllocateMatrix m.rows_ m.cols_)
    (AllocateMatrix_shape _ _)
    (fun t i j ht hi hj => rawSet_body (fun i j _ => rawGet m.matrix_ i j) _ _ t i j ht hi hj)
  have e := StoreShape.ext this.1 hs this.2
  cases m
  simp only [ctorCopy] at e ⊢
  rw [e]

/-- C14 (amended): with cells read as exact numbers, for matrices `A`, `B`, `C`
of identical extents, `(A + B) + C` and `A + (B + C)` computed with `operator+`
both succeed and are `EqMatrix`-equal, every pair of corresponding cells
differing by at most `1e-7`.  (With binary64 cells the two sums can differ by more
than `1e-7`.) -/
theorem C14_add_assoc (A B C : S21Matrix) (hA : Shaped A) (hB : Shaped B) (hC : Shaped C)
    (hr1 : A.rows_ = B.rows_) (hc1 : A.cols_ = B.cols_)
    (hr2 : B.rows_ = C.rows_) (hc2 : B.cols_ = C.cols_) :
    ∃ AB L BC R, opAdd A B = .ok AB ∧ opAdd AB C = .ok L ∧
      opAdd B C = .ok BC ∧ opAdd A BC = .ok R ∧
      L.EqMatrix R = true ∧
      ∀ i j, i < A.rows_.toNat → j < A.cols_.toNat →
        |rawGet L.matrix_ i j - rawGet R.matrix_ i j| ≤ 1 / 10 ^ 7 := by
  have _ := hC
  obtain ⟨AB, a1, a2, a3, a4, a5⟩ := SumMatrix_ok A B hA hr1 hc1
  obtain ⟨L, l1, l2, l3, l4, l5⟩ := SumMatrix_ok AB C a4 (by rw [a2, hr1, hr2])
    (by rw [a3, hc1, hc2])
  obtain ⟨BC, b1, b2, b3, b4, b5⟩ := SumMatrix_ok B C hB hr2 hc2
  obtain ⟨R, r1, r2, r3, r4, r5⟩ := SumMatrix_ok A BC hA (by rw [b2, hr1]) (by rw [b3, hc1])
  have cells : ∀ i j, i < A.rows_.toNat → j < A.cols_.toNat →
      |rawGet L.matrix_ i j - rawGet R.matrix_ i j| ≤ 1 / 10 ^ 7 := by
    intro i j hi hj
    rw [l5 i j (by rw [a2]; exact hi) (by rw [a3]; exact hj), a5 i j hi hj, r5 i j hi hj,
      b5 i j (by rw [← hr1]; exact hi) (by rw [← hc1]; exact hj)]
    have : rawGet A.matrix_ i j + rawGet B.matrix_ i j + rawGet C.matrix_ i j
        - (rawGet A.matrix_ i j + (rawGet B.matrix_ i j + rawGet C.matrix_ i j)) = 0 := by ring
    rw [this, abs_zero]
    norm_num
  refine ⟨AB, L, BC, R, ?_, ?_, ?_, ?_, ?_, cells⟩
  · rw [opAdd, ctorCopy_eq A hA]; exact a1
  · rw [opAdd, ctorCopy_eq AB a4]; exact l1
  · rw [opAdd, ctorCopy_eq B hB]; exact b1
  · rw [opAdd, ctorCopy_eq A hA]; exact r1
  · rw [EqMatrix_iff]
    refine ⟨by rw [l2, a2, r2], by rw [l3, a3, r3], ?_⟩
    intro i j hi hj
    exact cells i j (by rw [← a2, ← l2]; exact hi) (by rw [← a3, ← l3]; exact hj)

theorem C14_add_assoc_witness :
    ∃ AB L BC R,
      opAdd (ofRows 1 2 [[1, 2]]) (ofRows 1 2 [[1 / 3, 4]]) = .ok AB ∧
      opAdd AB (ofRows 1 2 [[5, 1 / 7]]) = .ok L ∧
      opAdd (ofRows 1 2 [[1 / 3, 4]]) (ofRows 1 2 [[5, 1 / 7]]) = .ok BC ∧
      opAdd (ofRows 1 2 [[1, 2]]) BC = .ok R ∧
      L.EqMatrix R = true := by
  obtain ⟨AB, L, BC, R, h1, h2, h3, h4, h5, _⟩ :=
    C14_add_assoc (ofRows 1 2 [[1, 2]]) (ofRows 1 2 [[1 / 3, 4]]) (ofRows 1 2 [[5, 1 / 7]])
      (by decide) (by decide) (by decide) (by decide) (by decide) (by decide) (by decide)
  exact ⟨AB, L, BC, R, h1, h2, h3, h4, h5⟩

/-- A doubly nested loop over the region `r × c` of an `R × C` store whose body
rewrites the cell `(i, j)` to `g i j` of its old value, and nothing else, rewrites
every cell of the region once and leaves the cells outside the region alone. -/
theorem region_loop (body : List (List ℚ) → Nat → Nat → List (List ℚ))
    (g : Nat → Nat → ℚ → ℚ) (r c R C : Nat) (hr : r ≤ R) (hc : c ≤ C) (s : List (List ℚ))
    (h : StoreShape s R C)
    (hbody : ∀ t i j, StoreShape t R C → i < r → j < c →
      StoreShape (body t i j) R C ∧ ∀ i2 j2, i2 < R → j2 < C →
        rawGet (body t i j) i2 j2
          = if i2 = i ∧ j2 = j then g i j (rawGet t i j) else rawGet t i2 j2) :
    StoreShape ((List.range r).foldl (fun s i =>
        (List.range c).foldl (fun s j => body s i j) s) s) R C ∧
    ∀ i j, i < R → j < C →
      rawGet ((List.range r).foldl (fun s i =>
        (List.range c).foldl (fun s j => body s i j) s) s) i j
        = if i < r ∧ j < c then g i j (rawGet s i j) else rawGet s i j := by
  have := nested_foldl_inv body
    (fun i j u => StoreShape u R C ∧ ∀ i2 j2, i2 < R → j2 < C →
      rawGet u i2 j2 = if visited i j i2 j2 ∧ j2 < c then g i2 j2 (rawGet s i2 j2)
        else rawGet s i2 j2)
    r c s ⟨h, by intro i2 j2 _ _; simp [visited_zero]⟩
    (by
      intro i j u hi hj ⟨hu, hcell⟩
      obtain ⟨h1, h2⟩ := hbody u i j hu hi hj
      refine ⟨h1, ?_⟩
      intro i2 j2 hi2 hj2
      rw [h2 i2 j2 hi2 hj2, hcell i2 j2 hi2 hj2, hcell i j (by omega) (by omega)]
      have hnv : ¬ visited i j i j := by unfold visited; omega
      by_cases e : i2 = i ∧ j2 = j
      · obtain ⟨e1, e2⟩ := e
        subst e1 e2
        simp [visited_step, hnv, hj]
      · simp [visited_step, e])
    (by
      intro i u hi ⟨hu, hcell⟩
      refine ⟨hu, ?_⟩
      intro i2 j2 hi2 hj2
      rw [hcell i2 j2 hi2 hj2]
      have : (visited (i + 1) 0 i2 j2 ∧ j2 < c) ↔ (visited i c i2 j2 ∧ j2 < c) := by
        unfold visited; omega
      by_cases e : visited i c i2 j2 ∧ j2 < c
      · rw [if_pos e, if_pos (this.2 e)]
      · rw [if_neg e, if_neg (fun x => e (this.1 x))])
  refine ⟨this.1, ?_⟩
  intro i j hi hj
  rw [this.2 i j hi hj]
  have : (visited r 0 i j ∧ j < c) ↔ (i < r ∧ j < c) := by unfold visited; omega
  by_cases e : i < r ∧ j < c
  · rw [if_pos e, if_pos (this.2 e)]
  · rw [if_neg e, if_neg (fun x => e (this.1 x))]

theorem rawSet_body_region (g : Nat → Nat → ℚ → ℚ) (r c R C : Nat) (hr : r ≤ R) (hc : c ≤ C)
    (t : List (List ℚ)) (i j : Nat) (ht : StoreShape t R C) (hi : i < r) (hj : j < c) :
    StoreShape (rawSet t i j (g i j (rawGet t i j))) R C ∧ ∀ i2 j2, i2 < R → j2 < C →
      rawGet (rawSet t i j (g i j (rawGet t i j))) i2 j2
        = if i2 = i ∧ j2 = j then g i j (rawGet t i j) else rawGet t i2 j2 :=
  ⟨rawSet_shape ht _ _ _,
    fun i2 j2 _ _ => rawGet_rawSet ht (by omega) (by omega) _ i2 j2⟩

theorem set_rows_ok (A : S21Matrix) (hA : WellFormed A) (n : Int) (hn : 1 ≤ n) :
    ∃ A2, A.set_rows n = .ok A2 ∧ A2.rows_ = n ∧ A2.cols_ = A.cols_ ∧ WellFormed A2 ∧
      (∀ i j, i < n.toNat → j < A.cols_.toNat →
        rawGet A2.matrix_ i j = if i < A.rows_.toNat then rawGet A.matrix_ i j else 0) ∧
      (n = A.rows_ → A2 = A) := by
  obtain ⟨a1, a2, a3⟩ := hA
  by_cases e : n = A.rows_
  · refine ⟨A, by rw [set_rows, if_neg (by omega), if_pos e], e.symm, rfl, ⟨a1, a2, a3⟩, ?_,
      fun _ => rfl⟩
    intro i j hi _
    rw [if_pos (by rw [← e]; exact hi)]
  · have := region_loop (fun s i j => rawSet s i j (rawGet A.matrix_ i j))
      (fun i j _ => rawGet A.matrix_ i j) (min A.rows_ n).toNat A.cols_.toNat n.toNat
      A.cols_.toNat (by omega) (le_refl _) (AllocateMatrix n A.cols_) (AllocateMatrix_shape _ _)
      (fun t i j ht hi hj => rawSet_body_region (fun i j _ => rawGet A.matrix_ i j) _ _ _ _
        (by omega) (le_refl _) t i j ht hi hj)
    refine ⟨⟨n, A.cols_, _⟩, ?_, rfl, rfl, ⟨hn, a2, this.1⟩, ?_, fun h => absurd h e⟩
    · rw [set_rows, if_neg (by omega), if_neg e, ctor_ok _ _ hn a2]
      rfl
    · intro i j hi hj
      have h2 := this.2 i j hi hj
      simp only [] at h2 ⊢
      rw [h2, rawGet_AllocateMatrix]
      by_cases e2 : i < A.rows_.toNat
      · rw [if_pos e2, if_pos ⟨by omega, hj⟩]
      · rw [if_neg e2, if_neg (by omega)]

theorem set_cols_ok (A : S21Matrix) (hA : WellFormed A) (n : Int) (hn : 1 ≤ n) :
    ∃ A2, A.set_cols n = .ok A2 ∧ A2.rows_ = A.rows_ ∧ A2.cols_ = n ∧ WellFormed A2 ∧
      (∀ i j, i < A.rows_.toNat → j < n.toNat →
        rawGet A2.matrix_ i j = if j < A.cols_.toNat then rawGet A.matrix_ i j else 0) ∧
      (n = A.cols_ → A2 = A) := by
  obtain ⟨a1, a2, a3⟩ := hA
  by_cases e : n = A.cols_
  · refine ⟨A, by rw [set_cols, if_neg (by omega), if_pos e], rfl, e.symm, ⟨a1, a2, a3⟩, ?_,
      fun _ => rfl⟩
    intro i j _ hj
    rw [if_pos (by rw [← e]; exact hj)]
  · have := region_loop (fun s i j => rawSet s i j (rawGet A.matrix_ i j))
      (fun i j _ => rawGet A.matrix_ i j) A.rows_.toNat (min A.cols_ n).toNat A.rows_.toNat
      n.toNat (le_refl _) (by omega) (AllocateMatrix A.rows_ n) (AllocateMatrix_shape _ _)
      (fun t i j ht hi hj => rawSet_body_region (fun i j _ => rawGet A.matrix_ i j) _ _ _ _
        (le_refl _) (by omega) t i j ht hi hj)
    refine ⟨⟨A.rows_, n, _⟩, ?_, rfl, rfl, ⟨a1, hn, this.1⟩, ?_, fun h => absurd h e⟩
    · rw [set_cols, if_neg (by omega), if_neg e, ctor_ok _ _ a1 hn]
      rfl
    · intro i j hi hj
      have h2 := this.2 i j hi hj
      simp only [] at h2 ⊢
      rw [h2, rawGet_AllocateMatrix]
      by_cases e2 : j < A.cols_.toNat
      · rw [if_pos e2, if_pos ⟨hi, by omega⟩]
      · rw [if_neg e2, if_neg (by omega)]


/-- C15: for a matrix `A` (`r × c`, `r, c ≥ 1`) and every `n`, `set_rows(n)` fails,
with `InvalidDimension`, exactly when `n < 1`; otherwise `A` becomes `n × c` with
cell `(i, j)` equal to the old `A(i, j)` for `i < min(r, n)` and `0` for every new
row `i ≥ r`, and is the same matrix when `n = r`.  Symmetrically `set_cols(n)`
yields `r × n` with cell `(i, j)` equal to the old `A(i, j)` for `j < min(c, n)`
and `0` for `j ≥ c`. -/
theorem C15_set_rows_set_cols (A : S21Matrix) (n : Int) (hA : WellFormed A) :
    (A.set_rows n = .error .InvalidDimension ↔ n < 1) ∧
    ((∃ e, A.set_rows n = .error e) ↔ n < 1) ∧
    (A.set_cols n = .error .InvalidDimension ↔ n < 1) ∧
    ((∃ e, A.set_cols n = .error e) ↔ n < 1) ∧
    (1 ≤ n →
      ∃ R, A.set_rows n = .ok R ∧ R.rows_ = n ∧ R.cols_ = A.cols_ ∧ WellFormed R ∧
        (∀ i j, i < n.toNat → j < A.cols_.toNat →
          (i < min A.rows_.toNat n.toNat → rawGet R.matrix_ i j = rawGet A.matrix_ i j) ∧
          (A.rows_.toNat ≤ i → rawGet R.matrix_ i j = 0)) ∧
        (n = A.rows_ → R = A)) ∧
    (1 ≤ n →
      ∃ S, A.set_cols n = .ok S ∧ S.rows_ = A.rows_ ∧ S.cols_ = n ∧ WellFormed S ∧
        (∀ i j, i < A.rows_.toNat → j < n.toNat →
          (j < min A.cols_.toNat n.toNat → rawGet S.matrix_ i j = rawGet A.matrix_ i j) ∧
          (A.cols_.toNat ≤ j → rawGet S.matrix_ i j = 0)) ∧
        (n = A.cols_ → S = A)) := by
  have bad1 : n < 1 → A.set_rows n = .error .InvalidDimension := by
    intro h; rw [set_rows, if_pos h]
  have bad2 : n < 1 → A.set_cols n = .error .InvalidDimension := by
    intro h; rw [set_cols, if_pos h]
  have good1 : 1 ≤ n →
      ∃ R, A.set_rows n = .ok R ∧ R.rows_ = n ∧ R.cols_ = A.cols_ ∧ WellFormed R ∧
        (∀ i j, i < n.toNat → j < A.cols_.toNat →
          (i < min A.rows_.toNat n.toNat → rawGet R.matrix_ i j = rawGet A.matrix_ i j) ∧
          (A.rows_.toNat ≤ i → rawGet R.matrix_ i j = 0)) ∧
        (n = A.rows_ → R = A) := by
    intro hn
    obtain ⟨R, r1, r2, r3, r4, r5, r6⟩ := set_rows_ok A hA n hn
    refine ⟨R, r1, r2, r3, r4, ?_, r6⟩
    intro i j hi hj
    rw [r5 i j hi hj]
    exact ⟨fun h => by rw [if_pos (by omega)], fun h => by rw [if_neg (by omega)]⟩
  have good2 : 1 ≤ n →
      ∃ S, A.set_cols n = .ok S ∧ S.rows_ = A.rows_ ∧ S.cols_ = n ∧ WellFormed S ∧
        (∀ i j, i < A.rows_.toNat → j < n.toNat →
          (j < min A.cols_.toNat n.toNat → rawGet S.matrix_ i j = rawGet A.matrix_ i j) ∧
          (A.cols_.toNat ≤ j → rawGet S.matrix_ i j = 0)) ∧
        (n = A.cols_ → S = A) := by
    intro hn
    obtain ⟨S, r1, r2, r3, r4, r5, r6⟩ := set_cols_ok A hA n hn
    refine ⟨S, r1, r2, r3, r4, ?_, r6⟩
    intro i j hi hj
    rw [r5 i j hi hj]
    exact ⟨fun h => by rw [if_pos (by omega)], fun h => by rw [if_neg (by omega)]⟩
  refine ⟨⟨fun h => ?_, bad1⟩, ⟨fun h => ?_, fun h => ⟨_, bad1 h⟩⟩,
    ⟨fun h => ?_, bad2⟩, ⟨fun h => ?_, fun h => ⟨_, bad2 h⟩⟩, good1, good2⟩
  · by_contra hn
    obtain ⟨R, r1, _⟩ := good1 (by omega)
    rw [r1] at h; cases h
  · by_contra hn
    obtain ⟨R, r1, _⟩ := good1 (by omega)
    obtain ⟨e, he⟩ := h
    rw [r1] at he; cases he
  · by_contra hn
    obtain ⟨R, r1, _⟩ := good2 (by omega)
    rw [r1] at h; cases h
  · by_contra hn
    obtain ⟨R, r1, _⟩ := good2 (by omega)
    obtain ⟨e, he⟩ := h
    rw [r1] at he; cases he

theorem C15_set_rows_set_cols_witness :
    WellFormed (ofRows 2 2 [[0, 0], [0, 99]]) ∧
    (∃ R, (ofRows 2 2 [[0, 0], [0, 99]]).set_rows 4 = .ok R ∧ R.rows_ = 4 ∧ R.cols_ = 2 ∧
      WellFormed R) ∧
    (∃ S, (ofRows 2 2 [[0, 0], [0, 99]]).set_cols 4 = .ok S ∧ S.rows_ = 2 ∧ S.cols_ = 4 ∧
      WellFormed S) := by
  have h := C15_set_rows_set_cols (ofRows 2 2 [[0, 0], [0, 99]]) 4 (by decide)
  obtain ⟨R, r1, r2, r3, r4, _⟩ := h.2.2.2.2.1 (by decide)
  obtain ⟨S, s1, s2, s3, s4, _⟩ := h.2.2.2.2.2 (by decide)
  exact ⟨by decide, ⟨R, r1, r2, r3, r4⟩, ⟨S, s1, s2, s3, s4⟩⟩

/-! ## The heap -/

theorem heapStore_set_self (h : Heap) (a : Nat) (s : List (List ℚ)) (ha : a < h.length) :
    heapStore (h.set a (some s)) (some a) = s := by
  simp [heapStore, List.getD_eq_getElem?_getD, List.getElem?_set_self ha]

theorem heapStore_set_other (h : Heap) (a : Nat) (x : Option (List (List ℚ)))
    (q : Option Nat) (hq : q ≠ some a) : heapStore (h.set a x) q = heapStore h q := by
  cases q with
  | none => rfl
  | some b =>
    have hne : a ≠ b := fun e => hq (by rw [e])
    simp [heapStore, List.getD_eq_getElem?_getD, List.getElem?_set_ne hne]

theorem heapStore_append (h : Heap) (x : Option (List (List ℚ))) (q : Option Nat)
    (hq : PtrOk h q) : heapStore (h ++ [x]) q = heapStore h q := by
  cases q with
  | none => rfl
  | some b =>
    have hb : b < h.length := hq b rfl
    simp [heapStore, List.getD_eq_getElem?_getD, List.getElem?_append_left hb]

theorem heapStore_append_new (h : Heap) (s : List (List ℚ)) :
    heapStore (h ++ [some s]) (some h.length) = s := by
  simp [heapStore, List.getD_eq_getElem?_getD]

theorem heapWrite_set_self (h : Heap) (a : Nat) (s : List (List ℚ)) (ha : a < h.length)
    (i j : Nat) (v : ℚ) :
    heapWrite (h.set a (some s)) (some a) i j v = h.set a (some (rawSet s i j v)) := by
  simp [heapWrite, List.getD_eq_getElem?_getD, List.getElem?_set_self ha, List.set_set]

theorem heapWrite_other (h : Heap) (p q : Option Nat) (i j : Nat) (v : ℚ) (hq : q ≠ p) :
    heapStore (heapWrite h p i j v) q = heapStore h q := by
  cases p with
  | none => rfl
  | some a =>
    simp only [heapWrite]
    split
    · rfl
    · exact heapStore_set_other h a _ q hq

theorem heapDelete_other (h : Heap) (p q : Option Nat) (hq : q ≠ p ∨ q = none) :
    heapStore (heapDelete h p) q = heapStore h q := by
  cases p with
  | none => rfl
  | some a =>
    cases q with
    | none => rfl
    | some b =>
      have : (some b : Option Nat) ≠ some a := by
        rcases hq with hq | hq
        · exact hq
        · cases hq
      exact heapStore_set_other h a none (some b) this

theorem append_eq_set (h : Heap) (s t : List (List ℚ)) :
    h ++ [some t] = (h ++ [some s]).set h.length (some t) := by
  rw [List.set_append_right _ _ (le_refl _)]
  simp

/-- The copy loop into the store at address `a`, from a store at another
address, is the loop on the store itself. -/
theorem copyCells_set (h : Heap) (a : Nat) (ha : a < h.length) (s : List (List ℚ))
    (src : Option Nat) (hsrc : src ≠ some a) (rows cols : Int) :
    copyCells (h.set a (some s)) (some a) src rows cols
      = h.set a (some ((List.range rows.toNat).foldl (fun s i =>
          (List.range cols.toNat).foldl (fun s j =>
            rawSet s i j (rawGet (heapStore h src) i j)) s) s)) := by
  unfold copyCells
  apply List.foldl_hom (fun s => h.set a (some s))
  intro s1 i
  apply List.foldl_hom (fun s => h.set a (some s))
  intro s2 j
  rw [heapWrite_set_self h a s2 ha, heapRead, heapStore_set_other h a _ src hsrc]

/-- The copy loop into a freshly allocated store. -/
theorem copyCells_fresh (h : Heap) (s : List (List ℚ)) (src : Option Nat) (hsrc : PtrOk h src)
    (rows cols : Int) :
    copyCells (h ++ [some s]) (some h.length) src rows cols
      = h ++ [some ((List.range rows.toNat).foldl (fun s i =>
          (List.range cols.toNat).foldl (fun s j =>
            rawSet s i j (rawGet (heapStore h src) i j)) s) s)] := by
  have hne : src ≠ some h.length := by
    intro e
    have := hsrc _ e
    omega
  have e1 : h ++ [some s] = (h ++ [some s]).set h.length (some s) := append_eq_set h s s
  rw [e1, copyCells_set (h ++ [some s]) h.length (by simp) s src hne, ← append_eq_set,
    heapStore_append h _ src hsrc]

/-! ## Objects in memory -/

theorem Mem.obj_append_old (objs : List Obj) (o : Obj) (h : Heap) (id : Nat)
    (hid : id < objs.length) : (Mem.mk (objs ++ [o]) h).obj id = (Mem.mk objs h).obj id := by
  simp [Mem.obj, List.getD_eq_getElem?_getD, List.getElem?_append_left hid]

theorem Mem.obj_append_new (objs : List Obj) (o : Obj) (h : Heap) :
    (Mem.mk (objs ++ [o]) h).obj objs.length = o := by
  simp [Mem.obj, List.getD_eq_getElem?_getD]

theorem Mem.obj_set_self (objs : List Obj) (o : Obj) (h : Heap) (id : Nat)
    (hid : id < objs.length) : (Mem.mk (objs.set id o) h).obj id = o := by
  simp [Mem.obj, List.getD_eq_getElem?_getD, List.getElem?_set_self hid]

theorem Mem.obj_set_other (objs : List Obj) (o : Obj) (h : Heap) (id id2 : Nat)
    (hne : id ≠ id2) : (Mem.mk (objs.set id o) h).obj id2 = (Mem.mk objs h).obj id2 := by
  simp [Mem.obj, List.getD_eq_getElem?_getD, List.getElem?_set_ne hne]

theorem Mem.obj_heap (objs : List Obj) (h h2 : Heap) (id : Nat) :
    (Mem.mk objs h).obj id = (Mem.mk objs h2).obj id := rfl

theorem heapWrite_self (h : Heap) (a : Nat) (s : List (List ℚ)) (ha : a < h.length)
    (hs : h.getD a none = some s) (i j : Nat) (v : ℚ) :
    heapStore (heapWrite h (some a) i j v) (some a) = rawSet s i j v := by
  simp only [heapWrite, hs]
  exact heapStore_set_self h a _ ha

/-- A write through the mutable accessor of one object leaves the value of an
object with another store as it was. -/
theorem Mem.opCallSet_other (w : Mem) (b a : Nat) (row col : Int) (v : ℚ)
    (hne : (w.obj a).matrix_ ≠ (w.obj b).matrix_) :
    (w.opCallSet b row col v).1.view a = w.view a := by
  unfold Mem.opCallSet
  split
  · rfl
  · simp only [Mem.view]
    rw [show (Mem.mk w.objs (heapWrite w.heap (w.obj b).matrix_ row.toNat col.toNat v)).obj a
      = w.obj a from rfl, heapWrite_other _ _ _ _ _ _ hne]

/-- The store the copy constructor fills is, cell for cell, the store of the
source. -/
theorem copied_store (m : S21Matrix) (hm : Shaped m) :
    (List.range m.rows_.toNat).foldl (fun s i =>
      (List.range m.cols_.toNat).foldl (fun s j =>
        rawSet s i j (rawGet m.matrix_ i j)) s) (S21Matrix.AllocateMatrix m.rows_ m.cols_)
      = m.matrix_ := by
  have := ctorCopy_eq m hm
  rw [S21Matrix.ctorCopy] at this
  exact congrArg S21Matrix.matrix_ this

/-- Copy construction from a live object with positive extents. -/
theorem Mem.ctorCopy_spec (w : Mem) (a : Nat) (ha : w.Live a) (hwf : WellFormed (w.view a)) :
    (w.ctorCopy a).view w.objs.length = w.view a ∧
    (w.ctorCopy a).view a = w.view a ∧
    (w.ctorCopy a).obj a = w.obj a ∧
    (w.ctorCopy a).obj w.objs.length = ⟨(w.obj a).rows_, (w.obj a).cols_, some w.heap.length⟩ ∧
    (w.ctorCopy a).heap = w.heap ++ [some (heapStore w.heap (w.obj a).matrix_)] := by
  obtain ⟨ha1, pa, s, hp, hpa, hs⟩ := ha
  have hok : PtrOk w.heap (w.obj a).matrix_ := by
    intro x hx
    rw [hp] at hx
    cases hx
    exact hpa
  have hshaped : Shaped (w.view a) := ⟨by have := hwf.1; omega, by have := hwf.2.1; omega, hwf.2.2⟩
  have hheap : (w.ctorCopy a).heap = w.heap ++ [some (heapStore w.heap (w.obj a).matrix_)] := by
    simp only [Mem.ctorCopy, Obj.ctorCopy, Obj.AllocateMatrix]
    rw [copyCells_fresh w.heap _ _ hok]
    have := copied_store (w.view a) hshaped
    simp only [Mem.view] at this
    rw [this]
  have hobjs : (w.ctorCopy a).objs
      = w.objs ++ [⟨(w.obj a).rows_, (w.obj a).cols_, some w.heap.length⟩] := rfl
  have hb : (w.ctorCopy a).obj w.objs.length
      = ⟨(w.obj a).rows_, (w.obj a).cols_, some w.heap.length⟩ := by
    rw [show w.ctorCopy a = Mem.mk (w.ctorCopy a).objs (w.ctorCopy a).heap from rfl, hobjs]
    exact Mem.obj_append_new _ _ _
  have hao : (w.ctorCopy a).obj a = w.obj a := by
    rw [show w.ctorCopy a = Mem.mk (w.ctorCopy a).objs (w.ctorCopy a).heap from rfl, hobjs]
    exact Mem.obj_append_old _ _ _ _ ha1
  refine ⟨?_, ?_, hao, hb, hheap⟩
  · simp only [Mem.view, hb, hheap]
    rw [heapStore_append_new]
  · simp only [Mem.view, hao, hheap]
    rw [heapStore_append _ _ _ hok]

theorem Obj.ctor_succeeds (h : Heap) (rows cols : Int) (hr : 1 ≤ rows) (hc : 1 ≤ cols) :
    Obj.ctor h rows cols
      = .ok (h ++ [some (S21Matrix.AllocateMatrix rows cols)], ⟨rows, cols, some h.length⟩) := by
  rw [Obj.ctor, if_neg (by omega)]
  rfl

/-- Copy assignment from a live object with positive extents into another
object. -/
theorem Mem.opAssignCopy_spec (w : Mem) (d a : Nat) (ha : w.Live a)
    (hwf : WellFormed (w.view a)) (hd : d < w.objs.length) (hda : d ≠ a)
    (hdp : PtrOk w.heap (w.obj d).matrix_) (hns : w.NoShare d a) :
    ∃ w1, w.opAssignCopy d a = (w1, none) ∧
      w1.view d = w.view a ∧ w1.view a = w.view a ∧ w1.obj a = w.obj a ∧
      (w1.obj a).matrix_ ≠ (w1.obj d).matrix_ ∧ w1.Live d := by
  obtain ⟨ha1, pa, s, hp, hpa, hs⟩ := ha
  have hok : PtrOk w.heap (w.obj a).matrix_ := by
    intro x hx
    rw [hp] at hx
    cases hx
    exact hpa
  have hshaped : Shaped (w.view a) := ⟨by have := hwf.1; omega, by have := hwf.2.1; omega, hwf.2.2⟩
  have hr : 1 ≤ (w.obj a).rows_ := hwf.1
  have hc : 1 ≤ (w.obj a).cols_ := hwf.2.1
  have hcopy := copied_store (w.view a) hshaped
  simp only [Mem.view] at hcopy
  have hnew : (some w.heap.length : Option Nat) ≠ (w.obj d).matrix_ := by
    intro e
    have := hdp _ e.symm
    omega
  have hpd : (w.obj a).matrix_ ≠ (w.obj d).matrix_ := by
    intro e
    rw [hp] at e
    exact hns pa e.symm hp
  refine ⟨⟨w.objs.set d ⟨(w.obj a).rows_, (w.obj a).cols_, some w.heap.length⟩,
    heapDelete (w.heap ++ [some (heapStore w.heap (w.obj a).matrix_)]) (w.obj d).matrix_⟩,
    ?_, ?_, ?_, ?_, ?_, ?_⟩
  · rw [Mem.opAssignCopy, if_neg hda, Obj.ctor_succeeds _ _ _ hr hc]
    simp only [Obj.moveFrom, Obj.dtor]
    rw [copyCells_fresh w.heap _ _ hok, hcopy]
    rfl
  · simp only [Mem.view]
    rw [Mem.obj_set_self _ _ _ _ hd]
    simp only []
    rw [heapDelete_other _ _ _ (Or.inl hnew), heapStore_append_new]
  · simp only [Mem.view]
    rw [Mem.obj_set_other _ _ _ _ _ hda]
    rw [show (Mem.mk w.objs (heapDelete (w.heap ++ [some (heapStore w.heap (w.obj a).matrix_)])
      (w.obj d).matrix_)).obj a = w.obj a from rfl,
      heapDelete_other _ _ _ (Or.inl hpd), heapStore_append _ _ _ hok]
  · rw [Mem.obj_set_other _ _ _ _ _ hda]
    rfl
  · rw [Mem.obj_set_other _ _ _ _ _ hda, Mem.obj_set_self _ _ _ _ hd]
    simp only []
    rw [show (Mem.mk w.objs (heapDelete (w.heap ++ [some (heapStore w.heap (w.obj a).matrix_)])
      (w.obj d).matrix_)).obj a = w.obj a from rfl, hp]
    intro e
    cases e
    omega
  · refine ⟨by simpa using hd, w.heap.length, heapStore w.heap (w.obj a).matrix_, ?_, ?_, ?_⟩
    · rw [Mem.obj_set_self _ _ _ _ hd]
    · cases hq : (w.obj d).matrix_ <;> simp [heapDelete]
    · cases hq : (w.obj d).matrix_ with
      | none => simp [heapDelete, List.getD_eq_getElem?_getD]
      | some x =>
        have hx : x < w.heap.length := hdp x hq
        have hne : x ≠ w.heap.length := by omega
        simp [heapDelete, List.getD_eq_getElem?_getD, List.getElem?_set_ne hne]

/-- A write through the mutable accessor of a live object is the write on the
matrix it stands for. -/
theorem Mem.opCallSet_self (w : Mem) (b : Nat) (hb : w.Live b) (row col : Int) (v : ℚ)
    (A2 : S21Matrix) (h : (w.view b).opCallSet row col v = .ok A2) :
    (w.opCallSet b row col v).2 = none ∧ (w.opCallSet b row col v).1.view b = A2 := by
  obtain ⟨_, p, s, hp, hpl, hs⟩ := hb
  unfold S21Matrix.opCallSet at h
  unfold Mem.opCallSet
  simp only [Mem.view] at h
  split at h
  · cases h
  · rename_i hc
    rw [if_neg hc]
    refine ⟨rfl, ?_⟩
    cases h
    simp only [Mem.view]
    rw [show (Mem.mk w.objs (heapWrite w.heap (w.obj b).matrix_ row.toNat col.toNat v)).obj b
      = w.obj b from rfl, hp, heapWrite_self w.heap p s hpl hs]
    simp only [heapStore, hs, Option.getD_some]

theorem Mem.ctorCopy_live (w : Mem) (a : Nat) (ha : w.Live a) (hwf : WellFormed (w.view a)) :
    (w.ctorCopy a).Live w.objs.length := by
  obtain ⟨_, _, _, hb, hheap⟩ := Mem.ctorCopy_spec w a ha hwf
  refine ⟨by simp [Mem.ctorCopy], w.heap.length, heapStore w.heap (w.obj a).matrix_, ?_, ?_, ?_⟩
  · rw [hb]
  · rw [hheap]; simp
  · rw [hheap]; simp [List.getD_eq_getElem?_getD]

/-- C18: for an object `a` holding a matrix with positive extents, copy
construction (new object `w.objs.length`) and copy assignment (into another
object `d`) produce a matrix with the same extents and the same cells, and leave
`a` as it was; a later write to any cell of the copy leaves `a` as it was (and does
change the copy); copy-assigning an object to itself leaves the memory as it
was. -/
theorem C18_copy (w : Mem) (a d : Nat) (ha : w.Live a) (hwf : WellFormed (w.view a))
    (hd : d < w.objs.length) (hda : d ≠ a) (hdp : PtrOk w.heap (w.obj d).matrix_)
    (hns : w.NoShare d a) :
    ((w.ctorCopy a).view w.objs.length = w.view a ∧
      (w.ctorCopy a).view a = w.view a ∧ (w.ctorCopy a).obj a = w.obj a ∧
      ∀ row col v,
        ((w.ctorCopy a).opCallSet w.objs.length row col v).1.view a = w.view a ∧
        ∀ A2, (w.view a).opCallSet row col v = .ok A2 →
          ((w.ctorCopy a).opCallSet w.objs.length row col v).1.view w.objs.length = A2) ∧
    (∃ w1, w.opAssignCopy d a = (w1, none) ∧
      w1.view d = w.view a ∧ w1.view a = w.view a ∧ w1.obj a = w.obj a ∧
      ∀ row col v,
        (w1.opCallSet d row col v).1.view a = w.view a ∧
        ∀ A2, (w.view a).opCallSet row col v = .ok A2 →
          (w1.opCallSet d row col v).1.view d = A2) ∧
    w.opAssignCopy a a = (w, none) := by
  obtain ⟨c1, c2, c3, c4, _⟩ := Mem.ctorCopy_spec w a ha hwf
  have clive := Mem.ctorCopy_live w a ha hwf
  obtain ⟨w1, e1, e2, e3, e4, e5, e6⟩ := Mem.opAssignCopy_spec w d a ha hwf hd hda hdp hns
  refine ⟨⟨c1, c2, c3, ?_⟩, ⟨w1, e1, e2, e3, e4, ?_⟩, by rw [Mem.opAssignCopy, if_pos rfl]⟩
  · intro row col v
    constructor
    · rw [Mem.opCallSet_other _ _ _ _ _ _ ?_, c2]
      rw [c3, c4]
      obtain ⟨_, pa, _, hp, hpa, _⟩ := ha
      rw [hp]
      intro e
      cases e
      omega
    · intro A2 h
      rw [← c1] at h
      exact (Mem.opCallSet_self _ _ clive row col v A2 h).2
  · intro row col v
    constructor
    · rw [Mem.opCallSet_other _ _ _ _ _ _ e5, e3]
    · intro A2 h
      rw [← e2] at h
      exact (Mem.opCallSet_self _ _ e6 row col v A2 h).2

/-- Memory of the copy test: object 0 is the `2 × 2` matrix `[[0, 55.5], [-10, 0]]`,
object 1 a `2 × 3` matrix. -/
theorem C18_copy_witness :
    (∃ w1, (Mem.mk [⟨2, 2, some 0⟩, ⟨2, 3, some 1⟩]
        [some [[0, 111 / 2], [-10, 0]], some [[1, 2, 3], [4, 5, 6]]]).opAssignCopy 1 0
          = (w1, none) ∧
      w1.view 1 = ofRows 2 2 [[0, 111 / 2], [-10, 0]] ∧
      (w1.opCallSet 1 0 1 999).1.view 0 = ofRows 2 2 [[0, 111 / 2], [-10, 0]]) := by
  obtain ⟨_, ⟨w1, h1, h2, _, _, h5⟩, _⟩ := C18_copy
    (Mem.mk [⟨2, 2, some 0⟩, ⟨2, 3, some 1⟩]
      [some [[0, 111 / 2], [-10, 0]], some [[1, 2, 3], [4, 5, 6]]]) 0 1
    ⟨by decide, 0, [[0, 111 / 2], [-10, 0]], rfl, by decide, rfl⟩ (by decide) (by decide)
    (by decide) (by intro x h; cases h; decide) (by intro p h1 h2; cases h1; cases h2)
  exact ⟨w1, h1, h2, (h5 0 1 999).1⟩

/-- C19: for every object `a`, move construction from `a` (new object
`w.objs.length`) and move assignment from `a` into another object `d` give the
destination exactly the former extents and cells of `a` and leave `a` in the empty
state with `rows = 0`, `cols = 0` and no store; move-assigning an object to
itself leaves the memory as it was. -/
theorem C19_move (w : Mem) (a d : Nat) (ha : a < w.objs.length) (hd : d < w.objs.length)
    (hda : d ≠ a) (hns : w.NoShare d a) :
    ((w.ctorMove a).view w.objs.length = w.view a ∧
      (w.ctorMove a).obj a = ⟨0, 0, none⟩ ∧ (w.ctorMove a).view a = ⟨0, 0, []⟩) ∧
    ((w.opAssignMove d a).view d = w.view a ∧
      (w.opAssignMove d a).obj a = ⟨0, 0, none⟩ ∧ (w.opAssignMove d a).view a = ⟨0, 0, []⟩) ∧
    w.opAssignMove a a = w := by
  have m1 : (w.ctorMove a).obj w.objs.length = w.obj a := by
    have := Mem.obj_append_new (w.objs.set a ⟨0, 0, none⟩) (w.obj a) w.heap
    rw [List.length_set] at this
    exact this
  have m2 : (w.ctorMove a).obj a = ⟨0, 0, none⟩ := by
    have h1 := Mem.obj_append_old (w.objs.set a ⟨0, 0, none⟩) (w.obj a) w.heap a
      (by rw [List.length_set]; exact ha)
    have h2 := Mem.obj_set_self w.objs ⟨0, 0, none⟩ w.heap a ha
    rw [h2] at h1
    exact h1
  have a1 : (w.opAssignMove d a).obj d = w.obj a := by
    rw [Mem.opAssignMove, if_pos hda]
    simp only [Obj.moveFrom]
    rw [Mem.obj_set_other _ _ _ _ _ (fun e => hda e.symm), Mem.obj_set_self _ _ _ _ hd]
  have a2 : (w.opAssignMove d a).obj a = ⟨0, 0, none⟩ := by
    rw [Mem.opAssignMove, if_pos hda]
    simp only [Obj.moveFrom]
    rw [Mem.obj_set_self _ _ _ _ (by rw [List.length_set]; exact ha)]
  have a3 : (w.opAssignMove d a).heap = heapDelete w.heap (w.obj d).matrix_ := by
    rw [Mem.opAssignMove, if_pos hda]
    rfl
  have hq : (w.obj a).matrix_ ≠ (w.obj d).matrix_ ∨ (w.obj a).matrix_ = none := by
    cases hp : (w.obj a).matrix_ with
    | none => exact Or.inr rfl
    | some p => exact Or.inl (fun e => hns p e.symm hp)
  refine ⟨⟨?_, m2, ?_⟩, ⟨?_, a2, ?_⟩, by rw [Mem.opAssignMove, if_neg (by simp)]⟩
  · simp only [Mem.view, m1]
    rfl
  · simp only [Mem.view, m2]
    rfl
  · simp only [Mem.view, a1, a3]
    rw [heapDelete_other _ _ _ hq]
  · simp only [Mem.view, a2]
    rfl

theorem C19_move_witness :
    (Mem.opAssignMove (Mem.mk [⟨2, 2, some 0⟩, ⟨2, 3, some 1⟩]
        [some [[0, 111 / 2], [-10, 0]], some [[1, 2, 3], [4, 5, 6]]]) 1 0).view 1
      = ofRows 2 2 [[0, 111 / 2], [-10, 0]] ∧
    (Mem.opAssignMove (Mem.mk [⟨2, 2, some 0⟩, ⟨2, 3, some 1⟩]
        [some [[0, 111 / 2], [-10, 0]], some [[1, 2, 3], [4, 5, 6]]]) 1 0).view 0
      = ofRows 0 0 [] :=
  ⟨(C19_move (Mem.mk [⟨2, 2, some 0⟩, ⟨2, 3, some 1⟩]
      [some [[0, 111 / 2], [-10, 0]], some [[1, 2, 3], [4, 5, 6]]]) 0 1 (by decide) (by decide)
      (by decide) (by intro p h1 h2; cases h1; cases h2)).2.1.1,
   (C19_move (Mem.mk [⟨2, 2, some 0⟩, ⟨2, 3, some 1⟩]
      [some [[0, 111 / 2], [-10, 0]], some [[1, 2, 3], [4, 5, 6]]]) 0 1 (by decide) (by decide)
      (by decide) (by intro p h1 h2; cases h1; cases h2)).2.1.2.2⟩

/-! ## What an exception leaves behind -/

theorem Obj.ctor_throws (h : Heap) (rows cols : Int) (hbad : rows < 1 ∨ cols < 1) :
    Obj.ctor h rows cols = .error .InvalidDimension := by
  rw [Obj.ctor, if_pos hbad]

theorem ctor_error (rows cols : Int) (hbad : rows < 1 ∨ cols < 1) :
    S21Matrix.ctor rows cols = .error .InvalidDimension := by
  rw [S21Matrix.ctor, if_pos hbad]

theorem Mem.SumMatrix_throws (w : Mem) (this other : Nat) :
    ((w.SumMatrix this other).2 ≠ none → (w.SumMatrix this other).1 = w) ∧
    ∀ e, (w.SumMatrix this other).2 = some e ↔
      (w.view this).SumMatrix (w.view other) = .error e := by
  unfold Mem.SumMatrix S21Matrix.SumMatrix
  simp only [Mem.view]
  split
  · exact ⟨fun _ => rfl, fun e => by simp [eq_comm]⟩
  · exact ⟨fun h => absurd rfl h, fun e => by simp⟩

theorem Mem.SubMatrix_throws (w : Mem) (this other : Nat) :
    ((w.SubMatrix this other).2 ≠ none → (w.SubMatrix this other).1 = w) ∧
    ∀ e, (w.SubMatrix this other).2 = some e ↔
      (w.view this).SubMatrix (w.view other) = .error e := by
  unfold Mem.SubMatrix S21Matrix.SubMatrix
  simp only [Mem.view]
  split
  · exact ⟨fun _ => rfl, fun e => by simp [eq_comm]⟩
  · exact ⟨fun h => absurd rfl h, fun e => by simp⟩

theorem Mem.MulMatrix_throws (w : Mem) (this other : Nat) :
    ((w.MulMatrix this other).2 ≠ none → (w.MulMatrix this other).1 = w) ∧
    ∀ e, (w.MulMatrix this other).2 = some e ↔
      (w.view this).MulMatrix (w.view other) = .error e := by
  unfold Mem.MulMatrix S21Matrix.MulMatrix
  simp only [Mem.view]
  by_cases h1 : (w.obj this).cols_ ≠ (w.obj other).rows_
  · rw [if_pos h1, if_pos h1]
    exact ⟨fun _ => rfl, fun e => by simp [eq_comm]⟩
  · rw [if_neg h1, if_neg h1]
    by_cases h2 : (w.obj this).rows_ < 1 ∨ (w.obj other).cols_ < 1
    · rw [Obj.ctor_throws _ _ _ h2, ctor_error _ _ h2]
      exact ⟨fun _ => rfl, fun e => by simp [eq_comm]⟩
    · rw [Obj.ctor_succeeds _ _ _ (by omega) (by omega), S21.ctor_ok _ _ (by omega) (by omega)]
      exact ⟨fun h => absurd rfl h, fun e => by simp⟩

theorem Mem.set_rows_throws (w : Mem) (this : Nat) (n : Int) :
    ((w.set_rows this n).2 ≠ none → (w.set_rows this n).1 = w) ∧
    ∀ e, (w.set_rows this n).2 = some e ↔ (w.view this).set_rows n = .error e := by
  unfold Mem.set_rows S21Matrix.set_rows
  simp only [Mem.view]
  by_cases h1 : n < 1
  · rw [if_pos h1, if_pos h1]
    exact ⟨fun _ => rfl, fun e => by simp [eq_comm]⟩
  · rw [if_neg h1, if_neg h1]
    by_cases h2 : n = (w.obj this).rows_
    · rw [if_pos h2, if_pos h2]
      exact ⟨fun h => absurd rfl h, fun e => by simp⟩
    · rw [if_neg h2, if_neg h2]
      by_cases h3 : n < 1 ∨ (w.obj this).cols_ < 1
      · rw [Obj.ctor_throws _ _ _ h3, ctor_error _ _ h3]
        exact ⟨fun _ => rfl, fun e => by simp [eq_comm]⟩
      · rw [Obj.ctor_succeeds _ _ _ (by omega) (by omega), S21.ctor_ok _ _ (by omega) (by omega)]
        exact ⟨fun h => absurd rfl h, fun e => by simp⟩

theorem Mem.set_cols_throws (w : Mem) (this : Nat) (n : Int) :
    ((w.set_cols this n).2 ≠ none → (w.set_cols this n).1 = w) ∧
    ∀ e, (w.set_cols this n).2 = some e ↔ (w.view this).set_cols n = .error e := by
  unfold Mem.set_cols S21Matrix.set_cols
  simp only [Mem.view]
  by_cases h1 : n < 1
  · rw [if_pos h1, if_pos h1]
    exact ⟨fun _ => rfl, fun e => by simp [eq_comm]⟩
  · rw [if_neg h1, if_neg h1]
    by_cases h2 : n = (w.obj this).cols_
    · rw [if_pos h2, if_pos h2]
      exact ⟨fun h => absurd rfl h, fun e => by simp⟩
    · rw [if_neg h2, if_neg h2]
      by_cases h3 : (w.obj this).rows_ < 1 ∨ n < 1
      · rw [Obj.ctor_throws _ _ _ h3, ctor_error _ _ h3]
        exact ⟨fun _ => rfl, fun e => by simp [eq_comm]⟩
      · rw [Obj.ctor_succeeds _ _ _ (by omega) (by omega), S21.ctor_ok _ _ (by omega) (by omega)]
        exact ⟨fun h => absurd rfl h, fun e => by simp⟩


/-- C20: whenever `SumMatrix`, `SubMatrix`, `MulMatrix`, `set_rows` or `set_cols`
throws, the memory is exactly as before the call, so the receiver has the extents
and cells it had (no partial mutation) and the argument is as it was; and the
call on objects throws `e` exactly when the member function fails with `e` on the
matrices the objects stand for. -/
theorem C20_failure_leaves_state (w : Mem) (this other : Nat) (n : Int) :
    (((w.SumMatrix this other).2 ≠ none → (w.SumMatrix this other).1 = w) ∧
      ∀ e, (w.SumMatrix this other).2 = some e ↔
        (w.view this).SumMatrix (w.view other) = .error e) ∧
    (((w.SubMatrix this other).2 ≠ none → (w.SubMatrix this other).1 = w) ∧
      ∀ e, (w.SubMatrix this other).2 = some e ↔
        (w.view this).SubMatrix (w.view other) = .error e) ∧
    (((w.MulMatrix this other).2 ≠ none → (w.MulMatrix this other).1 = w) ∧
      ∀ e, (w.MulMatrix this other).2 = some e ↔
        (w.view this).MulMatrix (w.view other) = .error e) ∧
    (((w.set_rows this n).2 ≠ none → (w.set_rows this n).1 = w) ∧
      ∀ e, (w.set_rows this n).2 = some e ↔ (w.view this).set_rows n = .error e) ∧
    (((w.set_cols this n).2 ≠ none → (w.set_cols this n).1 = w) ∧
      ∀ e, (w.set_cols this n).2 = some e ↔ (w.view this).set_cols n = .error e) :=
  ⟨Mem.SumMatrix_throws w this other, Mem.SubMatrix_throws w this other,
    Mem.MulMatrix_throws w this other, Mem.set_rows_throws w this n,
    Mem.set_cols_throws w this n⟩

theorem C20_failure_leaves_state_witness :
    (Mem.SumMatrix (Mem.mk [⟨2, 3, some 0⟩, ⟨3, 2, some 1⟩]
        [some [[1, 2, 3], [4, 5, 6]], some [[1, 2], [3, 4], [5, 6]]]) 0 1).1
      = Mem.mk [⟨2, 3, some 0⟩, ⟨3, 2, some 1⟩]
        [some [[1, 2, 3], [4, 5, 6]], some [[1, 2], [3, 4], [5, 6]]] ∧
    (Mem.set_rows (Mem.mk [⟨2, 3, some 0⟩, ⟨3, 2, some 1⟩]
        [some [[1, 2, 3], [4, 5, 6]], some [[1, 2], [3, 4], [5, 6]]]) 0 0).1
      = Mem.mk [⟨2, 3, some 0⟩, ⟨3, 2, some 1⟩]
        [some [[1, 2, 3], [4, 5, 6]], some [[1, 2], [3, 4], [5, 6]]] :=
  ⟨(C20_failure_leaves_state (Mem.mk [⟨2, 3, some 0⟩, ⟨3, 2, some 1⟩]
      [some [[1, 2, 3], [4, 5, 6]], some [[1, 2], [3, 4], [5, 6]]]) 0 1 0).1.1 (by decide),
   (C20_failure_leaves_state (Mem.mk [⟨2, 3, some 0⟩, ⟨3, 2, some 1⟩]
      [some [[1, 2, 3], [4, 5, 6]], some [[1, 2], [3, 4], [5, 6]]]) 0 1 0).2.2.2.1.1
      (by decide)⟩

/-! ## The calls on objects compute what the member functions compute -/

theorem ptr_ne_fresh (h : Heap) (p : Option Nat) (hp : PtrOk h p) : p ≠ some h.length := by
  intro e
  have := hp _ e
  omega

theorem fresh_ne_ptr (h : Heap) (p : Option Nat) (hp : PtrOk h p) :
    (some h.length : Option Nat) ≠ p := fun e => ptr_ne_fresh h p hp e.symm

/-- After `*this = std::move(local)` and the destruction of the local, the
receiver stands for the matrix the local held. -/
theorem view_after_move (objs : List Obj) (h : Heap) (this : Nat) (hthis : this < objs.length)
    (p : Option Nat) (hp : PtrOk h p) (rows cols : Int) (s : List (List ℚ)) :
    (Mem.mk (objs.set this ⟨rows, cols, some h.length⟩)
      (heapDelete (heapDelete (h ++ [some s]) p) none)).view this = ⟨rows, cols, s⟩ := by
  simp only [Mem.view]
  rw [Mem.obj_set_self _ _ _ _ hthis]
  simp only []
  rw [show heapDelete (heapDelete (h ++ [some s]) p) none = heapDelete (h ++ [some s]) p from rfl,
    heapDelete_other _ _ _ (Or.inl (fresh_ne_ptr h p hp)), heapStore_append_new]

theorem Mem.set_rows_refines (w : Mem) (this : Nat) (n : Int) (hthis : this < w.objs.length)
    (hp : PtrOk w.heap (w.obj this).matrix_) (R : S21Matrix)
    (h : (w.view this).set_rows n = .ok R) :
    (w.set_rows this n).2 = none ∧ (w.set_rows this n).1.view this = R := by
  unfold S21Matrix.set_rows at h
  unfold Mem.set_rows
  simp only [Mem.view] at h
  by_cases h1 : n < 1
  · rw [if_pos h1] at h; cases h
  · rw [if_neg h1] at h ⊢
    by_cases h2 : n = (w.obj this).rows_
    · rw [if_pos h2] at h ⊢
      cases h
      exact ⟨rfl, rfl⟩
    · rw [if_neg h2] at h ⊢
      by_cases h3 : n < 1 ∨ (w.obj this).cols_ < 1
      · rw [ctor_error _ _ h3] at h; cases h
      · rw [S21.ctor_ok _ _ (by omega) (by omega)] at h
        rw [Obj.ctor_succeeds _ _ _ (by omega) (by omega)]
        cases h
        simp only [Obj.moveFrom, Obj.dtor]
        rw [copyCells_fresh w.heap _ _ hp]
        exact ⟨trivial, view_after_move _ _ _ hthis _ hp _ _ _⟩

theorem Mem.set_cols_refines (w : Mem) (this : Nat) (n : Int) (hthis : this < w.objs.length)
    (hp : PtrOk w.heap (w.obj this).matrix_) (R : S21Matrix)
    (h : (w.view this).set_cols n = .ok R) :
    (w.set_cols this n).2 = none ∧ (w.set_cols this n).1.view this = R := by
  unfold S21Matrix.set_cols at h
  unfold Mem.set_cols
  simp only [Mem.view] at h
  by_cases h1 : n < 1
  · rw [if_pos h1] at h; cases h
  · rw [if_neg h1] at h ⊢
    by_cases h2 : n = (w.obj this).cols_
    · rw [if_pos h2] at h ⊢
      cases h
      exact ⟨rfl, rfl⟩
    · rw [if_neg h2] at h ⊢
      by_cases h3 : (w.obj this).rows_ < 1 ∨ n < 1
      · rw [ctor_error _ _ h3] at h; cases h
      · rw [S21.ctor_ok _ _ (by omega) (by omega)] at h
        rw [Obj.ctor_succeeds _ _ _ (by omega) (by omega)]
        cases h
        simp only [Obj.moveFrom, Obj.dtor]
        rw [copyCells_fresh w.heap _ _ hp]
        exact ⟨trivial, view_after_move _ _ _ hthis _ hp _ _ _⟩

/-- The triple loop of `MulMatrix` into a freshly allocated store. -/
theorem mulLoop_fresh (h : Heap) (s : List (List ℚ)) (pa pb : Option Nat)
    (ha : PtrOk h pa) (hb : PtrOk h pb) (rows ocols cols : Int) :
    (List.range rows.toNat).foldl (fun h2 i =>
      (List.range ocols.toNat).foldl (fun h2 j =>
        (List.range cols.toNat).foldl (fun h2 k =>
          heapWrite h2 (some h.length) i j
            (heapRead h2 (some h.length) i j + heapRead h2 pa i k * heapRead h2 pb k j))
          h2) h2) (h ++ [some s])
      = h ++ [some (S21Matrix.MulMatrix.loop rows ocols cols (heapStore h pa) (heapStore h pb) s)] := by
  have key : ∀ t : List (List ℚ), (h ++ [some t]) = (h ++ [some s]).set h.length (some t) :=
    fun t => append_eq_set h s t
  have hl : h.length < (h ++ [some s]).length := by simp
  rw [key s, key (S21Matrix.MulMatrix.loop rows ocols cols (heapStore h pa) (heapStore h pb) s)]
  unfold S21Matrix.MulMatrix.loop
  apply List.foldl_hom (fun t => (h ++ [some s]).set h.length (some t))
  intro s1 i
  apply List.foldl_hom (fun t => (h ++ [some s]).set h.length (some t))
  intro s2 j
  apply List.foldl_hom (fun t => (h ++ [some s]).set h.length (some t))
  intro s3 k
  rw [heapWrite_set_self _ _ s3 hl]
  simp only [heapRead]
  rw [heapStore_set_self _ _ s3 hl, heapStore_set_other _ _ _ pa (ptr_ne_fresh h pa ha),
    heapStore_set_other _ _ _ pb (ptr_ne_fresh h pb hb), heapStore_append _ _ pa ha,
    heapStore_append _ _ pb hb]

theorem Mem.MulMatrix_refines (w : Mem) (this other : Nat) (hthis : this < w.objs.length)
    (hp : PtrOk w.heap (w.obj this).matrix_) (hq : PtrOk w.heap (w.obj other).matrix_)
    (R : S21Matrix) (h : (w.view this).MulMatrix (w.view other) = .ok R) :
    (w.MulMatrix this other).2 = none ∧ (w.MulMatrix this other).1.view this = R := by
  unfold S21Matrix.MulMatrix at h
  unfold Mem.MulMatrix
  simp only [Mem.view] at h
  by_cases h1 : (w.obj this).cols_ ≠ (w.obj other).rows_
  · rw [if_pos h1] at h; cases h
  · rw [if_neg h1] at h ⊢
    by_cases h3 : (w.obj this).rows_ < 1 ∨ (w.obj other).cols_ < 1
    · rw [ctor_error _ _ h3] at h; cases h
    · rw [S21.ctor_ok _ _ (by omega) (by omega)] at h
      rw [Obj.ctor_succeeds _ _ _ (by omega) (by omega)]
      cases h
      simp only [Obj.moveFrom, Obj.dtor]
      rw [mulLoop_fresh w.heap _ _ _ hp hq]
      exact ⟨trivial, view_after_move _ _ _ hthis _ hp _ _ _⟩


theorem set_getD_self (h : Heap) (a : Nat) (s : List (List ℚ)) (hs : h.getD a none = some s) :
    h.set a (some s) = h := by
  apply List.ext_getElem?
  intro k
  rw [List.getElem?_set]
  split
  · rename_i e
    subst e
    rw [List.getD_eq_getElem?_getD] at hs
    split
    · rename_i hlt
      rw [List.getElem?_eq_getElem hlt] at hs ⊢
      simp only [Option.getD_some] at hs
      rw [hs]
    · rename_i hlt
      rw [List.getElem?_eq_none (Nat.le_of_not_lt hlt)] at hs
      cases hs
  · rfl

theorem Mem.obj_same_objs (w : Mem) (h : Heap) (id : Nat) :
    (Mem.mk w.objs h).obj id = w.obj id := rfl

/-- An elementwise in-place loop on the store at address `a`, reading a store at
another address, is the loop on the store itself. -/
theorem inplace_loop (f : ℚ → ℚ → ℚ) (h : Heap) (a : Nat) (ha : a < h.length)
    (s : List (List ℚ)) (hs : h.getD a none = some s) (po : Option Nat) (hpo : po ≠ some a)
    (rows cols : Int) :
    (List.range rows.toNat).foldl (fun h2 i =>
      (List.range cols.toNat).foldl (fun h2 j =>
        heapWrite h2 (some a) i j (f (heapRead h2 (some a) i j) (heapRead h2 po i j))) h2) h
      = h.set a (some ((List.range rows.toNat).foldl (fun t i =>
          (List.range cols.toNat).foldl (fun t j =>
            rawSet t i j (f (rawGet t i j) (rawGet (heapStore h po) i j))) t) s)) := by
  have e : (List.range rows.toNat).foldl (fun h2 i =>
      (List.range cols.toNat).foldl (fun h2 j =>
        heapWrite h2 (some a) i j (f (heapRead h2 (some a) i j) (heapRead h2 po i j))) h2) h
      = (List.range rows.toNat).foldl (fun h2 i =>
      (List.range cols.toNat).foldl (fun h2 j =>
        heapWrite h2 (some a) i j (f (heapRead h2 (some a) i j) (heapRead h2 po i j))) h2)
        (h.set a (some s)) := by
    rw [set_getD_self h a s hs]
  rw [e]
  apply List.foldl_hom (fun t => h.set a (some t))
  intro s1 i
  apply List.foldl_hom (fun t => h.set a (some t))
  intro s2 j
  rw [heapWrite_set_self h a s2 ha]
  simp only [heapRead]
  rw [heapStore_set_self h a s2 ha, heapStore_set_other h a _ po hpo]

theorem Mem.SumMatrix_refines (w : Mem) (this other : Nat) (hl : w.Live this)
    (hne : (w.obj other).matrix_ ≠ (w.obj this).matrix_) (R : S21Matrix)
    (h : (w.view this).SumMatrix (w.view other) = .ok R) :
    (w.SumMatrix this other).2 = none ∧ (w.SumMatrix this other).1.view this = R ∧
      (w.SumMatrix this other).1.view other = w.view other := by
  obtain ⟨_, a, s, hp, hal, hs⟩ := hl
  rw [hp] at hne
  unfold S21Matrix.SumMatrix at h
  unfold Mem.SumMatrix
  simp only [Mem.view] at h
  split at h
  · cases h
  · rename_i hc
    rw [if_neg hc]
    cases h
    rw [hp, inplace_loop (fun x y => x + y) w.heap a hal s hs _ hne]
    refine ⟨rfl, ?_, ?_⟩
    · simp only [Mem.view, Mem.obj_same_objs]
      rw [hp, heapStore_set_self _ _ _ hal]
      simp only [S21Matrix.SumMatrix.loop, heapStore, hs, Option.getD_some]
    · simp only [Mem.view, Mem.obj_same_objs]
      rw [heapStore_set_other _ _ _ _ hne]

theorem Mem.SubMatrix_refines (w : Mem) (this other : Nat) (hl : w.Live this)
    (hne : (w.obj other).matrix_ ≠ (w.obj this).matrix_) (R : S21Matrix)
    (h : (w.view this).SubMatrix (w.view other) = .ok R) :
    (w.SubMatrix this other).2 = none ∧ (w.SubMatrix this other).1.view this = R ∧
      (w.SubMatrix this other).1.view other = w.view other := by
  obtain ⟨_, a, s, hp, hal, hs⟩ := hl
  rw [hp] at hne
  unfold S21Matrix.SubMatrix at h
  unfold Mem.SubMatrix
  simp only [Mem.view] at h
  split at h
  · cases h
  · rename_i hc
    rw [if_neg hc]
    cases h
    rw [hp, inplace_loop (fun x y => x - y) w.heap a hal s hs _ hne]
    refine ⟨rfl, ?_, ?_⟩
    · simp only [Mem.view, Mem.obj_same_objs]
      rw [hp, heapStore_set_self _ _ _ hal]
      simp only [S21Matrix.SubMatrix.loop, heapStore, hs, Option.getD_some]
    · simp only [Mem.view, Mem.obj_same_objs]
      rw [heapStore_set_other _ _ _ _ hne]

theorem callConst_fun_ok {α : Type} (f : S21Matrix → Except Error α) (a : S21Matrix) (r : α)
    (h : f a = .ok r) : callConst (fun m => f m) a = .ok (r, a) := by
  rw [callConst, h]

/-- C23: for a matrix `M` with `rows ≥ 2` and `cols ≥ 2`, `skip_row` in `[0, rows)`
and `skip_col` in `[0, cols)`, `GetMinor` returns without error a
`(rows-1) × (cols-1)` matrix whose cell `(r, c)` is `M(r', c')` with `r' = r` if
`r < skip_row` else `r + 1`, and `c' = c` if `c < skip_col` else `c + 1`; `M` is as
before. -/
theorem C23_GetMinor (M : S21Matrix) (skip_row skip_col : Int) (hM : WellFormed M)
    (hr : 2 ≤ M.rows_) (hc : 2 ≤ M.cols_) (ha0 : 0 ≤ skip_row) (ha : skip_row < M.rows_)
    (hb0 : 0 ≤ skip_col) (hb : skip_col < M.cols_) :
    ∃ minor, callConst (fun m => GetMinor m skip_row skip_col) M = .ok (minor, M) ∧
      minor.rows_ = M.rows_ - 1 ∧ minor.cols_ = M.cols_ - 1 ∧ WellFormed minor ∧
      ∀ r c : Nat, (r : Int) < M.rows_ - 1 → (c : Int) < M.cols_ - 1 →
        rawGet minor.matrix_ r c
          = rawGet M.matrix_ (if (r : Int) < skip_row then r else r + 1)
              (if (c : Int) < skip_col then c else c + 1) := by
  obtain ⟨m1, m2, m3⟩ := hM
  obtain ⟨R, hR⟩ : ∃ R : Nat, M.rows_ = ((R + 1 : Nat) : Int) :=
    ⟨M.rows_.toNat - 1, by omega⟩
  obtain ⟨C, hC⟩ : ∃ C : Nat, M.cols_ = ((C + 1 : Nat) : Int) :=
    ⟨M.cols_.toNat - 1, by omega⟩
  obtain ⟨a, rfl⟩ : ∃ a : Nat, skip_row = (a : Int) := ⟨skip_row.toNat, by omega⟩
  obtain ⟨b, rfl⟩ : ∃ b : Nat, skip_col = (b : Int) := ⟨skip_col.toNat, by omega⟩
  have hs : HasShape M (R + 1) (C + 1) := by
    refine ⟨hR, hC, ?_⟩
    have e1 : M.rows_.toNat = R + 1 := by omega
    have e2 : M.cols_.toNat = C + 1 := by omega
    rw [e1, e2] at m3
    exact m3
  obtain ⟨minor, g1, g2, g3⟩ := GetMinor_ok M R C a b hs (by omega) (by omega) (by omega)
    (by omega)
  refine ⟨minor, callConst_fun_ok _ _ _ g1, by rw [g2.1, hR]; push_cast; ring,
    by rw [g2.2.1, hC]; push_cast; ring, g2.wellFormed (by omega) (by omega), ?_⟩
  intro r c hr2 hc2
  rw [g3 r c (by omega) (by omega)]
  unfold skipIdx
  have e1 : ((r : Int) < (a : Int)) ↔ r < a := by omega
  have e2 : ((c : Int) < (b : Int)) ↔ c < b := by omega
  simp only [e1, e2]

theorem C23_GetMinor_witness :
    ∃ minor, callConst (fun m => GetMinor m 1 0) (ofRows 3 3 [[1, 2, 3], [4, 5, 6], [7, 8, 9]])
        = .ok (minor, ofRows 3 3 [[1, 2, 3], [4, 5, 6], [7, 8, 9]]) ∧
      minor.rows_ = 2 ∧ minor.cols_ = 2 ∧ WellFormed minor := by
  obtain ⟨minor, h1, h2, h3, h4, _⟩ := C23_GetMinor
    (ofRows 3 3 [[1, 2, 3], [4, 5, 6], [7, 8, 9]]) 1 0 (by decide) (by decide) (by decide)
    (by decide) (by decide) (by decide) (by decide)
  exact ⟨minor, h1, h2, h3, h4⟩

theorem EqMatrix_refl (A : S21Matrix) : A.EqMatrix A = true := by
  rw [EqMatrix_iff]
  refine ⟨rfl, rfl, ?_⟩
  intro i j _ _
  rw [sub_self, abs_zero]
  norm_num

theorem EqMatrix_symm (A B : S21Matrix) (h : A.EqMatrix B = true) : B.EqMatrix A = true := by
  rw [EqMatrix_iff] at h ⊢
  obtain ⟨h1, h2, h3⟩ := h
  refine ⟨h1.symm, h2.symm, ?_⟩
  intro i j hi hj
  rw [abs_sub_comm]
  exact h3 i j (by rw [h1]; exact hi) (by rw [h2]; exact hj)

/-- C24: `EqMatrix` is reflexive and symmetric, and `A.EqMatrix(B)` implies that `A`
and `B` have the same extents, but it is not transitive: for the `1 × 1` matrices
`[0]`, `[1e-7]`, `[2e-7]` the first two and the last two are equal while the first
and the last are not. -/
theorem C24_EqMatrix_relation :
    (∀ A : S21Matrix, A.EqMatrix A = true) ∧
    (∀ A B : S21Matrix, A.EqMatrix B = true → B.EqMatrix A = true) ∧
    (∀ A B : S21Matrix, A.EqMatrix B = true → A.rows_ = B.rows_ ∧ A.cols_ = B.cols_) ∧
    ((ofRows 1 1 [[0]]).EqMatrix (ofRows 1 1 [[1 / 10 ^ 7]]) = true ∧
      (ofRows 1 1 [[1 / 10 ^ 7]]).EqMatrix (ofRows 1 1 [[2 / 10 ^ 7]]) = true ∧
      (ofRows 1 1 [[0]]).EqMatrix (ofRows 1 1 [[2 / 10 ^ 7]]) = false) ∧
    ¬ (∀ A B C : S21Matrix, A.EqMatrix B = true → B.EqMatrix C = true →
        A.EqMatrix C = true) := by
  have ex : (ofRows 1 1 [[0]]).EqMatrix (ofRows 1 1 [[1 / 10 ^ 7]]) = true ∧
      (ofRows 1 1 [[1 / 10 ^ 7]]).EqMatrix (ofRows 1 1 [[2 / 10 ^ 7]]) = true ∧
      (ofRows 1 1 [[0]]).EqMatrix (ofRows 1 1 [[2 / 10 ^ 7]]) = false :=
    ⟨by decide!, by decide!, by decide!⟩
  refine ⟨EqMatrix_refl, EqMatrix_symm, ?_, ex, ?_⟩
  · intro A B h
    rw [EqMatrix_iff] at h
    exact ⟨h.1, h.2.1⟩
  · intro h
    have := h _ _ _ ex.1 ex.2.1
    rw [ex.2.2] at this
    cases this

theorem C24_EqMatrix_relation_witness :
    (ofRows 1 1 [[1 / 10 ^ 7]]).EqMatrix (ofRows 1 1 [[0]]) = true ∧
    (ofRows 1 1 [[0]]).rows_ = (ofRows 1 1 [[1 / 10 ^ 7]]).rows_ :=
  ⟨C24_EqMatrix_relation.2.1 (ofRows 1 1 [[0]]) (ofRows 1 1 [[1 / 10 ^ 7]]) (by decide!),
    (C24_EqMatrix_relation.2.2.1 (ofRows 1 1 [[0]]) (ofRows 1 1 [[1 / 10 ^ 7]])
      (by decide!)).1⟩

/-- C25: the `2 × 2` diagonal matrix with both diagonal entries `0.0001` has the
non-zero determinant `1e-8`, so it is invertible as a matrix of numbers, and yet
`InverseMatrix` fails on it with `SingularMatrix`: the test compares the absolute
value of the determinant with `1e-7`, it is not a test for zero. -/
theorem C25_threshold_not_zero_test :
    WellFormed (ofRows 2 2 [[1 / 10000, 0], [0, 1 / 10000]]) ∧
    (ofRows 2 2 [[1 / 10000, 0], [0, 1 / 10000]]).Determinant = .ok (1 / 10 ^ 8) ∧
    (1 / 10 ^ 8 : ℚ) ≠ 0 ∧
    Matrix.det (toMatrix (ofRows 2 2 [[1 / 10000, 0], [0, 1 / 10000]]).matrix_ 2) ≠ 0 ∧
    IsUnit (toMatrix (ofRows 2 2 [[1 / 10000, 0], [0, 1 / 10000]]).matrix_ 2) ∧
    (ofRows 2 2 [[1 / 10000, 0], [0, 1 / 10000]]).InverseMatrix = .error .SingularMatrix := by
  have hd : (ofRows 2 2 [[1 / 10000, 0], [0, 1 / 10000]]).Determinant = .ok (1 / 10 ^ 8) := by
    decide!
  have hdet : Matrix.det (toMatrix (ofRows 2 2 [[1 / 10000, 0], [0, 1 / 10000]]).matrix_ 2)
      = 1 / 10 ^ 8 := by
    have := Determinant_eq_det 2 (ofRows 2 2 [[1 / 10000, 0], [0, 1 / 10000]]) (by decide)
      (by decide)
    rw [hd] at this
    injection this with h
    exact h.symm
  have hne : (1 / 10 ^ 8 : ℚ) ≠ 0 := by norm_num
  refine ⟨by decide, hd, hne, by rw [hdet]; exact hne, ?_, by decide!⟩
  rw [Matrix.isUnit_iff_isUnit_det, hdet]
  exact isUnit_iff_ne_zero.2 hne

/-- Cells of `A.InverseMatrix() * A`: exactly those of the identity. -/
theorem InverseMatrix_MulMatrix (A : S21Matrix) (n : Nat) (hn : 1 ≤ n) (hA : HasShape A n n)
    (Ainv : S21Matrix) (h : A.InverseMatrix = .ok Ainv) :
    ∃ P, Ainv.MulMatrix A = .ok P ∧ HasShape P n n ∧
      ∀ i j, i < n → j < n → rawGet P.matrix_ i j = if i = j then 1 else 0 := by
  have hd : ¬ |Matrix.det (toMatrix A.matrix_ n)| < 1 / 10 ^ 7 := by
    intro hd
    rw [InverseMatrix_singular A n hn hA hd] at h
    cases h
  have hd0 : Matrix.det (toMatrix A.matrix_ n) ≠ 0 := by
    intro h0
    apply hd
    rw [h0]
    norm_num
  obtain ⟨compl, res, _, r1, _, r2, r3, r4⟩ := InverseMatrix_ok A n hn hA hd
  rw [r1] at h
  cases h
  have hIr : Ainv.rows_.toNat = n := by rw [r2.1]; simp
  have hIc : Ainv.cols_.toNat = n := by rw [r2.2.1]; simp
  have hAc : A.cols_.toNat = n := by rw [hA.2.1]; simp
  obtain ⟨P, p1, p2, p3, p4, p5⟩ := MulMatrix_ok Ainv A (r2.wellFormed hn hn)
    (hA.wellFormed hn hn) (by rw [r2.2.1, hA.1])
  refine ⟨P, p1, ⟨by rw [p2, r2.1], by rw [p3, hA.2.1], ?_⟩, ?_⟩
  · have := p4.2.2
    rw [p2, p3, hIr, hAc] at this
    exact this
  · intro i j hi hj
    rw [p5 i j (by omega) (by omega), hIc, Finset.sum_range]
    have step : ∀ k : Fin n, rawGet Ainv.matrix_ i k * rawGet A.matrix_ k j
        = Matrix.adjugate (toMatrix A.matrix_ n) ⟨i, hi⟩ k * (toMatrix A.matrix_ n) k ⟨j, hj⟩
          * (1 / Matrix.det (toMatrix A.matrix_ n)) := by
      intro k
      rw [r3 i k hi k.2, r4 ⟨i, hi⟩ k]
      simp only [toMatrix, Matrix.of_apply]
      ring
    rw [Finset.sum_congr rfl (fun k _ => step k), ← Finset.sum_mul, ← Matrix.mul_apply,
      Matrix.adjugate_mul, Matrix.smul_apply, Matrix.one_apply]
    by_cases e : i = j
    · subst e
      simp [hd0]
    · have : ¬ ((⟨i, hi⟩ : Fin n) = ⟨j, hj⟩) := by
        intro hh
        exact e (Fin.mk.inj_iff.1 hh)
      simp [e, this]

/-- C26: for every square matrix `A` with `|Determinant(A)| ≥ 1e-7` (cells read as
exact numbers), `InverseMatrix` succeeds and is also a left inverse:
`A.InverseMatrix() * A` computed by `MulMatrix` is cell for cell the `n × n`
identity matrix, and it is the same matrix as `A * A.InverseMatrix()`. -/
theorem C26_left_inverse (n : Nat) (A : S21Matrix) (d : ℚ) (hn : 1 ≤ n) (hA : HasShape A n n)
    (hd : A.Determinant = .ok d) (habs : 1 / 10 ^ 7 ≤ |d|) :
    ∃ Ainv L R, A.InverseMatrix = .ok Ainv ∧ Ainv.MulMatrix A = .ok L ∧
      A.MulMatrix Ainv = .ok R ∧
      (∀ i j, i < n → j < n → rawGet L.matrix_ i j = if i = j then 1 else 0) ∧
      L = identity n ∧ L = R := by
  have hdet : d = Matrix.det (toMatrix A.matrix_ n) := by
    rw [Determinant_eq_det n A hn hA] at hd
    injection hd with h
    exact h.symm
  have hnot : ¬ |Matrix.det (toMatrix A.matrix_ n)| < 1 / 10 ^ 7 := by
    rw [← hdet]
    exact not_lt.2 habs
  obtain ⟨_, Ainv, _, r1, _⟩ := InverseMatrix_ok A n hn hA hnot
  obtain ⟨L, l1, l2, l3⟩ := InverseMatrix_MulMatrix A n hn hA Ainv r1
  obtain ⟨R, q1, q2, q3⟩ := MulMatrix_InverseMatrix A n hn hA Ainv r1
  have eL : L = identity n := HasShape.eq_of_cells l2 (identity_hasShape n) (fun i j hi hj => by
    rw [l3 i j hi hj, rawGet_identity n i j hi hj])
  have eR : R = identity n := HasShape.eq_of_cells q2 (identity_hasShape n) (fun i j hi hj => by
    rw [q3 i j hi hj, rawGet_identity n i j hi hj])
  exact ⟨Ainv, L, R, r1, l1, q1, l3, eL, by rw [eL, eR]⟩

theorem C26_left_inverse_witness :
    ∃ Ainv L R, (ofRows 3 3 [[2, 5, 7], [6, 3, 4], [5, -2, -3]]).InverseMatrix = .ok Ainv ∧
      Ainv.MulMatrix (ofRows 3 3 [[2, 5, 7], [6, 3, 4], [5, -2, -3]]) = .ok L ∧
      (ofRows 3 3 [[2, 5, 7], [6, 3, 4], [5, -2, -3]]).MulMatrix Ainv = .ok R ∧
      L = identity 3 ∧ L = R := by
  obtain ⟨Ainv, L, R, h1, h2, h3, _, h5, h6⟩ :=
    C26_left_inverse 3 (ofRows 3 3 [[2, 5, 7], [6, 3, 4], [5, -2, -3]]) (-1) (by decide)
      (by decide) (by decide!) (by decide!)
  exact ⟨Ainv, L, R, h1, h2, h3, h5, h6⟩

/-- The source of a move construction is left in the empty state. -/
theorem Mem.ctorMove_source (w : Mem) (a : Nat) (ha : a < w.objs.length) :
    (w.ctorMove a).obj a = ⟨0, 0, none⟩ ∧ (w.ctorMove a).view a = ofRows 0 0 [] := by
  have m2 : (w.ctorMove a).obj a = ⟨0, 0, none⟩ := by
    have h1 := Mem.obj_append_old (w.objs.set a ⟨0, 0, none⟩) (w.obj a) w.heap a
      (by rw [List.length_set]; exact ha)
    have h2 := Mem.obj_set_self w.objs ⟨0, 0, none⟩ w.heap a ha
    rw [h2] at h1
    exact h1
  refine ⟨m2, ?_⟩
  simp only [Mem.view, m2]
  rfl

/-- C27: on the empty matrix a move leaves behind (`rows = 0`, `cols = 0`, no
store) `Determinant` returns `0` without error, `Transpose` and `CalcComplements`
fail with `InvalidDimension` (from the construction of their `0 × 0` result),
`InverseMatrix` fails with `SingularMatrix`, and `set_rows(n)` and `set_cols(n)`
fail with `InvalidDimension` for every `n ≥ 1`. -/
theorem C27_empty_matrix :
    (∀ (w : Mem) (a : Nat), a < w.objs.length → (w.ctorMove a).view a = ofRows 0 0 []) ∧
    (ofRows 0 0 []).Determinant = .ok 0 ∧
    (ofRows 0 0 []).Transpose = .error .InvalidDimension ∧
    (ofRows 0 0 []).CalcComplements = .error .InvalidDimension ∧
    (ofRows 0 0 []).InverseMatrix = .error .SingularMatrix ∧
    (∀ n : Int, 1 ≤ n →
      (ofRows 0 0 []).set_rows n = .error .InvalidDimension ∧
      (ofRows 0 0 []).set_cols n = .error .InvalidDimension) := by
  refine ⟨fun w a ha => (Mem.ctorMove_source w a ha).2, by decide!, by decide, by decide,
    by decide!, ?_⟩
  intro n hn
  constructor
  · rw [set_rows, if_neg (by omega), if_neg (by simp [ofRows]; omega),
      ctor_error _ _ (Or.inr (by decide))]
    rfl
  · rw [set_cols, if_neg (by omega), if_neg (by simp [ofRows]; omega),
      ctor_error _ _ (Or.inl (by decide))]
    rfl

theorem C27_empty_matrix_witness :
    (Mem.ctorMove (Mem.mk [⟨2, 2, some 0⟩] [some [[1, 2], [3, 4]]]) 0).view 0 = ofRows 0 0 [] ∧
    (ofRows 0 0 []).set_rows 3 = .error .InvalidDimension ∧
    (ofRows 0 0 []).set_cols 3 = .error .InvalidDimension :=
  ⟨C27_empty_matrix.1 (Mem.mk [⟨2, 2, some 0⟩] [some [[1, 2], [3, 4]]]) 0 (by decide),
    (C27_empty_matrix.2.2.2.2.2 3 (by decide)).1,
    (C27_empty_matrix.2.2.2.2.2 3 (by decide)).2⟩

/-- C28: copy-assigning from an empty moved-from object (`rows = 0`, `cols = 0`,
no store) into another object throws `InvalidDimension` and leaves the memory,
the destination included, as it was, whereas copy-constructing from the same
object succeeds and yields an empty matrix with `rows = 0` and `cols = 0`. -/
theorem C28_copy_of_empty (w : Mem) (d a : Nat) (hda : d ≠ a)
    (he : w.obj a = ⟨0, 0, none⟩) :
    w.opAssignCopy d a = (w, some .InvalidDimension) ∧
    (w.opAssignCopy d a).1.view d = w.view d ∧
    (w.ctorCopy a).view w.objs.length = ofRows 0 0 [] ∧
    ((w.ctorCopy a).obj w.objs.length).rows_ = 0 ∧
    ((w.ctorCopy a).obj w.objs.length).cols_ = 0 := by
  have e1 : w.opAssignCopy d a = (w, some .InvalidDimension) := by
    rw [Mem.opAssignCopy, if_neg hda, he]
    rfl
  have hobjs : (w.ctorCopy a).objs = w.objs ++ [⟨0, 0, some w.heap.length⟩] := by
    simp only [Mem.ctorCopy, Obj.ctorCopy, Obj.AllocateMatrix, he]
  have hheap : (w.ctorCopy a).heap = w.heap ++ [some []] := by
    simp only [Mem.ctorCopy, Obj.ctorCopy, Obj.AllocateMatrix, he]
    rfl
  have hb : (w.ctorCopy a).obj w.objs.length = ⟨0, 0, some w.heap.length⟩ := by
    rw [show w.ctorCopy a = Mem.mk (w.ctorCopy a).objs (w.ctorCopy a).heap from rfl, hobjs]
    exact Mem.obj_append_new _ _ _
  refine ⟨e1, by rw [e1], ?_, by rw [hb], by rw [hb]⟩
  simp only [Mem.view, hb, hheap]
  rw [heapStore_append_new]
  rfl

theorem C28_copy_of_empty_witness :
    Mem.opAssignCopy (Mem.mk [⟨2, 2, some 0⟩, ⟨0, 0, none⟩] [some [[1, 2], [3, 4]]]) 0 1
      = (Mem.mk [⟨2, 2, some 0⟩, ⟨0, 0, none⟩] [some [[1, 2], [3, 4]]],
          some .InvalidDimension) ∧
    (Mem.ctorCopy (Mem.mk [⟨2, 2, some 0⟩, ⟨0, 0, none⟩] [some [[1, 2], [3, 4]]]) 1).view 2
      = ofRows 0 0 [] :=
  ⟨(C28_copy_of_empty (Mem.mk [⟨2, 2, some 0⟩, ⟨0, 0, none⟩] [some [[1, 2], [3, 4]]]) 0 1
      (by decide) rfl).1,
    (C28_copy_of_empty (Mem.mk [⟨2, 2, some 0⟩, ⟨0, 0, none⟩] [some [[1, 2], [3, 4]]]) 0 1
      (by decide) rfl).2.2.1⟩

/-! ## Operators on objects -/

/-- The memory after a copy construction from an object whose pointer is valid
and whose store has the announced shape. -/
theorem Mem.ctorCopy_mem (w : Mem) (a : Nat) (hok : PtrOk w.heap (w.obj a).matrix_)
    (hs : Shaped (w.view a)) :
    w.ctorCopy a = ⟨w.objs ++ [⟨(w.obj a).rows_, (w.obj a).cols_, some w.heap.length⟩],
      w.heap ++ [some (heapStore w.heap (w.obj a).matrix_)]⟩ := by
  have hheap : (w.ctorCopy a).heap = w.heap ++ [some (heapStore w.heap (w.obj a).matrix_)] := by
    simp only [Mem.ctorCopy, Obj.ctorCopy, Obj.AllocateMatrix]
    rw [copyCells_fresh w.heap _ _ hok]
    have := copied_store (w.view a) hs
    simp only [Mem.view] at this
    rw [this]
  have hobjs : (w.ctorCopy a).objs
      = w.objs ++ [⟨(w.obj a).rows_, (w.obj a).cols_, some w.heap.length⟩] := rfl
  rw [show w.ctorCopy a = Mem.mk (w.ctorCopy a).objs (w.ctorCopy a).heap from rfl, hobjs, hheap]

theorem getD_append_new (h : Heap) (x : Option (List (List ℚ))) :
    (h ++ [x]).getD h.length none = x := by
  simp [List.getD_eq_getElem?_getD]

theorem heapDelete_append_new (h : Heap) (x : Option (List (List ℚ))) :
    heapDelete (h ++ [x]) (some h.length) = h ++ [none] := by
  simp only [heapDelete]
  rw [List.set_append_right _ _ (le_refl _)]
  simp

/-- Unwinding past a freshly copied object releases its store and leaves the
objects that were in scope before. -/
theorem Mem.unwindLast_fresh (objs : List Obj) (h : Heap) (r c : Int)
    (x : Option (List (List ℚ))) :
    (Mem.mk (objs ++ [⟨r, c, some h.length⟩]) (h ++ [x])).unwindLast
      = ⟨objs, h ++ [none]⟩ := by
  simp only [Mem.unwindLast, Obj.dtor]
  have e1 : (objs ++ [(⟨r, c, some h.length⟩ : Obj)]).length - 1 = objs.length := by simp
  rw [e1, Mem.obj_append_new]
  simp only []
  rw [heapDelete_append_new]
  simp

/-- Preservation of the objects in scope when the heap only grows. -/
theorem Mem.preserves_append (w : Mem) (newObjs : List Obj)
    (newCells : List (Option (List (List ℚ)))) :
    w.Preserves ⟨w.objs ++ newObjs, w.heap ++ newCells⟩ := by
  intro x hx hp
  have ho : (Mem.mk (w.objs ++ newObjs) (w.heap ++ newCells)).obj x = w.obj x := by
    simp [Mem.obj, List.getD_eq_getElem?_getD, List.getElem?_append_left hx]
  refine ⟨ho, ?_⟩
  simp only [Mem.view, ho]
  cases hq : (w.obj x).matrix_ with
  | none => rfl
  | some b =>
    have hb : b < w.heap.length := hp b hq
    simp [heapStore, List.getD_eq_getElem?_getD, List.getElem?_append_left hb]

theorem Mem.preserves_same_objs (w : Mem) (newCells : List (Option (List (List ℚ)))) :
    w.Preserves ⟨w.objs, w.heap ++ newCells⟩ := by
  have := Mem.preserves_append w [] newCells
  simpa using this

theorem Mem.opAdd_mem (w : Mem) (this other : Nat) (hother : other < w.objs.length)
    (hp : PtrOk w.heap (w.obj this).matrix_) (hq : PtrOk w.heap (w.obj other).matrix_)
    (hs : Shaped (w.view this)) :
    w.opAdd this other = match (w.view this).SumMatrix (w.view other) with
      | .ok R => (⟨w.objs ++ [⟨R.rows_, R.cols_, some w.heap.length⟩],
          w.heap ++ [some R.matrix_]⟩, none)
      | .error e => (⟨w.objs, w.heap ++ [none]⟩, some e) := by
  unfold Mem.opAdd
  rw [Mem.ctorCopy_mem w this hp hs]
  unfold Mem.SumMatrix S21Matrix.SumMatrix
  rw [Mem.obj_append_new, Mem.obj_append_old _ _ _ _ hother]
  simp only [Mem.view, Mem.obj_same_objs]
  by_cases hc : (w.obj this).rows_ ≠ (w.obj other).rows_ ∨ (w.obj this).cols_ ≠ (w.obj other).cols_
  · rw [if_pos hc, if_pos hc]
    simp only []
    rw [Mem.unwindLast_fresh]
  · rw [if_neg hc, if_neg hc]
    simp only []
    have hl : w.heap.length < (w.heap ++ [some (heapStore w.heap (w.obj this).matrix_)]).length := by
      simp
    rw [inplace_loop (fun x y => x + y) _ w.heap.length hl _ (getD_append_new _ _) _
      (ptr_ne_fresh w.heap _ hq), heapStore_append _ _ _ hq, ← append_eq_set]
    rfl

theorem Mem.opMul_mem (w : Mem) (this other : Nat) (hother : other < w.objs.length)
    (hp : PtrOk w.heap (w.obj this).matrix_) (hq : PtrOk w.heap (w.obj other).matrix_)
    (hs : Shaped (w.view this)) :
    w.opMul this other = match (w.view this).MulMatrix (w.view other) with
      | .ok R => (⟨w.objs ++ [⟨R.rows_, R.cols_, some (w.heap.length + 1)⟩],
          w.heap ++ [none, some R.matrix_]⟩, none)
      | .error e => (⟨w.objs, w.heap ++ [none]⟩, some e) := by
  unfold Mem.opMul
  rw [Mem.ctorCopy_mem w this hp hs]
  unfold Mem.MulMatrix S21Matrix.MulMatrix
  rw [Mem.obj_append_new, Mem.obj_append_old _ _ _ _ hother]
  simp only [Mem.view, Mem.obj_same_objs]
  by_cases h1 : (w.obj this).cols_ ≠ (w.obj other).rows_
  · rw [if_pos h1, if_pos h1]
    simp only []
    rw [Mem.unwindLast_fresh]
  · rw [if_neg h1, if_neg h1]
    by_cases h3 : (w.obj this).rows_ < 1 ∨ (w.obj other).cols_ < 1
    · rw [ctor_error _ _ h3, Obj.ctor_throws _ _ _ h3]
      simp only []
      rw [Mem.unwindLast_fresh]
      rfl
    · rw [S21.ctor_ok _ _ (by omega) (by omega), Obj.ctor_succeeds _ _ _ (by omega) (by omega)]
      simp only [Obj.moveFrom, Obj.dtor]
      have hp2 : PtrOk (w.heap ++ [some (heapStore w.heap (w.obj this).matrix_)])
          (some w.heap.length) := by
        intro a e
        cases e
        simp
      have hq2 : PtrOk (w.heap ++ [some (heapStore w.heap (w.obj this).matrix_)])
          (w.obj other).matrix_ := by
        intro a e
        have := hq a e
        simp
        omega
      rw [mulLoop_fresh _ _ _ _ hp2 hq2, heapStore_append_new, heapStore_append _ _ _ hq]
      have e1 : (w.objs ++ [(⟨(w.obj this).rows_, (w.obj this).cols_, some w.heap.length⟩ : Obj)]).set
          w.objs.length ⟨(w.obj this).rows_, (w.obj other).cols_,
            some (w.heap ++ [some (heapStore w.heap (w.obj this).matrix_)]).length⟩
          = w.objs ++ [⟨(w.obj this).rows_, (w.obj other).cols_, some (w.heap.length + 1)⟩] := by
        rw [List.set_append_right _ _ (le_refl _)]
        simp
      rw [e1]
      simp only [heapDelete]
      rw [List.append_assoc, List.set_append_right _ _ (le_refl _)]
      simp

theorem Mem.opSub_mem (w : Mem) (this other : Nat) (hother : other < w.objs.length)
    (hp : PtrOk w.heap (w.obj this).matrix_) (hq : PtrOk w.heap (w.obj other).matrix_)
    (hs : Shaped (w.view this)) :
    w.opSub this other = match (w.view this).SubMatrix (w.view other) with
      | .ok R => (⟨w.objs ++ [⟨R.rows_, R.cols_, some w.heap.length⟩],
          w.heap ++ [some R.matrix_]⟩, none)
      | .error e => (⟨w.objs, w.heap ++ [none]⟩, some e) := by
  unfold Mem.opSub
  rw [Mem.ctorCopy_mem w this hp hs]
  unfold Mem.SubMatrix S21Matrix.SubMatrix
  rw [Mem.obj_append_new, Mem.obj_append_old _ _ _ _ hother]
  simp only [Mem.view, Mem.obj_same_objs]
  by_cases hc : (w.obj this).rows_ ≠ (w.obj other).rows_ ∨ (w.obj this).cols_ ≠ (w.obj other).cols_
  · rw [if_pos hc, if_pos hc]
    simp only []
    rw [Mem.unwindLast_fresh]
  · rw [if_neg hc, if_neg hc]
    simp only []
    have hl : w.heap.length < (w.heap ++ [some (heapStore w.heap (w.obj this).matrix_)]).length := by
      simp
    rw [inplace_loop (fun x y => x - y) _ w.heap.length hl _ (getD_append_new _ _) _
      (ptr_ne_fresh w.heap _ hq), heapStore_append _ _ _ hq, ← append_eq_set]
    rfl

theorem Mem.opMulNumber_mem (w : Mem) (this : Nat) (num : ℚ)
    (hp : PtrOk w.heap (w.obj this).matrix_) (hs : Shaped (w.view this)) :
    w.opMulNumber this num
      = ⟨w.objs ++ [⟨(w.obj this).rows_, (w.obj this).cols_, some w.heap.length⟩],
          w.heap ++ [some ((w.view this).MulNumber num).matrix_]⟩ := by
  unfold Mem.opMulNumber
  rw [Mem.ctorCopy_mem w this hp hs]
  unfold Mem.MulNumber S21Matrix.MulNumber
  rw [Mem.obj_append_new]
  simp only [Mem.view]
  have hl : w.heap.length < (w.heap ++ [some (heapStore w.heap (w.obj this).matrix_)]).length := by
    simp
  have hn : (none : Option Nat) ≠ some w.heap.length := by simp
  rw [inplace_loop (fun x _ => x * num) _ w.heap.length hl _ (getD_append_new _ _) none hn,
    ← append_eq_set]

/-- In-place `MulNumber` on a live object. -/
theorem Mem.MulNumber_refines (w : Mem) (this : Nat) (num : ℚ) (hl : w.Live this) :
    (w.MulNumber this num).objs = w.objs ∧
      (w.MulNumber this num).view this = (w.view this).MulNumber num := by
  obtain ⟨_, a, s, hp, hal, hs⟩ := hl
  refine ⟨rfl, ?_⟩
  unfold Mem.MulNumber S21Matrix.MulNumber
  have hn : (none : Option Nat) ≠ some a := by simp
  rw [hp, inplace_loop (fun x _ => x * num) w.heap a hal s hs none hn]
  simp only [Mem.view, Mem.obj_same_objs]
  rw [hp, heapStore_set_self _ _ _ hal]
  simp only [heapStore, hs, Option.getD_some]

theorem Mem.EqMatrix_refines (w : Mem) (this other : Nat) :
    w.EqMatrix this other = (w.view this).EqMatrix (w.view other) := rfl

/-- The newly declared object stands for the matrix its pointer designates. -/
theorem Mem.view_new (objs : List Obj) (h : Heap) (o : Obj) :
    (Mem.mk (objs ++ [o]) h).view objs.length = ⟨o.rows_, o.cols_, heapStore h o.matrix_⟩ := by
  simp only [Mem.view]
  rw [Mem.obj_append_new]

theorem heapStore_append_two (h : Heap) (s : List (List ℚ)) :
    heapStore (h ++ [none, some s]) (some (h.length + 1)) = s := by
  have := heapStore_append_new (h ++ [none]) s
  simpa using this

/-- Binary `+` on objects against `SumMatrix` on the values. -/
theorem Mem.opAdd_refines (w : Mem) (this other : Nat) (hother : other < w.objs.length)
    (hp : PtrOk w.heap (w.obj this).matrix_) (hq : PtrOk w.heap (w.obj other).matrix_)
    (hs : Shaped (w.view this)) :
    (∀ R, (w.view this).SumMatrix (w.view other) = .ok R →
      ∃ w2, w.opAdd this other = (w2, none) ∧ w2.objs.length = w.objs.length + 1 ∧
        w2.view w.objs.length = R ∧ w.Preserves w2) ∧
    (∀ e, (w.view this).SumMatrix (w.view other) = .error e →
      ∃ w2, w.opAdd this other = (w2, some e) ∧ w2.objs = w.objs ∧ w.Preserves w2) := by
  have hm := Mem.opAdd_mem w this other hother hp hq hs
  constructor
  · intro R hR
    rw [hR] at hm
    refine ⟨_, hm, by simp, ?_, Mem.preserves_append w _ _⟩
    rw [Mem.view_new, heapStore_append_new]
  · intro e he
    rw [he] at hm
    exact ⟨_, hm, rfl, Mem.preserves_same_objs w _⟩

/-- Binary `-` on objects against `SubMatrix` on the values. -/
theorem Mem.opSub_refines (w : Mem) (this other : Nat) (hother : other < w.objs.length)
    (hp : PtrOk w.heap (w.obj this).matrix_) (hq : PtrOk w.heap (w.obj other).matrix_)
    (hs : Shaped (w.view this)) :
    (∀ R, (w.view this).SubMatrix (w.view other) = .ok R →
      ∃ w2, w.opSub this other = (w2, none) ∧ w2.objs.length = w.objs.length + 1 ∧
        w2.view w.objs.length = R ∧ w.Preserves w2) ∧
    (∀ e, (w.view this).SubMatrix (w.view other) = .error e →
      ∃ w2, w.opSub this other = (w2, some e) ∧ w2.objs = w.objs ∧ w.Preserves w2) := by
  have hm := Mem.opSub_mem w this other hother hp hq hs
  constructor
  · intro R hR
    rw [hR] at hm
    refine ⟨_, hm, by simp, ?_, Mem.preserves_append w _ _⟩
    rw [Mem.view_new, heapStore_append_new]
  · intro e he
    rw [he] at hm
    exact ⟨_, hm, rfl, Mem.preserves_same_objs w _⟩

/-- Binary `*` with a matrix on objects against `MulMatrix` on the values. -/
theorem Mem.opMul_refines (w : Mem) (this other : Nat) (hother : other < w.objs.length)
    (hp : PtrOk w.heap (w.obj this).matrix_) (hq : PtrOk w.heap (w.obj other).matrix_)
    (hs : Shaped (w.view this)) :
    (∀ R, (w.view this).MulMatrix (w.view other) = .ok R →
      ∃ w2, w.opMul this other = (w2, none) ∧ w2.objs.length = w.objs.length + 1 ∧
        w2.view w.objs.length = R ∧ w.Preserves w2) ∧
    (∀ e, (w.view this).MulMatrix (w.view other) = .error e →
      ∃ w2, w.opMul this other = (w2, some e) ∧ w2.objs = w.objs ∧ w.Preserves w2) := by
  have hm := Mem.opMul_mem w this other hother hp hq hs
  constructor
  · intro R hR
    rw [hR] at hm
    refine ⟨_, hm, by simp, ?_, Mem.preserves_append w _ _⟩
    rw [Mem.view_new, heapStore_append_two]
  · intro e he
    rw [he] at hm
    exact ⟨_, hm, rfl, Mem.preserves_same_objs w _⟩

/-- Binary `*` with a number on objects against `MulNumber` on the values. -/
theorem Mem.opMulNumber_refines (w : Mem) (this : Nat) (num : ℚ)
    (hp : PtrOk w.heap (w.obj this).matrix_) (hs : Shaped (w.view this)) :
    (w.opMulNumber this num).objs.length = w.objs.length + 1 ∧
      (w.opMulNumber this num).view w.objs.length = (w.view this).MulNumber num ∧
      w.Preserves (w.opMulNumber this num) := by
  rw [Mem.opMulNumber_mem w this num hp hs]
  refine ⟨by simp, ?_, Mem.preserves_append w _ _⟩
  rw [Mem.view_new, heapStore_append_new]
  rfl

/-- C21: for objects `A` (identity `this`) and `B` (identity `other`) in scope,
each with a valid pointer, `A` holding a store of its announced shape, and every
scalar `num`: `A + B`, `A - B`, `A * B` return in a new object exactly the matrix
that `SumMatrix(B)`, `SubMatrix(B)`, `MulMatrix(B)` leave in a copy of `A`, throw
exactly the error of that primitive when it fails (the copy then leaves the
scope), and in both cases every object in scope before the call, `A` and `B`
among them, is the same record standing for the same matrix; `A * num` returns in
a new object the matrix `MulNumber(num)` leaves in a copy of `A`, with the same
preservation; `A == B` returns `A.EqMatrix(B)`; and `+=`, `-=`, `*=` have on the
memory exactly the effect of `SumMatrix`, `SubMatrix`, `MulMatrix`, `MulNumber`
on the left operand: they throw what the primitive throws on the values and,
when it succeeds, leave in the left operand the matrix the primitive computes
(for the in-place `+=`, `-=` and `*= num` on a live left operand, for `+=` and
`-=` with `B` in a store of its own, which then stays as it was). -/
theorem C21_operators (w : Mem) (this other : Nat) (num : ℚ)
    (hthis : this < w.objs.length) (hother : other < w.objs.length)
    (hp : PtrOk w.heap (w.obj this).matrix_) (hq : PtrOk w.heap (w.obj other).matrix_)
    (hs : Shaped (w.view this)) :
    (ctorCopy (w.view this) = w.view this ∧
      (w.view this).opAdd (w.view other) = (w.view this).SumMatrix (w.view other) ∧
      (w.view this).opSub (w.view other) = (w.view this).SubMatrix (w.view other) ∧
      (w.view this).opMul (w.view other) = (w.view this).MulMatrix (w.view other) ∧
      (w.view this).opMulNumber num = (w.view this).MulNumber num) ∧
    ((∀ R, (w.view this).SumMatrix (w.view other) = .ok R →
        ∃ w2, w.opAdd this other = (w2, none) ∧ w2.objs.length = w.objs.length + 1 ∧
          w2.view w.objs.length = R ∧ w.Preserves w2) ∧
      (∀ e, (w.view this).SumMatrix (w.view other) = .error e →
        ∃ w2, w.opAdd this other = (w2, some e) ∧ w2.objs = w.objs ∧ w.Preserves w2)) ∧
    ((∀ R, (w.view this).SubMatrix (w.view other) = .ok R →
        ∃ w2, w.opSub this other = (w2, none) ∧ w2.objs.length = w.objs.length + 1 ∧
          w2.view w.objs.length = R ∧ w.Preserves w2) ∧
      (∀ e, (w.view this).SubMatrix (w.view other) = .error e →
        ∃ w2, w.opSub this other = (w2, some e) ∧ w2.objs = w.objs ∧ w.Preserves w2)) ∧
    ((∀ R, (w.view this).MulMatrix (w.view other) = .ok R →
        ∃ w2, w.opMul this other = (w2, none) ∧ w2.objs.length = w.objs.length + 1 ∧
          w2.view w.objs.length = R ∧ w.Preserves w2) ∧
      (∀ e, (w.view this).MulMatrix (w.view other) = .error e →
        ∃ w2, w.opMul this other = (w2, some e) ∧ w2.objs = w.objs ∧ w.Preserves w2)) ∧
    ((w.opMulNumber this num).objs.length = w.objs.length + 1 ∧
      (w.opMulNumber this num).view w.objs.length = (w.view this).MulNumber num ∧
      w.Preserves (w.opMulNumber this num)) ∧
    (w.opEq this other = w.EqMatrix this other ∧
      w.opEq this other = (w.view this).EqMatrix (w.view other) ∧
      (w.view this).opEq (w.view other) = (w.view this).EqMatrix (w.view other)) ∧
    (w.opAddAssign this other = w.SumMatrix this other ∧
      w.opSubAssign this other = w.SubMatrix this other ∧
      w.opMulAssign this other = w.MulMatrix this other ∧
      w.opMulNumberAssign this num = w.MulNumber this num) ∧
    ((∀ e, (w.opAddAssign this other).2 = some e ↔
        (w.view this).SumMatrix (w.view other) = .error e) ∧
      (∀ e, (w.opSubAssign this other).2 = some e ↔
        (w.view this).SubMatrix (w.view other) = .error e) ∧
      (∀ e, (w.opMulAssign this other).2 = some e ↔
        (w.view this).MulMatrix (w.view other) = .error e) ∧
      (∀ R, (w.view this).MulMatrix (w.view other) = .ok R →
        (w.opMulAssign this other).2 = none ∧ (w.opMulAssign this other).1.view this = R) ∧
      (w.Live this → (w.obj other).matrix_ ≠ (w.obj this).matrix_ →
        (∀ R, (w.view this).SumMatrix (w.view other) = .ok R →
          (w.opAddAssign this other).2 = none ∧ (w.opAddAssign this other).1.view this = R ∧
            (w.opAddAssign this other).1.view other = w.view other) ∧
        (∀ R, (w.view this).SubMatrix (w.view other) = .ok R →
          (w.opSubAssign this other).2 = none ∧ (w.opSubAssign this other).1.view this = R ∧
            (w.opSubAssign this other).1.view other = w.view other)) ∧
      (w.Live this → (w.opMulNumberAssign this num).objs = w.objs ∧
        (w.opMulNumberAssign this num).view this = (w.view this).MulNumber num)) := by
  have hc := ctorCopy_eq (w.view this) hs
  refine ⟨⟨hc, ?_, ?_, ?_, ?_⟩, Mem.opAdd_refines w this other hother hp hq hs,
    Mem.opSub_refines w this other hother hp hq hs,
    Mem.opMul_refines w this other hother hp hq hs,
    Mem.opMulNumber_refines w this num hp hs,
    ⟨rfl, Mem.EqMatrix_refines w this other, rfl⟩,
    ⟨rfl, rfl, rfl, rfl⟩,
    (Mem.SumMatrix_throws w this other).2, (Mem.SubMatrix_throws w this other).2,
    (Mem.MulMatrix_throws w this other).2,
    fun R hR => Mem.MulMatrix_refines w this other hthis hp hq R hR,
    fun hl hne => ⟨fun R hR => Mem.SumMatrix_refines w this other hl hne R hR,
      fun R hR => Mem.SubMatrix_refines w this other hl hne R hR⟩,
    fun hl => Mem.MulNumber_refines w this num hl⟩
  · rw [S21Matrix.opAdd, hc]
  · rw [S21Matrix.opSub, hc]
  · rw [S21Matrix.opMul, hc]
  · rw [S21Matrix.opMulNumber, hc]

theorem C21_operators_witness :
    (∃ w2, (Mem.mk [⟨2, 2, some 0⟩, ⟨2, 2, some 1⟩]
        [some [[1, 2], [3, 4]], some [[5, 6], [7, 8]]]).opAdd 0 1 = (w2, none) ∧
      w2.view 2 = ofRows 2 2 [[6, 8], [10, 12]] ∧
      w2.view 0 = ofRows 2 2 [[1, 2], [3, 4]] ∧ w2.view 1 = ofRows 2 2 [[5, 6], [7, 8]]) ∧
    (∃ w2, (Mem.mk [⟨2, 2, some 0⟩, ⟨2, 2, some 1⟩]
        [some [[1, 2], [3, 4]], some [[5, 6], [7, 8]]]).opMul 0 1 = (w2, none) ∧
      w2.view 2 = ofRows 2 2 [[19, 22], [43, 50]]) := by
  have h := C21_operators (Mem.mk [⟨2, 2, some 0⟩, ⟨2, 2, some 1⟩]
      [some [[1, 2], [3, 4]], some [[5, 6], [7, 8]]]) 0 1 2 (by decide) (by decide)
    (by intro x h; cases h; decide) (by intro x h; cases h; decide) (by decide)
  obtain ⟨w2, e1, _, e2, e3⟩ := h.2.1.1 (ofRows 2 2 [[6, 8], [10, 12]]) (by decide!)
  obtain ⟨w3, f1, _, f2, _⟩ := h.2.2.2.1.1 (ofRows 2 2 [[19, 22], [43, 50]]) (by decide!)
  refine ⟨⟨w2, e1, e2, ?_, ?_⟩, ⟨w3, f1, f2⟩⟩
  · exact (e3 0 (by decide) (by intro x h; cases h; decide)).2
  · exact (e3 1 (by decide) (by intro x h; cases h; decide)).2

/-! ## Well-formedness as an invariant -/

theorem WellFormed.toShaped {m : S21Matrix} (h : WellFormed m) : Shaped m :=
  ⟨by have := h.1; omega, by have := h.2.1; omega, h.2.2⟩

theorem Shaped.toWellFormed {m : S21Matrix} (h : Shaped m) (hr : 1 ≤ m.rows_)
    (hc : 1 ≤ m.cols_) : WellFormed m :=
  ⟨hr, hc, h.2.2⟩

theorem SumMatrix_wf (A B R : S21Matrix) (hA : WellFormed A) (h : A.SumMatrix B = .ok R) :
    WellFormed R := by
  by_cases hd : A.rows_ ≠ B.rows_ ∨ A.cols_ ≠ B.cols_
  · rw [SumMatrix, if_pos hd] at h; cases h
  · obtain ⟨A2, e, r, c, hsh, _⟩ := SumMatrix_ok A B hA.toShaped (by omega) (by omega)
    rw [e] at h
    cases h
    exact hsh.toWellFormed (by rw [r]; exact hA.1) (by rw [c]; exact hA.2.1)

theorem SubMatrix_wf (A B R : S21Matrix) (hA : WellFormed A) (h : A.SubMatrix B = .ok R) :
    WellFormed R := by
  by_cases hd : A.rows_ ≠ B.rows_ ∨ A.cols_ ≠ B.cols_
  · rw [SubMatrix, if_pos hd] at h; cases h
  · obtain ⟨A2, e, r, c, hsh, _⟩ := SubMatrix_ok A B hA.toShaped (by omega) (by omega)
    rw [e] at h
    cases h
    exact hsh.toWellFormed (by rw [r]; exact hA.1) (by rw [c]; exact hA.2.1)

theorem MulNumber_wf (A : S21Matrix) (num : ℚ) (hA : WellFormed A) :
    WellFormed (A.MulNumber num) :=
  (MulNumber_cells A num hA.toShaped).1.toWellFormed hA.1 hA.2.1

theorem MulMatrix_wf (A B R : S21Matrix) (hA : WellFormed A) (hB : WellFormed B)
    (h : A.MulMatrix B = .ok R) : WellFormed R := by
  by_cases hd : A.cols_ ≠ B.rows_
  · rw [MulMatrix, if_pos hd] at h; cases h
  · obtain ⟨A2, e, _, _, hwf, _⟩ := MulMatrix_ok A B hA hB (by omega)
    rw [e] at h
    cases h
    exact hwf

theorem set_rows_wf (A R : S21Matrix) (n : Int) (hA : WellFormed A)
    (h : A.set_rows n = .ok R) : WellFormed R := by
  by_cases hn : n < 1
  · rw [set_rows, if_pos hn] at h; cases h
  · obtain ⟨A2, e, _, _, hwf, _⟩ := set_rows_ok A hA n (by omega)
    rw [e] at h
    cases h
    exact hwf

theorem set_cols_wf (A R : S21Matrix) (n : Int) (hA : WellFormed A)
    (h : A.set_cols n = .ok R) : WellFormed R := by
  by_cases hn : n < 1
  · rw [set_cols, if_pos hn] at h; cases h
  · obtain ⟨A2, e, _, _, hwf, _⟩ := set_cols_ok A hA n (by omega)
    rw [e] at h
    cases h
    exact hwf

theorem opCallSet_wf (A R : S21Matrix) (row col : Int) (v : ℚ) (hA : WellFormed A)
    (h : A.opCallSet row col v = .ok R) : WellFormed R := by
  unfold opCallSet at h
  split at h
  · cases h
  · cases h
    exact ⟨hA.1, hA.2.1, rawSet_shape hA.2.2 _ _ _⟩

theorem Transpose_wf (A : S21Matrix) (hA : WellFormed A) :
    ∃ R, A.Transpose = .ok R ∧ WellFormed R := by
  obtain ⟨hs, h1, h2⟩ := hA.hasShape
  obtain ⟨R, e, hR, _⟩ := Transpose_ok A _ _ h1 h2 hs
  exact ⟨R, e, hR.wellFormed h2 h1⟩

theorem CalcComplements_wf (A R : S21Matrix) (hA : WellFormed A)
    (h : A.CalcComplements = .ok R) : WellFormed R := by
  by_cases hd : A.rows_ ≠ A.cols_
  · rw [CalcComplements_notSquare A hd] at h; cases h
  · obtain ⟨hs, h1, _⟩ := hA.hasShape
    have e : A.cols_.toNat = A.rows_.toNat := by omega
    rw [e] at hs
    obtain ⟨C, hC, hCs, _⟩ := CalcComplements_adjugate A _ h1 hs
    rw [hC] at h
    cases h
    exact hCs.wellFormed h1 h1

theorem InverseMatrix_wf (A R : S21Matrix) (hA : WellFormed A)
    (h : A.InverseMatrix = .ok R) : WellFormed R := by
  by_cases hd : A.rows_ ≠ A.cols_
  · rw [InverseMatrix_notSquare A hd] at h; cases h
  · obtain ⟨hs, h1, _⟩ := hA.hasShape
    have e : A.cols_.toNat = A.rows_.toNat := by omega
    rw [e] at hs
    by_cases hz : |Matrix.det (toMatrix A.matrix_ A.rows_.toNat)| < 1 / 10 ^ 7
    · rw [InverseMatrix_singular A _ h1 hs hz] at h; cases h
    · obtain ⟨_, res, _, hres, _, hRs, _⟩ := InverseMatrix_ok A _ h1 hs hz
      rw [hres] at h
      cases h
      exact hRs.wellFormed h1 h1

theorem Mem.opAssignCopy_wf (w : Mem) (d a : Nat) (ha : w.Live a) (hd : d < w.objs.length)
    (hdp : PtrOk w.heap (w.obj d).matrix_) (hns : d ≠ a → w.NoShare d a)
    (hwd : WellFormed (w.view d)) (hwa : WellFormed (w.view a)) :
    ∃ w1, w.opAssignCopy d a = (w1, none) ∧ WellFormed (w1.view d) := by
  by_cases hda : d = a
  · refine ⟨w, ?_, hwd⟩
    rw [Mem.opAssignCopy, if_pos hda]
  · obtain ⟨w1, e, hv, _⟩ := Mem.opAssignCopy_spec w d a ha hwa hd hda hdp (hns hda)
    exact ⟨w1, e, by rw [hv]; exact hwa⟩

/-- C22: well-formedness (`rows ≥ 1`, `cols ≥ 1`, a store of exactly `rows` rows
of exactly `cols` cells) holds for the default-constructed matrix, for every
matrix a parametrized construction returns, and for the copy of a well-formed
matrix; for well-formed `A` and `B` it holds for the receiver after every
successful `SumMatrix`, `SubMatrix`, `MulMatrix`, `set_rows`, `set_cols` and
element write and after `MulNumber`, for the destination of a copy assignment
between well-formed objects (which succeeds), for the matrix `Transpose` returns
(it succeeds), for every matrix `CalcComplements` or `InverseMatrix` returns, and
for every matrix the binary operators `+`, `-`, `*` return. -/
theorem C22_wellFormed_invariant (A B : S21Matrix) (num v : ℚ) (rows cols n row col : Int)
    (hA : WellFormed A) (hB : WellFormed B) :
    (WellFormed ctorDefault ∧
      (∀ m, ctor rows cols = .ok m → WellFormed m) ∧
      WellFormed (ctorCopy A)) ∧
    ((∀ R, A.SumMatrix B = .ok R → WellFormed R) ∧
      (∀ R, A.SubMatrix B = .ok R → WellFormed R) ∧
      WellFormed (A.MulNumber num) ∧
      (∀ R, A.MulMatrix B = .ok R → WellFormed R) ∧
      (∀ R, A.set_rows n = .ok R → WellFormed R) ∧
      (∀ R, A.set_cols n = .ok R → WellFormed R) ∧
      (∀ R, A.opCallSet row col v = .ok R → WellFormed R) ∧
      (∀ (w : Mem) (d a : Nat), w.Live a → d < w.objs.length →
        PtrOk w.heap (w.obj d).matrix_ → (d ≠ a → w.NoShare d a) →
        WellFormed (w.view d) → WellFormed (w.view a) →
        ∃ w1, w.opAssignCopy d a = (w1, none) ∧ WellFormed (w1.view d))) ∧
    ((∃ R, A.Transpose = .ok R ∧ WellFormed R) ∧
      (∀ R, A.CalcComplements = .ok R → WellFormed R) ∧
      (∀ R, A.InverseMatrix = .ok R → WellFormed R)) ∧
    ((∀ R, A.opAdd B = .ok R → WellFormed R) ∧
      (∀ R, A.opSub B = .ok R → WellFormed R) ∧
      (∀ R, A.opMul B = .ok R → WellFormed R) ∧
      WellFormed (A.opMulNumber num)) := by
  have hc := ctorCopy_eq A hA.toShaped
  refine ⟨⟨ctor_wellFormed 3 3 (by decide) (by decide), ?_, by rw [hc]; exact hA⟩,
    ⟨fun R h => SumMatrix_wf A B R hA h, fun R h => SubMatrix_wf A B R hA h,
      MulNumber_wf A num hA, fun R h => MulMatrix_wf A B R hA hB h,
      fun R h => set_rows_wf A R n hA h, fun R h => set_cols_wf A R n hA h,
      fun R h => opCallSet_wf A R row col v hA h,
      fun w d a ha hd hdp hns hwd hwa => Mem.opAssignCopy_wf w d a ha hd hdp hns hwd hwa⟩,
    ⟨Transpose_wf A hA, fun R h => CalcComplements_wf A R hA h,
      fun R h => InverseMatrix_wf A R hA h⟩,
    ⟨?_, ?_, ?_, ?_⟩⟩
  · intro m h
    by_cases hb : rows < 1 ∨ cols < 1
    · rw [ctor_error _ _ hb] at h; cases h
    · rw [S21.ctor_ok _ _ (by omega) (by omega)] at h
      cases h
      exact ctor_wellFormed _ _ (by omega) (by omega)
  · intro R h
    rw [S21Matrix.opAdd, hc] at h
    exact SumMatrix_wf A B R hA h
  · intro R h
    rw [S21Matrix.opSub, hc] at h
    exact SubMatrix_wf A B R hA h
  · intro R h
    rw [S21Matrix.opMul, hc] at h
    exact MulMatrix_wf A B R hA hB h
  · rw [S21Matrix.opMulNumber, hc]
    exact MulNumber_wf A num hA

theorem C22_wellFormed_invariant_witness :
    WellFormed (ofRows 2 2 [[1, 2], [3, 4]]) ∧ WellFormed (ofRows 2 3 [[1, 2, 3], [4, 5, 6]]) ∧
    WellFormed (ofRows 2 3 [[9, 12, 15], [19, 26, 33]]) ∧
    WellFormed (ofRows 2 2 [[-2, 1], [3 / 2, -1 / 2]]) :=
  ⟨by decide, by decide,
    (C22_wellFormed_invariant (ofRows 2 2 [[1, 2], [3, 4]]) (ofRows 2 3 [[1, 2, 3], [4, 5, 6]])
      2 0 3 3 3 0 0 (by decide) (by decide)).2.2.2.2.2.1 _ (by decide!),
    (C22_wellFormed_invariant (ofRows 2 2 [[1, 2], [3, 4]]) (ofRows 2 3 [[1, 2, 3], [4, 5, 6]])
      2 0 3 3 3 0 0 (by decide) (by decide)).2.2.1.2.2 _ (by decide!)⟩

/-! ## The binary64 rounding is round-to-nearest -/

theorem Double.pow2_eq_zpow (e : Int) : Double.pow2 e = (2 : ℚ) ^ e := by
  unfold Double.pow2
  split
  · rename_i h
    obtain ⟨n, rfl⟩ := Int.eq_ofNat_of_zero_le h
    simp
  · rename_i h
    have h2 : 0 ≤ -e := by omega
    obtain ⟨n, hn⟩ := Int.eq_ofNat_of_zero_le h2
    have : e = -(n : Int) := by omega
    subst this
    simp

theorem Double.pow2_pos (e : Int) : 0 < Double.pow2 e := by
  rw [Double.pow2_eq_zpow]
  positivity

theorem Double.log2Fuel_spec (fuel n : Nat) (h1 : 1 ≤ n) (h2 : n ≤ fuel) :
    2 ^ Double.log2Fuel fuel n ≤ n ∧ n < 2 ^ (Double.log2Fuel fuel n + 1) := by
  induction fuel generalizing n with
  | zero => omega
  | succ fuel ih =>
    unfold Double.log2Fuel
    split
    · rename_i h
      obtain ⟨a, b⟩ := ih (n / 2) (by omega) (by omega)
      rw [pow_succ] at b ⊢
      rw [pow_succ]
      constructor <;> omega
    · have : n = 1 := by omega
      subst this
      simp

/-- The leading bit: `2 ^ log2 n ≤ n < 2 ^ (log2 n + 1)` for `n ≥ 1`. -/
theorem Double.log2_spec (n : Nat) (h1 : 1 ≤ n) :
    2 ^ Double.log2 n ≤ n ∧ n < 2 ^ (Double.log2 n + 1) :=
  Double.log2Fuel_spec n n h1 (le_refl n)

/-- A quotient of naturals lies within one binade of the quotient of their leading bits. -/
theorem Double.quotient_binade (N D ln ld : Nat) (hD : 1 ≤ D)
    (n1 : 2 ^ ln ≤ N) (n2 : N < 2 ^ (ln + 1)) (d1 : 2 ^ ld ≤ D) (d2 : D < 2 ^ (ld + 1)) :
    (2 : ℚ) ^ ((ln : Int) - (ld : Int) - 1) ≤ (N : ℚ) / (D : ℚ) ∧
      (N : ℚ) / (D : ℚ) < (2 : ℚ) ^ ((ln : Int) - (ld : Int) + 1) := by
  have hDq : (0 : ℚ) < (D : ℚ) := by exact_mod_cast hD
  have n1q : (2 : ℚ) ^ ln ≤ (N : ℚ) := by exact_mod_cast n1
  have n2q : (N : ℚ) < (2 : ℚ) ^ (ln + 1) := by exact_mod_cast n2
  have d1q : (2 : ℚ) ^ ld ≤ (D : ℚ) := by exact_mod_cast d1
  have d2q : (D : ℚ) < (2 : ℚ) ^ (ld + 1) := by exact_mod_cast d2
  have two : (2 : ℚ) ≠ 0 := by norm_num
  have hp : (0 : ℚ) < 2 ^ ld := by positivity
  have hn : (0 : ℚ) < 2 ^ ln := by positivity
  constructor
  · rw [le_div_iff₀ hDq, zpow_sub₀ two, zpow_sub₀ two, zpow_natCast, zpow_natCast, zpow_one]
    calc (2 : ℚ) ^ ln / 2 ^ ld / 2 * (D : ℚ)
        ≤ (2 : ℚ) ^ ln / 2 ^ ld / 2 * 2 ^ (ld + 1) := by
          apply mul_le_mul_of_nonneg_left (le_of_lt d2q)
          positivity
      _ = (2 : ℚ) ^ ln := by
          rw [pow_succ]
          field_simp
      _ ≤ (N : ℚ) := n1q
  · rw [div_lt_iff₀ hDq, zpow_add₀ two, zpow_sub₀ two, zpow_natCast, zpow_natCast, zpow_one]
    calc (N : ℚ) < (2 : ℚ) ^ (ln + 1) := n2q
      _ = (2 : ℚ) ^ ln / 2 ^ ld * 2 * 2 ^ ld := by
          rw [pow_succ]
          field_simp
      _ ≤ (2 : ℚ) ^ ln / 2 ^ ld * 2 * (D : ℚ) := by
          apply mul_le_mul_of_nonneg_left d1q
          positivity

/-- The exponent found by `ilog2` is the binade of `a`: `2 ^ e ≤ a < 2 ^ (e + 1)`. -/
theorem Double.ilog2_spec (a : ℚ) (ha : 0 < a) :
    (2 : ℚ) ^ Double.ilog2 a ≤ a ∧ a < (2 : ℚ) ^ (Double.ilog2 a + 1) := by
  have hnum : 0 < a.num := Rat.num_pos.2 ha
  have hN : 1 ≤ a.num.toNat := by omega
  have hD : 1 ≤ a.den := a.den_pos
  obtain ⟨n1, n2⟩ := Double.log2_spec a.num.toNat hN
  obtain ⟨d1, d2⟩ := Double.log2_spec a.den hD
  have hcast : ((a.num.toNat : Nat) : ℚ) = (a.num : ℚ) := by
    have : ((a.num.toNat : Nat) : Int) = a.num := Int.toNat_of_nonneg (le_of_lt hnum)
    exact_mod_cast congrArg (fun z : Int => (z : ℚ)) this
  have hval : (a.num.toNat : ℚ) / (a.den : ℚ) = a := by
    rw [hcast]
    exact Rat.num_div_den a
  obtain ⟨lo, hi⟩ := Double.quotient_binade _ _ _ _ hD n1 n2 d1 d2
  rw [hval] at lo hi
  unfold Double.ilog2
  rw [Double.pow2_eq_zpow]
  split
  · rename_i h
    refine ⟨lo, ?_⟩
    rw [sub_add_cancel]
    exact h
  · rename_i h
    exact ⟨not_lt.1 h, hi⟩

/-- Rounding a quotient of naturals to the nearest integer moves it by at most one half. -/
theorem Double.quotient_near (n d : Nat) (hd : 1 ≤ d) :
    (2 * (n % d) ≤ d → |((n / d : Nat) : ℚ) - (n : ℚ) / (d : ℚ)| ≤ 1 / 2) ∧
    (d ≤ 2 * (n % d) → |((n / d + 1 : Nat) : ℚ) - (n : ℚ) / (d : ℚ)| ≤ 1 / 2) := by
  have hDq : (0 : ℚ) < (d : ℚ) := by exact_mod_cast hd
  have hdm := Nat.div_add_mod n d
  have hr : n % d < d := Nat.mod_lt _ (by omega)
  have hrq : ((n % d : Nat) : ℚ) < (d : ℚ) := by exact_mod_cast hr
  have e2 : (n : ℚ) = (d : ℚ) * ((n / d : Nat) : ℚ) + ((n % d : Nat) : ℚ) := by
    exact_mod_cast hdm.symm
  have hval : (n : ℚ) / (d : ℚ) = ((n / d : Nat) : ℚ) + ((n % d : Nat) : ℚ) / (d : ℚ) := by
    nth_rewrite 1 [e2]
    field_simp
    ring
  rw [hval]
  constructor
  · intro h
    have hq : (2 : ℚ) * ((n % d : Nat) : ℚ) ≤ (d : ℚ) := by exact_mod_cast h
    rw [sub_add_cancel_left, abs_neg, abs_of_nonneg (by positivity), div_le_iff₀ hDq]
    linarith
  · intro h
    have hq : (d : ℚ) ≤ 2 * ((n % d : Nat) : ℚ) := by exact_mod_cast h
    have e : ((n / d + 1 : Nat) : ℚ) - (((n / d : Nat) : ℚ) + ((n % d : Nat) : ℚ) / (d : ℚ))
        = ((d : ℚ) - ((n % d : Nat) : ℚ)) / (d : ℚ) := by
      push_cast
      field_simp
      ring
    rw [e, abs_of_nonneg (div_nonneg (by linarith) (le_of_lt hDq)), div_le_iff₀ hDq]
    linarith

/-- Rounding to an integer moves a number `m ≥ 0` by at most one half. -/
theorem Double.roundEven_near (m : ℚ) (hm : 0 ≤ m) :
    |(Double.roundEven m : ℚ) - m| ≤ 1 / 2 := by
  have hnum : 0 ≤ m.num := Rat.num_nonneg.2 hm
  have hD : 1 ≤ m.den := m.den_pos
  have hcast : ((m.num.toNat : Nat) : ℚ) = (m.num : ℚ) := by
    have : ((m.num.toNat : Nat) : Int) = m.num := Int.toNat_of_nonneg hnum
    exact_mod_cast congrArg (fun z : Int => (z : ℚ)) this
  have hval : (m.num.toNat : ℚ) / (m.den : ℚ) = m := by
    rw [hcast]
    exact Rat.num_div_den m
  obtain ⟨down, up⟩ := Double.quotient_near m.num.toNat m.den hD
  rw [hval] at down up
  unfold Double.roundEven
  split
  · exact down (by omega)
  · split
    · exact up (by omega)
    · split
      · exact down (by omega)
      · exact up (by omega)

/-- The binary64 neighbour chosen by `nearest` lies within half the spacing of `|q|`. -/
theorem Double.nearest_near (q : ℚ) :
    abs (Double.nearest q - abs q) ≤ Double.quantum q / 2 := by
  have hQ : 0 < Double.quantum q := Double.pow2_pos _
  have h := Double.roundEven_near (|q| / Double.quantum q)
    (div_nonneg (abs_nonneg q) (le_of_lt hQ))
  unfold Double.nearest
  have e : (Double.roundEven (|q| / Double.quantum q) : ℚ) * Double.quantum q - |q|
      = ((Double.roundEven (|q| / Double.quantum q) : ℚ) - |q| / Double.quantum q)
          * Double.quantum q := by
    field_simp
  rw [e, abs_mul, abs_of_pos hQ]
  have h3 := mul_le_mul_of_nonneg_right h (le_of_lt hQ)
  linarith

/-- The spacing used for `q ≠ 0`: `2 ^ (e - 52)` for the binade
`2 ^ e ≤ |q| < 2 ^ (e + 1)` of a normal number, `2 ^ (-1074)` below `2 ^ (-1022)`. -/
theorem Double.quantum_spec (q : ℚ) (hq : q ≠ 0) :
    ∃ e : Int, (2 : ℚ) ^ e ≤ abs q ∧ abs q < (2 : ℚ) ^ (e + 1) ∧
      Double.quantum q = if -1022 ≤ e then (2 : ℚ) ^ (e - 52) else (2 : ℚ) ^ (-1074 : Int) := by
  obtain ⟨h1, h2⟩ := Double.ilog2_spec |q| (abs_pos.2 hq)
  refine ⟨Double.ilog2 |q|, h1, h2, ?_⟩
  unfold Double.quantum
  rw [Double.pow2_eq_zpow]
  split
  · rename_i h
    rw [max_eq_left h]
  · rename_i h
    rw [max_eq_right (by omega)]
    norm_num

/-- The neighbour chosen by `nearest` has a significand of at most 53 bits: it is
`k` times the spacing for a natural `k ≤ 2 ^ 53`. -/
theorem Double.nearest_significand (q : ℚ) (hq : q ≠ 0) :
    ∃ k : Nat, k ≤ 2 ^ 53 ∧ Double.nearest q = (k : ℚ) * Double.quantum q := by
  refine ⟨Double.roundEven (abs q / Double.quantum q), ?_, rfl⟩
  have hQ : 0 < Double.quantum q := Double.pow2_pos _
  have h := Double.roundEven_near (abs q / Double.quantum q)
    (div_nonneg (abs_nonneg q) (le_of_lt hQ))
  obtain ⟨e, _, h2, h3⟩ := Double.quantum_spec q hq
  have two : (2 : ℚ) ≠ 0 := by norm_num
  have hm : abs q / Double.quantum q < 2 ^ 53 := by
    rw [div_lt_iff₀ hQ, h3]
    split
    · have e1 : (2 : ℚ) ^ 53 * 2 ^ (e - 52) = 2 ^ (e + 1) := by
        rw [show (2 : ℚ) ^ 53 = (2 : ℚ) ^ (53 : Int) from by norm_cast, ← zpow_add₀ two]
        congr 1
        omega
      rw [e1]
      exact h2
    · rename_i hlt
      have e1 : (2 : ℚ) ^ 53 * 2 ^ (-1074 : Int) = 2 ^ (-1021 : Int) := by
        rw [show (2 : ℚ) ^ 53 = (2 : ℚ) ^ (53 : Int) from by norm_cast, ← zpow_add₀ two]
        norm_num
      rw [e1]
      have hle : (2 : ℚ) ^ (e + 1) ≤ 2 ^ (-1021 : Int) :=
        zpow_le_zpow_right₀ (by norm_num) (by omega)
      exact lt_of_lt_of_le h2 hle
  have hk : (Double.roundEven (abs q / Double.quantum q) : ℚ) < 2 ^ 53 + 1 := by
    have := (abs_le.1 h).2
    linarith
  have hk2 : Double.roundEven (abs q / Double.quantum q) < 2 ^ 53 + 1 := by exact_mod_cast hk
  omega

/-- Values of the binary64 model at the edges of the format: decimal literals,
ties to even, the largest finite number and overflow, the smallest subnormal and
underflow, and the operations that yield NaN or an infinity. -/
theorem Double.model_anchors :
    (Double.lit (1 / 10) = .fin (3602879701896397 / 2 ^ 55) ∧
      Double.lit (1 / 10 ^ 7) = .fin (944473296573929 / 2 ^ 73) ∧
      Double.div (Double.lit 1) (Double.lit 3) = .fin (6004799503160661 / 2 ^ 54)) ∧
    (Double.round (2 ^ 53 + 1) = .fin (2 ^ 53) ∧
      Double.round (2 ^ 53 + 3) = .fin (2 ^ 53 + 4) ∧
      Double.add (Double.lit (10 ^ 16)) (Double.lit 1) = .fin (10 ^ 16)) ∧
    (Double.round (2 ^ 1024 - 2 ^ 970 - 1) = .fin (2 ^ 1024 - 2 ^ 971) ∧
      Double.round (2 ^ 1024 - 2 ^ 970) = .inf false ∧
      Double.mul (Double.lit (10 ^ 200)) (Double.lit (-(10 ^ 200))) = .inf true) ∧
    (Double.round (3 / 2 ^ 1076) = .fin (1 / 2 ^ 1074) ∧
      Double.round (1 / 2 ^ 1075) = .zero false ∧
      Double.round (-(1 / 2 ^ 1076)) = .zero true) ∧
    (Double.add (.inf false) (.inf true) = .nan ∧
      Double.mul (.zero false) (.inf false) = .nan ∧
      Double.div (.zero false) (.zero true) = .nan ∧
      Double.div (Double.lit 1) (.zero true) = .inf true ∧
      Double.add (Double.lit 1) (Double.lit (-1)) = .zero false ∧
      Double.gt (Double.fabs .nan) (Double.lit (1 / 10 ^ 7)) = false ∧
      Double.lt (Double.fabs .nan) (Double.lit (1 / 10 ^ 7)) = false) := by
  refine ⟨⟨by decide!, by decide!, by decide!⟩, ⟨by decide!, by decide!, by decide!⟩,
    ⟨by decide!, by decide!, by decide!⟩, ⟨by decide!, by decide!, by decide!⟩,
    by decide!, by decide!, by decide!, by decide!, by decide!, by decide!, by decide!⟩

/-! ## Binary64 cells: where rounding and NaN show -/

/-- C3, counterexample in binary64 arithmetic: on the matrix
`[[94906265, 94906262], [94906268, 94906265]]`, whose cells and determinant `9`
are binary64 numbers, `InverseMatrix` succeeds, and the product
`A * A.InverseMatrix()` computed by `MulMatrix` is
`[[0.875, -0.125], [-0.125, 0.875]]`, which `EqMatrix` tells apart from the
identity matrix. -/
theorem C3_right_inverse_fails_in_binary64 :
    (Fp.ofRows 2 2 [[Double.lit 94906265, Double.lit 94906262],
        [Double.lit 94906268, Double.lit 94906265]]).Determinant = .ok (Double.lit 9) ∧
    (Fp.ofRows 2 2 [[Double.lit 94906265, Double.lit 94906262],
        [Double.lit 94906268, Double.lit 94906265]]).InverseMatrix
      = .ok (Fp.ofRows 2 2
          [[.fin (5661379227229297 / 2 ^ 29), .fin (-(5661379048272327 / 2 ^ 29))],
           [.fin (-(1415344851546567 / 2 ^ 27)), .fin (5661379227229297 / 2 ^ 29)]]) ∧
    (Fp.ofRows 2 2 [[Double.lit 94906265, Double.lit 94906262],
        [Double.lit 94906268, Double.lit 94906265]]).MulMatrix
      (Fp.ofRows 2 2
          [[.fin (5661379227229297 / 2 ^ 29), .fin (-(5661379048272327 / 2 ^ 29))],
           [.fin (-(1415344851546567 / 2 ^ 27)), .fin (5661379227229297 / 2 ^ 29)]])
      = .ok (Fp.ofRows 2 2 [[Double.lit (7 / 8), Double.lit (-(1 / 8))],
          [Double.lit (-(1 / 8)), Double.lit (7 / 8)]]) ∧
    (Fp.ofRows 2 2 [[Double.lit (7 / 8), Double.lit (-(1 / 8))],
        [Double.lit (-(1 / 8)), Double.lit (7 / 8)]]).EqMatrix (Fp.identity 2) = false ∧
    (ofRows 2 2 [[94906265, 94906262], [94906268, 94906265]]).Determinant = .ok 9 := by
  refine ⟨by decide!, by decide!, by decide!, by decide!, by decide!⟩

/-- C14, counterexample in binary64 arithmetic: for the `1 × 1` matrices
`A = [1e16]`, `B = [-1e16]`, `C = [1]` the sum `(A + B) + C` is `[1]` and
`A + (B + C)` is `[0]` (`-1e16 + 1` rounds to `-1e16`), and `EqMatrix` tells them
apart. -/
theorem C14_add_assoc_fails_in_binary64 :
    Fp.S21Matrix.opAdd (Fp.ofRows 1 1 [[Double.lit (10 ^ 16)]])
        (Fp.ofRows 1 1 [[Double.lit (-(10 ^ 16))]]) = .ok (Fp.ofRows 1 1 [[Double.lit 0]]) ∧
    Fp.S21Matrix.opAdd (Fp.ofRows 1 1 [[Double.lit 0]]) (Fp.ofRows 1 1 [[Double.lit 1]])
      = .ok (Fp.ofRows 1 1 [[Double.lit 1]]) ∧
    Fp.S21Matrix.opAdd (Fp.ofRows 1 1 [[Double.lit (-(10 ^ 16))]])
        (Fp.ofRows 1 1 [[Double.lit 1]]) = .ok (Fp.ofRows 1 1 [[Double.lit (-(10 ^ 16))]]) ∧
    Fp.S21Matrix.opAdd (Fp.ofRows 1 1 [[Double.lit (10 ^ 16)]])
        (Fp.ofRows 1 1 [[Double.lit (-(10 ^ 16))]]) = .ok (Fp.ofRows 1 1 [[Double.lit 0]]) ∧
    (Fp.ofRows 1 1 [[Double.lit 1]]).EqMatrix (Fp.ofRows 1 1 [[Double.lit 0]]) = false ∧
    Double.lit (10 ^ 16) = .fin (10 ^ 16) ∧ Double.lit 1 = .fin 1 := by
  refine ⟨by decide!, by decide!, by decide!, by decide!, by decide!, by decide!, by decide!⟩

end S21
